import Mathlib

/-!
dv-custom-modules: legacy event codec and spatiotemporal noise filter

A shallow embedding of `src/aedat4_convert.cpp` (`dvConvertToAedat4`), of
`src/sionoise.cpp` (`Sionoise`), of the method `davis::run` of `src/davis.cpp` and of
the level helpers of `src/log.hpp`, followed by the properties proved about them.

Conventions of the embedding:
* C++ `int`, `int16_t`, `int32_t`, `int64_t` values are `Int`; unsigned values are
  `Int` as well and are kept in range by an explicit `% 2^w` at every cast.
* Signed `int` arithmetic on coordinates, sizes and addresses is exact: signed overflow
  is undefined in C++ and the sensor geometry keeps these values far below `2^31`.
* A `std::vector` is a `List`; `operator[]` outside the vector is undefined
  behaviour in C++ and is `none` in the embedding, so every function that indexes
  a vector returns an `Option`.
-/

namespace dv

/-! ## Machine integer casts -/

/-- The number of values of a 32-bit word, `2^32`. -/
def UINT32_RANGE : Int := 4294967296

/-- The conversion `static_cast<uint32_t>(v)`: reduction modulo `2^32`. -/
def toUInt32 (v : Int) : Int := v % UINT32_RANGE

/-- The conversion `static_cast<int32_t>(v)`: reduction modulo `2^32` into `[-2^31, 2^31)`. -/
def toInt32 (v : Int) : Int := (v + 2147483648) % UINT32_RANGE - 2147483648

/-- The conversion `static_cast<int16_t>(v)`: reduction modulo `2^16` into `[-2^15, 2^15)`. -/
def toInt16 (v : Int) : Int := (v + 32768) % 65536 - 32768

/-- The conversion `static_cast<uint8_t>(v)`: reduction modulo `2^8`. -/
def toUInt8 (v : Int) : Int := v % 256

/-! ## Typed output records (dv-sdk) -/

/-- The record `dv::Event`: `int64_t` timestamp, `int16_t` x and y, `bool` polarity. -/
structure Event where
  timestamp : Int
  x : Int
  y : Int
  polarity : Bool
deriving DecidableEq, Repr

/-- The enumeration `dv::FrameFormat`. -/
inductive FrameFormat where
  | GRAY
  | BGR
  | BGRA
deriving DecidableEq, Repr

/-- The record `dv::Frame`: five `int64_t` timestamps, `int16_t` size and position, the
pixel format and the `std::vector<uint8_t>` pixel buffer. -/
structure Frame where
  timestamp : Int
  timestampStartOfFrame : Int
  timestampStartOfExposure : Int
  timestampEndOfExposure : Int
  timestampEndOfFrame : Int
  sizeX : Int
  sizeY : Int
  positionX : Int
  positionY : Int
  format : FrameFormat
  pixels : List Int
deriving DecidableEq, Repr

/-- The record `dv::IMU`. A `float` is carried as its 32-bit pattern: the codec only
copies these fields. -/
structure IMU where
  timestamp : Int
  temperature : Int
  accelerometerX : Int
  accelerometerY : Int
  accelerometerZ : Int
  gyroscopeX : Int
  gyroscopeY : Int
  gyroscopeZ : Int
deriving DecidableEq, Repr

/-- The enumeration `dv::TriggerType`. -/
inductive TriggerType where
  | TIMESTAMP_RESET
  | EXTERNAL_SIGNAL_RISING_EDGE
  | EXTERNAL_SIGNAL_FALLING_EDGE
  | EXTERNAL_SIGNAL_PULSE
  | EXTERNAL_GENERATOR_RISING_EDGE
  | EXTERNAL_GENERATOR_FALLING_EDGE
  | APS_FRAME_START
  | APS_FRAME_END
  | APS_EXPOSURE_START
  | APS_EXPOSURE_END
deriving DecidableEq, Repr

/-- The record `dv::Trigger`. -/
structure Trigger where
  timestamp : Int
  type : TriggerType
deriving DecidableEq, Repr

/-! ## Legacy packets (libcaer), as seen through the accessors the codec calls -/

/-- A legacy polarity event: `isValid()`, `getTimestamp()` (`int32_t`), `getX()` and
`getY()` (`uint16_t`), `getPolarity()`. -/
structure PolarityEvent where
  valid : Bool
  timestamp : Int
  x : Int
  y : Int
  polarity : Bool
deriving DecidableEq, Repr

/-- A legacy frame event: validity, the five 32-bit timestamps, `getLengthX()`,
`getLengthY()`, `getPositionX()`, `getPositionY()` (`int32_t`), `getChannelNumber()`,
`getPixelsMaxIndex()` and the array of 16-bit samples behind `getPixelArrayUnsafe()`. -/
structure FrameEvent where
  valid : Bool
  timestamp : Int
  tsStartOfFrame : Int
  tsStartOfExposure : Int
  tsEndOfExposure : Int
  tsEndOfFrame : Int
  lengthX : Int
  lengthY : Int
  positionX : Int
  positionY : Int
  channelNumber : Int
  pixelsMaxIndex : Nat
  pixelArray : List Int
deriving DecidableEq, Repr

/-- A legacy IMU6 event; a `float` is carried as its 32-bit pattern. -/
structure IMU6Event where
  valid : Bool
  timestamp : Int
  temp : Int
  accelX : Int
  accelY : Int
  accelZ : Int
  gyroX : Int
  gyroY : Int
  gyroZ : Int
deriving DecidableEq, Repr

/-- The value of `getType()` of a legacy special event: the ten subtypes the codec
names, and `other code` for every other subtype code. -/
inductive SpecialEventType where
  | TIMESTAMP_RESET
  | EXTERNAL_INPUT_RISING_EDGE
  | EXTERNAL_INPUT_FALLING_EDGE
  | EXTERNAL_INPUT_PULSE
  | EXTERNAL_GENERATOR_RISING_EDGE
  | EXTERNAL_GENERATOR_FALLING_EDGE
  | APS_FRAME_START
  | APS_FRAME_END
  | APS_EXPOSURE_START
  | APS_EXPOSURE_END
  | other (code : Nat)
deriving DecidableEq, Repr

/-- A legacy special event: validity, 32-bit timestamp and subtype. -/
structure SpecialEvent where
  valid : Bool
  timestamp : Int
  type : SpecialEventType
deriving DecidableEq, Repr

/-- The event-type tag of a legacy packet together with the event array it announces:
the tag decides how the array is read, so both are one constructor. `unknown` stands
for every tag other than the four the codec dispatches on. -/
inductive EventArray where
  | POLARITY_EVENT (events : List PolarityEvent)
  | FRAME_EVENT (events : List FrameEvent)
  | IMU6_EVENT (events : List IMU6Event)
  | SPECIAL_EVENT (events : List SpecialEvent)
  | unknown (eventType : Int)
deriving DecidableEq, Repr

/-- A legacy packet: the declared valid-event count (`int32_t`), the timestamp overflow
counter used to rebuild 64-bit timestamps, and the tagged event array. -/
structure caerEventPacket where
  eventValid : Int
  eventTSOverflow : Int
  events : EventArray
deriving DecidableEq, Repr

/-- The timestamp-reconstruction rule of a packet (`getTimestamp64` and its siblings in
libcaer): from the overflow counter of the packet and a 32-bit timestamp field to the
64-bit timestamp. The codec is parametric in it. -/
abbrev TimestampRule := Int → Int → Int

/-! ## Output sinks (dv-sdk module outputs) -/

/-- Modelled from the spec: one named output of the module data, driven by the
"allocate new output object", "append record(s)", "commit" protocol of the sink
interface (`dvModuleOutputAllocate` and `dvModuleOutputCommit` are not in the sources).
`allocated` counts the objects allocated, `current` is the object being written and
`committed` lists the objects committed, oldest first. -/
structure Output (α : Type) where
  allocated : Nat
  current : Option α
  committed : List α
deriving DecidableEq, Repr

namespace Output

/-- Modelled from the spec: `dvModuleOutputAllocate` on this output, a new output object
`fresh` becomes the current one. -/
def allocate {α : Type} (o : Output α) (fresh : α) : Output α :=
  { o with allocated := o.allocated + 1, current := some fresh }

/-- A write through the pointer returned by the allocation: the current object is
replaced by its new value. -/
def write {α : Type} (o : Output α) (obj : α) : Output α :=
  { o with current := some obj }

/-- Modelled from the spec: `dvModuleOutputCommit` on this output, the current object is
handed to the consumer. -/
def commit {α : Type} (o : Output α) : Output α :=
  match o.current with
  | none => o
  | some obj => { o with current := none, committed := o.committed ++ [obj] }

end Output

/-- The outputs reachable through a `dvModuleData` handle: "events", "frames", "imu"
and "triggers". -/
structure ModuleData where
  events : Output (List Event)
  frames : Output Frame
  imu : Output (List IMU)
  triggers : Output (List Trigger)
deriving DecidableEq, Repr

/-! ## Legacy event codec (`src/aedat4_convert.cpp`) -/

/-- The right shift `v >> 8` of a promoted 16-bit sample. -/
def shr8 (v : Int) : Int := v >>> (8 : Nat)

/-- A default-constructed `dv::Frame`. -/
def Frame.fresh : Frame :=
  { timestamp := 0, timestampStartOfFrame := 0, timestampStartOfExposure := 0,
    timestampEndOfExposure := 0, timestampEndOfFrame := 0, sizeX := 0, sizeY := 0,
    positionX := 0, positionY := 0, format := FrameFormat.GRAY, pixels := [] }

/-- The call `pixels.resize(n)` on a `std::vector<uint8_t>`: truncation, or padding with
zeros. -/
def resize (pixels : List Int) (n : Nat) : List Int :=
  pixels.take n ++ List.replicate (n - pixels.length) 0

/-- The write `pixels[i] = v`, `none` when `i` is outside the buffer. -/
def setPixel (pixels : List Int) (i : Nat) (v : Int) : Option (List Int) :=
  if i < pixels.length then some (pixels.set i v) else none

/-- The loop of the POLARITY_EVENT branch: invalid events are skipped, a valid one is
appended to `elements` with its 64-bit timestamp, x, y and polarity; x and y go from
`uint16_t` to the `int16_t` members of `dv::Event`. -/
def polarityLoop (ts64 : TimestampRule) (tsOverflow : Int) :
    List PolarityEvent → List Event → List Event
  | [], elements => elements
  | evt :: rest, elements =>
    if !evt.valid then polarityLoop ts64 tsOverflow rest elements
    else
      polarityLoop ts64 tsOverflow rest
        (elements ++ [{ timestamp := ts64 tsOverflow evt.timestamp, x := toInt16 evt.x,
                        y := toInt16 evt.y, polarity := evt.polarity }])

/-- The frame format selection of the FRAME_EVENT branch; `RGB` is 3 and `RGBA` is 4 in
`libcaer::events::FrameEvent::colorChannels`. -/
def frameFormat (channelNumber : Int) : FrameFormat :=
  if channelNumber = 3 then FrameFormat.BGR
  else if channelNumber = 4 then FrameFormat.BGRA
  else FrameFormat.GRAY

/-- The pixel loop `for (size_t px = 0; px < evt.getPixelsMaxIndex();)` of the FRAME_EVENT
branch, from index `px` on. Every iteration advances `px` by 1, 3 or 4, so `fuel`
iterations are enough when `fuel` is the maximum index; `none` is an access outside
the source array or the output buffer. -/
def pixelLoop (format : FrameFormat) (pixelArray : List Int) (maxIndex : Nat) :
    Nat → Nat → List Int → Option (List Int)
  | 0, px, pixels => if px < maxIndex then none else some pixels
  | fuel + 1, px, pixels =>
    if px < maxIndex then
      match format with
      | FrameFormat.GRAY =>
        match pixelArray[px]? with
        | none => none
        | some s0 =>
          match setPixel pixels px (toUInt8 (shr8 s0)) with
          | none => none
          | some p0 => pixelLoop format pixelArray maxIndex fuel (px + 1) p0
      | FrameFormat.BGR =>
        match pixelArray[px + 2]?, pixelArray[px + 1]?, pixelArray[px + 0]? with
        | some s2, some s1, some s0 =>
          match setPixel pixels (px + 0) (toUInt8 (shr8 s2)) with
          | none => none
          | some p0 =>
            match setPixel p0 (px + 1) (toUInt8 (shr8 s1)) with
            | none => none
            | some p1 =>
              match setPixel p1 (px + 2) (toUInt8 (shr8 s0)) with
              | none => none
              | some p2 => pixelLoop format pixelArray maxIndex fuel (px + 3) p2
        | _, _, _ => none
      | FrameFormat.BGRA =>
        match pixelArray[px + 2]?, pixelArray[px + 1]?, pixelArray[px + 0]?,
            pixelArray[px + 3]? with
        | some s2, some s1, some s0, some s3 =>
          match setPixel pixels (px + 0) (toUInt8 (shr8 s2)) with
          | none => none
          | some p0 =>
            match setPixel p0 (px + 1) (toUInt8 (shr8 s1)) with
            | none => none
            | some p1 =>
              match setPixel p1 (px + 2) (toUInt8 (shr8 s0)) with
              | none => none
              | some p2 =>
                match setPixel p2 (px + 3) (toUInt8 (shr8 s3)) with
                | none => none
                | some p3 => pixelLoop format pixelArray maxIndex fuel (px + 4) p3
        | _, _, _, _ => none
    else some pixels

/-- The body of the FRAME_EVENT loop for one valid event, on the newly allocated frame:
the timestamps, size, position and format are set, the pixel buffer is resized to
the maximum index and filled by the pixel loop. -/
def convertFrame (ts64 : TimestampRule) (tsOverflow : Int) (evt : FrameEvent)
    (newFrame : Frame) : Option Frame :=
  let format := frameFormat evt.channelNumber
  match pixelLoop format evt.pixelArray evt.pixelsMaxIndex evt.pixelsMaxIndex 0
      (resize newFrame.pixels evt.pixelsMaxIndex) with
  | none => none
  | some pixels =>
    some { timestamp := ts64 tsOverflow evt.timestamp
           timestampStartOfFrame := ts64 tsOverflow evt.tsStartOfFrame
           timestampStartOfExposure := ts64 tsOverflow evt.tsStartOfExposure
           timestampEndOfExposure := ts64 tsOverflow evt.tsEndOfExposure
           timestampEndOfFrame := ts64 tsOverflow evt.tsEndOfFrame
           sizeX := toInt16 evt.lengthX
           sizeY := toInt16 evt.lengthY
           positionX := toInt16 evt.positionX
           positionY := toInt16 evt.positionY
           format := format
           pixels := pixels }

/-- The loop of the FRAME_EVENT branch: for each valid event a frame is allocated on
"frames", filled, and committed when its pixel buffer is not empty. -/
def frameLoop (ts64 : TimestampRule) (tsOverflow : Int) :
    List FrameEvent → Output Frame → Option (Output Frame)
  | [], frames => some frames
  | evt :: rest, frames =>
    if !evt.valid then frameLoop ts64 tsOverflow rest frames
    else
      let frames1 := frames.allocate Frame.fresh
      match convertFrame ts64 tsOverflow evt Frame.fresh with
      | none => none
      | some newFrame =>
        let frames2 := frames1.write newFrame
        frameLoop ts64 tsOverflow rest
          (if newFrame.pixels.length > 0 then frames2.commit else frames2)

/-- The loop of the IMU6_EVENT branch. -/
def imuLoop (ts64 : TimestampRule) (tsOverflow : Int) : List IMU6Event → List IMU → List IMU
  | [], elements => elements
  | evt :: rest, elements =>
    if !evt.valid then imuLoop ts64 tsOverflow rest elements
    else
      imuLoop ts64 tsOverflow rest
        (elements ++ [{ timestamp := ts64 tsOverflow evt.timestamp, temperature := evt.temp,
                        accelerometerX := evt.accelX, accelerometerY := evt.accelY,
                        accelerometerZ := evt.accelZ, gyroscopeX := evt.gyroX,
                        gyroscopeY := evt.gyroY, gyroscopeZ := evt.gyroZ }])

/-- The chain of comparisons on `evt.getType()` in the SPECIAL_EVENT branch: the trigger
type for a subtype of the chain, `none` for the final `else` (`continue`). -/
def triggerType (type : SpecialEventType) : Option TriggerType :=
  if type = SpecialEventType.TIMESTAMP_RESET then some TriggerType.TIMESTAMP_RESET
  else if type = SpecialEventType.EXTERNAL_INPUT_RISING_EDGE then
    some TriggerType.EXTERNAL_SIGNAL_RISING_EDGE
  else if type = SpecialEventType.EXTERNAL_INPUT_FALLING_EDGE then
    some TriggerType.EXTERNAL_SIGNAL_FALLING_EDGE
  else if type = SpecialEventType.EXTERNAL_INPUT_PULSE then
    some TriggerType.EXTERNAL_SIGNAL_PULSE
  else if type = SpecialEventType.EXTERNAL_GENERATOR_RISING_EDGE then
    some TriggerType.EXTERNAL_GENERATOR_RISING_EDGE
  else if type = SpecialEventType.EXTERNAL_GENERATOR_FALLING_EDGE then
    some TriggerType.EXTERNAL_GENERATOR_FALLING_EDGE
  else if type = SpecialEventType.APS_FRAME_START then some TriggerType.APS_FRAME_START
  else if type = SpecialEventType.APS_FRAME_END then some TriggerType.APS_FRAME_END
  else if type = SpecialEventType.APS_EXPOSURE_START then some TriggerType.APS_EXPOSURE_START
  else if type = SpecialEventType.APS_EXPOSURE_END then some TriggerType.APS_EXPOSURE_END
  else none

/-- The loop of the SPECIAL_EVENT branch: invalid events and events whose subtype is not
in the chain are skipped, the others are appended with their 64-bit timestamp. -/
def specialLoop (ts64 : TimestampRule) (tsOverflow : Int) :
    List SpecialEvent → List Trigger → List Trigger
  | [], elements => elements
  | evt :: rest, elements =>
    if !evt.valid then specialLoop ts64 tsOverflow rest elements
    else
      match triggerType evt.type with
      | none => specialLoop ts64 tsOverflow rest elements
      | some type =>
        specialLoop ts64 tsOverflow rest
          (elements ++ [{ timestamp := ts64 tsOverflow evt.timestamp, type := type }])

/-- The function `dvConvertToAedat4`. A null pointer is `none`. The result is the module
data after the call (`none` when the handle was null), inside an `Option` whose
`none` is an out-of-range pixel access in the frame branch. -/
def dvConvertToAedat4 (ts64 : TimestampRule) (oldPacket : Option caerEventPacket)
    (moduleData : Option ModuleData) : Option (Option ModuleData) :=
  match oldPacket, moduleData with
  | none, _ => some moduleData
  | some _, none => some moduleData
  | some oldPacket, some md =>
    if oldPacket.eventValid ≤ 0 then some (some md)
    else
      match oldPacket.events with
      | EventArray.POLARITY_EVENT events =>
        let out := md.events.allocate []
        let elements := polarityLoop ts64 oldPacket.eventTSOverflow events []
        let out := out.write elements
        some (some { md with events := if elements.length > 0 then out.commit else out })
      | EventArray.FRAME_EVENT events =>
        match frameLoop ts64 oldPacket.eventTSOverflow events md.frames with
        | none => none
        | some frames => some (some { md with frames := frames })
      | EventArray.IMU6_EVENT events =>
        let out := md.imu.allocate []
        let elements := imuLoop ts64 oldPacket.eventTSOverflow events []
        let out := out.write elements
        some (some { md with imu := if elements.length > 0 then out.commit else out })
      | EventArray.SPECIAL_EVENT events =>
        let out := md.triggers.allocate []
        let elements := specialLoop ts64 oldPacket.eventTSOverflow events []
        let out := out.write elements
        some (some { md with triggers := if elements.length > 0 then out.commit else out })
      | EventArray.unknown _ => some (some md)

/-- The number of bytes the pixel loop advances by in one iteration: 1 in GRAY, 3 in BGR
and 4 in BGRA. -/
def pixelStride (format : FrameFormat) : Nat :=
  match format with
  | FrameFormat.GRAY => 1
  | FrameFormat.BGR => 3
  | FrameFormat.BGRA => 4

/-- The frame event is laid out for its pixel loop: the sample array holds at least
`getPixelsMaxIndex()` samples and that maximum index is a whole number of pixels of
the selected format. -/
def FrameEvent.WellFormed (evt : FrameEvent) : Prop :=
  evt.pixelsMaxIndex ≤ evt.pixelArray.length ∧
    pixelStride (frameFormat evt.channelNumber) ∣ evt.pixelsMaxIndex

/-! ### Sample inputs of the codec -/

/-- A module data handle on which nothing has been allocated or committed yet. -/
def ModuleData.initial : ModuleData :=
  { events := { allocated := 0, current := none, committed := [] }
    frames := { allocated := 0, current := none, committed := [] }
    imu := { allocated := 0, current := none, committed := [] }
    triggers := { allocated := 0, current := none, committed := [] } }

/-- A sample timestamp rule: the overflow counter counts periods of `2^31` ticks. -/
def sampleTimestampRule : TimestampRule := fun tsOverflow timestamp =>
  tsOverflow * 2147483648 + timestamp

/-- A sample polarity packet: a valid event, an invalid one and a second valid one. -/
def samplePolarityPacket : caerEventPacket :=
  { eventValid := 2
    eventTSOverflow := 1
    events := EventArray.POLARITY_EVENT
      [ { valid := true, timestamp := 10, x := 3, y := 4, polarity := true },
        { valid := false, timestamp := 11, x := 5, y := 6, polarity := false },
        { valid := true, timestamp := 12, x := 7, y := 8, polarity := false } ] }

/-- A sample special packet: one valid TIMESTAMP_RESET event and one invalid event. -/
def sampleSpecialPacket : caerEventPacket :=
  { eventValid := 1
    eventTSOverflow := 0
    events := EventArray.SPECIAL_EVENT
      [ { valid := true, timestamp := 7, type := SpecialEventType.TIMESTAMP_RESET },
        { valid := false, timestamp := 9, type := SpecialEventType.APS_FRAME_START } ] }

/-- A sample frame event: valid, 3 channels, two pixels of 16-bit samples; the frame
timestamp is the mid-point of the exposure. -/
def sampleFrameEventRGB : FrameEvent :=
  { valid := true, timestamp := 25, tsStartOfFrame := 10, tsStartOfExposure := 20,
    tsEndOfExposure := 30, tsEndOfFrame := 40, lengthX := 2, lengthY := 1, positionX := 0,
    positionY := 0, channelNumber := 3, pixelsMaxIndex := 6,
    pixelArray := [4386, 13124, 21862, 30600, 39338, 48076] }

/-- A sample frame event: valid, 1 channel, three 16-bit samples; the frame timestamp
is the mid-point of the exposure. -/
def sampleFrameEventGray : FrameEvent :=
  { valid := true, timestamp := 65, tsStartOfFrame := 50, tsStartOfExposure := 60,
    tsEndOfExposure := 70, tsEndOfFrame := 80, lengthX := 3, lengthY := 1, positionX := 5,
    positionY := 6, channelNumber := 1, pixelsMaxIndex := 3,
    pixelArray := [4386, 65535, 255] }

/-- A sample frame event: valid, 4 channels, two pixels of 16-bit samples; the frame
timestamp is the mid-point of the exposure. -/
def sampleFrameEventRGBA : FrameEvent :=
  { valid := true, timestamp := 25, tsStartOfFrame := 10, tsStartOfExposure := 20,
    tsEndOfExposure := 30, tsEndOfFrame := 40, lengthX := 2, lengthY := 1, positionX := 0,
    positionY := 0, channelNumber := 4, pixelsMaxIndex := 8,
    pixelArray := [4386, 13124, 21862, 30600, 39338, 48076, 56814, 65535] }

/-- A sample frame event: valid, with no pixel at all. -/
def sampleFrameEventEmpty : FrameEvent :=
  { valid := true, timestamp := 90, tsStartOfFrame := 90, tsStartOfExposure := 90,
    tsEndOfExposure := 90, tsEndOfFrame := 90, lengthX := 0, lengthY := 0, positionX := 0,
    positionY := 0, channelNumber := 1, pixelsMaxIndex := 0, pixelArray := [] }

/-- A sample frame packet: the sample RGB event, an invalid event and the sample
grayscale event. -/
def sampleFramePacket : caerEventPacket :=
  { eventValid := 2
    eventTSOverflow := 0
    events := EventArray.FRAME_EVENT
      [sampleFrameEventRGB, { sampleFrameEventGray with valid := false }, sampleFrameEventGray] }

/-- A sample frame packet whose only event is valid and has no pixel. -/
def sampleEmptyFramePacket : caerEventPacket :=
  { eventValid := 1
    eventTSOverflow := 0
    events := EventArray.FRAME_EVENT [sampleFrameEventEmpty] }

/-- A sample IMU6 packet: a valid event, an invalid one and a second valid one. -/
def sampleIMU6Packet : caerEventPacket :=
  { eventValid := 2
    eventTSOverflow := 1
    events := EventArray.IMU6_EVENT
      [ { valid := true, timestamp := 10, temp := 1, accelX := 2, accelY := 3, accelZ := 4,
          gyroX := 5, gyroY := 6, gyroZ := 7 },
        { valid := false, timestamp := 11, temp := 8, accelX := 9, accelY := 10, accelZ := 11,
          gyroX := 12, gyroY := 13, gyroZ := 14 },
        { valid := true, timestamp := 12, temp := 15, accelX := 16, accelY := 17, accelZ := 18,
          gyroX := 19, gyroY := 20, gyroZ := 21 } ] }

/-- A sample special packet: one valid EXTERNAL_INPUT_PULSE event. -/
def samplePulsePacket : caerEventPacket :=
  { eventValid := 1
    eventTSOverflow := 0
    events := EventArray.SPECIAL_EVENT
      [ { valid := true, timestamp := 5, type := SpecialEventType.EXTERNAL_INPUT_PULSE } ] }

/-- A sample special packet: a valid event of an unmapped subtype between two valid
mapped ones. -/
def sampleUnmappedPacket : caerEventPacket :=
  { eventValid := 3
    eventTSOverflow := 0
    events := EventArray.SPECIAL_EVENT
      [ { valid := true, timestamp := 1, type := SpecialEventType.APS_FRAME_START },
        { valid := true, timestamp := 2, type := SpecialEventType.other 0 },
        { valid := true, timestamp := 3, type := SpecialEventType.APS_FRAME_END } ] }

/-! ## Spatiotemporal noise filter (`src/sionoise.cpp`) -/

/-- The members of `class Sionoise`: `matrixMem` is the `std::vector<uint32_t>` cache,
`threshold` a `uint32_t`, `sizeX`, `sizeY` and `sz` are `int`. -/
structure Sionoise where
  matrixMem : List Int
  threshold : Int
  sizeX : Int
  sizeY : Int
  sz : Int
deriving DecidableEq, Repr

namespace Sionoise

/-- The read `matrixMem[address]` with an `int` address: the address is converted to
`size_t`, so a negative one is out of range like one past the end. -/
def readCell (matrixMem : List Int) (address : Int) : Option Int :=
  if 0 ≤ address then matrixMem[address.toNat]? else none

/-- The write `matrixMem[address] = v`, `none` when the address is out of range. -/
def writeCell (matrixMem : List Int) (address : Int) (v : Int) : Option (List Int) :=
  if 0 ≤ address ∧ address.toNat < matrixMem.length then
    some (matrixMem.set address.toNat v)
  else none

/-- The values `-sz, -sz+1, ..., sz` taken by the loop variable of
`for (int i = -sz; i <= sz; i++)`; empty when `sz < 0`. -/
def offsets (sz : Int) : List Int :=
  (List.range (2 * sz + 1).toNat).map (fun (k : Nat) => -sz + (k : Int))

/-- Constructor `Sionoise()`: takes the geometry of the input and value-initialises
`sizeX * sizeY` cache cells. The two configuration members are not set by the
constructor; they are given here the values `configUpdate` will store. -/
def construct (inputSizeX inputSizeY : Int) (cfgSize cfgThreshold : Int) : Sionoise :=
  { matrixMem := List.replicate (inputSizeX * inputSizeY).toNat 0
    threshold := toUInt32 cfgThreshold
    sizeX := inputSizeX
    sizeY := inputSizeY
    sz := cfgSize }

/-- The method `Sionoise::configUpdate`. -/
def configUpdate (s : Sionoise) (cfgSize cfgThreshold : Int) : Sionoise :=
  { s with sz := cfgSize, threshold := toUInt32 cfgThreshold }

/-- The method `Sionoise::updateMatrix`. -/
def updateMatrix (s : Sionoise) (event : Event) : Option Sionoise :=
  let address := event.x * s.sizeY + event.y
  match writeCell s.matrixMem address (toUInt32 (toInt32 event.timestamp)) with
  | none => none
  | some m => some { s with matrixMem := m }

/-- The state in which the cell at the address of the pixel of `event` holds the low 32
bits of its timestamp and everything else is as in `s`: the state a successful
`updateMatrix` returns (`updateMatrix_some`). -/
def storeCell (s : Sionoise) (event : Event) : Sionoise :=
  { s with matrixMem :=
      List.set s.matrixMem (event.x * s.sizeY + event.y).toNat (event.timestamp % 4294967296) }

/-- The inner loop of `Sionoise::filterEvent` (`for (int j = -sz; j <= sz; j++)`) for one
value of `i`, run over the remaining values of `j`. `some true` is `return true`,
`some false` is the loop running to its end. -/
def scanRow (s : Sionoise) (event : Event) (t : Int) (i : Int) : List Int → Option Bool
  | [] => some false
  | j :: js =>
    if i = 0 ∧ j = 0 then scanRow s event t i js
    else
      let address := (event.x + i) * s.sizeY + event.y + j
      match readCell s.matrixMem address with
      | none => none
      | some m =>
        if toUInt32 (t - m) < s.threshold then some true
        else scanRow s event t i js

/-- The outer loop of `Sionoise::filterEvent` (`for (int i = -sz; i <= sz; i++)`), run
over the remaining values of `i`. -/
def scanRows (s : Sionoise) (event : Event) (t : Int) : List Int → Option Bool
  | [] => some false
  | i :: is =>
    match scanRow s event t i (offsets s.sz) with
    | none => none
    | some true => some true
    | some false => scanRows s event t is

/-- The method `Sionoise::filterEvent`. -/
def filterEvent (s : Sionoise) (event : Event) : Option Bool :=
  let x := event.x
  let y := event.y
  let t := toUInt32 event.timestamp
  if y < s.sz ∨ y ≥ s.sizeY - s.sz ∨ x < s.sz ∨ x ≥ s.sizeX - s.sz then
    some false
  else
    scanRows s event t (offsets s.sz)

/-- The loop `for (auto &evt : inEvent)` of `Sionoise::run`: the filter is applied on
the cache as it stands, then the cache is updated; the events written to the
output are returned with the final state. -/
def runLoop (s : Sionoise) : List Event → Option (Sionoise × List Event)
  | [] => some (s, [])
  | evt :: rest =>
    match filterEvent s evt with
    | none => none
    | some keep =>
      match updateMatrix s evt with
      | none => none
      | some s1 =>
        match runLoop s1 rest with
        | none => none
        | some (s2, out) => some (s2, if keep then evt :: out else out)

/-- The method `Sionoise::run` on an input batch: nothing is done when there is no
input, otherwise the loop is run. The result is the state after the call and the
events written to the output, in the order written. -/
def run (s : Sionoise) (inEvent : List Event) : Option (Sionoise × List Event) :=
  if inEvent.isEmpty then some (s, [])
  else runLoop s inEvent

/-- Successive calls of `Sionoise::run` on the same filter, one per batch: each call
starts from the state the previous one left; the events written are concatenated. -/
def runBatches (s : Sionoise) : List (List Event) → Option (Sionoise × List Event)
  | [] => some (s, [])
  | batch :: rest =>
    match run s batch with
    | none => none
    | some (s1, out1) =>
      match runBatches s1 rest with
      | none => none
      | some (s2, out2) => some (s2, out1 ++ out2)

/-- The class invariant established by the constructor: the cache has one cell per
pixel, each cell and the threshold hold a `uint32_t` value. -/
def WellFormed (s : Sionoise) : Prop :=
  (s.matrixMem.length : Int) = s.sizeX * s.sizeY ∧
  (∀ c ∈ s.matrixMem, 0 ≤ c ∧ c < UINT32_RANGE) ∧
  0 ≤ s.threshold ∧ s.threshold < UINT32_RANGE

/-- The event lies on the sensor: `0 ≤ x < sizeX` and `0 ≤ y < sizeY`. -/
def InGeometry (s : Sionoise) (event : Event) : Prop :=
  0 ≤ event.x ∧ event.x < s.sizeX ∧ 0 ≤ event.y ∧ event.y < s.sizeY

/-- The event is an interior one: `sz ≤ x < sizeX - sz` and `sz ≤ y < sizeY - sz`. -/
def Interior (s : Sionoise) (event : Event) : Prop :=
  s.sz ≤ event.x ∧ event.x < s.sizeX - s.sz ∧ s.sz ≤ event.y ∧ event.y < s.sizeY - s.sz

/-- The correlation test of `filterEvent` at the neighbour offset `(i, j)`: the cell is
read in range and its distance to `t mod 2^32`, in 32-bit wrapping arithmetic, is
below the threshold. -/
def Correlated (s : Sionoise) (event : Event) (i j : Int) : Prop :=
  ∃ c, readCell s.matrixMem ((event.x + i) * s.sizeY + (event.y + j)) = some c ∧
    (event.timestamp % 4294967296 - c) % 4294967296 < s.threshold

end Sionoise

end dv

/-! ## Camera module (`src/davis.cpp`, `davis::run`) -/

namespace dv

/-- The container `device.dataGet()` returns, as seen through the accessors `davis::run`
calls: `size()` and `getEventPacket(tag)` for the four tags, a null result being
`none`. -/
structure EventPacketContainer where
  size : Nat
  special : Option caerEventPacket
  polarity : Option caerEventPacket
  frame : Option caerEventPacket
  imu6 : Option caerEventPacket
deriving DecidableEq, Repr

/-- The state `davis::run` works on: the configuration attributes "resetInitialization"
and "initialized", the module data behind `moduleData`, and the packets handed to
`dvConvertToAedat4` so far, oldest first. -/
structure davis where
  resetInitialization : Bool
  initialized : Bool
  moduleData : ModuleData
  converted : List caerEventPacket
deriving DecidableEq, Repr

namespace davis

/-- The value of `special->getEventNumber()`: the number of events of the packet. -/
def getEventNumber (special : caerEventPacket) : Nat :=
  match special.events with
  | EventArray.SPECIAL_EVENT events => events.length
  | EventArray.POLARITY_EVENT events => events.length
  | EventArray.FRAME_EVENT events => events.length
  | EventArray.IMU6_EVENT events => events.length
  | EventArray.unknown _ => 0

/-- The value of `(*special)[0].getType()`, the subtype of the first event of a packet
read as a special packet; `none` when there is no such event. -/
def firstType (special : caerEventPacket) : Option SpecialEventType :=
  match special.events with
  | EventArray.SPECIAL_EVENT (evt :: _) => some evt.type
  | _ => none

/-- One call `dvConvertToAedat4(packet->getHeaderPointer(), moduleData)` of `davis::run`:
the packet is recorded and the module data is replaced by what the codec leaves;
`none` when the codec makes an out-of-range access. -/
def convert (ts64 : TimestampRule) (d : davis) (packet : caerEventPacket) : Option davis :=
  match dvConvertToAedat4 ts64 (some packet) (some d.moduleData) with
  | some (some md) => some { d with moduleData := md, converted := d.converted ++ [packet] }
  | _ => none

/-- The statement `if (data->getEventPacket(tag)) dvConvertToAedat4(...)` of `davis::run`
for one tag. -/
def convertIfPresent (ts64 : TimestampRule) (d : davis) (packet : Option caerEventPacket) :
    Option davis :=
  match packet with
  | none => some d
  | some p => convert ts64 d p

/-- The first statement of `davis::run`: when "resetInitialization" is set, it is cleared
together with "initialized". -/
def resetStep (d : davis) : davis :=
  if d.resetInitialization then
    { d with resetInitialization := false, initialized := false }
  else d

/-- The statement `if (data->getEventPacket(SPECIAL_EVENT)) ...` of `davis::run`: when the
special packet holds exactly one event, a TIMESTAMP_RESET, "initialized" is set; the
special packet is then handed to the codec. The updates of the source information
made in the same branch do not touch the state kept here and are left out. -/
def specialStep (ts64 : TimestampRule) (d : davis) (packet : Option caerEventPacket) :
    Option davis :=
  match packet with
  | none => some d
  | some special =>
    let d1 := if getEventNumber special = 1 ∧
        firstType special = some SpecialEventType.TIMESTAMP_RESET then
        { d with initialized := true }
      else d
    convert ts64 d1 special

/-- The last three statements of `davis::run`: the polarity, frame and IMU6 packets that
are present are handed to the codec, in that order. -/
def dataStep (ts64 : TimestampRule) (d : davis) (data : EventPacketContainer) : Option davis :=
  match convertIfPresent ts64 d data.polarity with
  | none => none
  | some d3 =>
    match convertIfPresent ts64 d3 data.frame with
    | none => none
    | some d4 => convertIfPresent ts64 d4 data.imu6

/-- The method `davis::run`, `data` being the result of `device.dataGet()`. -/
def run (ts64 : TimestampRule) (d : davis) (data : Option EventPacketContainer) :
    Option davis :=
  let d0 := resetStep d
  match data with
  | none => some d0
  | some data =>
    if data.size = 0 then some d0
    else
      match specialStep ts64 d0 data.special with
      | none => none
      | some d2 =>
        if data.size = 1 then some d2
        else if !d2.initialized then some d2
        else dataStep ts64 d2 data

/-- The special packet of the container holds exactly one event and that event is a
TIMESTAMP_RESET: the condition under which `davis::run` sets "initialized". -/
def IsTimestampReset (data : Option EventPacketContainer) : Prop :=
  ∃ c special, data = some c ∧ c.size ≠ 0 ∧ c.special = some special ∧
    getEventNumber special = 1 ∧
    firstType special = some SpecialEventType.TIMESTAMP_RESET

/-- Every valid frame event of the packet, if it is tagged Frame, is laid out for its
pixel loop, so that the codec returns on the packet. -/
def FramesWellFormed (packet : caerEventPacket) : Prop :=
  ∀ events, packet.events = EventArray.FRAME_EVENT events →
    ∀ evt ∈ events, evt.valid = true → evt.WellFormed

end davis

/-! ### Sample inputs of the camera module -/

/-- A sample special packet holding exactly one event, a TIMESTAMP_RESET. -/
def sampleResetPacket : caerEventPacket :=
  { eventValid := 1
    eventTSOverflow := 0
    events := EventArray.SPECIAL_EVENT
      [ { valid := true, timestamp := 0, type := SpecialEventType.TIMESTAMP_RESET } ] }

/-- A sample container of four packets: the reset packet, the sample polarity packet, no
frame packet and the sample IMU6 packet. -/
def sampleContainer : EventPacketContainer :=
  { size := 4, special := some sampleResetPacket, polarity := some samplePolarityPacket,
    frame := none, imu6 := some sampleIMU6Packet }

/-- A module that has not seen a timestamp reset yet. -/
def davis.initial : davis :=
  { resetInitialization := false, initialized := false, moduleData := ModuleData.initial,
    converted := [] }

end dv

/-! ## Logger helpers (`src/log.hpp`) -/

namespace dv
namespace LoggerInternal

/-- The enumeration `dv::logLevel`. -/
inductive logLevel where
  | ERROR
  | WARNING
  | INFO
  | DEBUG
deriving DecidableEq, Repr

/-- The integer values `DVLOG_ERROR`, `DVLOG_WARNING`, `DVLOG_INFO` and `DVLOG_DEBUG` behind
`dv::logLevel`; they are declared in the dv-sdk headers, not in the sources, and are
parameters of the embedding. -/
structure LogLevelCodes where
  DVLOG_ERROR : Int
  DVLOG_WARNING : Int
  DVLOG_INFO : Int
  DVLOG_DEBUG : Int
deriving DecidableEq, Repr

/-- The labels of the `switch` of `logLevelIntegerToName` are pairwise different, as C++
requires of the case labels of one `switch`: the four codes differ from each other
and from the literals 0, 1, 2 and 5. -/
def LogLevelCodes.DistinctLabels (c : LogLevelCodes) : Prop :=
  c.DVLOG_ERROR ≠ c.DVLOG_WARNING ∧ c.DVLOG_ERROR ≠ c.DVLOG_INFO ∧
    c.DVLOG_ERROR ≠ c.DVLOG_DEBUG ∧ c.DVLOG_WARNING ≠ c.DVLOG_INFO ∧
    c.DVLOG_WARNING ≠ c.DVLOG_DEBUG ∧ c.DVLOG_INFO ≠ c.DVLOG_DEBUG ∧
    (∀ v ∈ [c.DVLOG_ERROR, c.DVLOG_WARNING, c.DVLOG_INFO, c.DVLOG_DEBUG],
      v ≠ 0 ∧ v ≠ 1 ∧ v ≠ 2 ∧ v ≠ 5)

/-- The array `logLevelNames`, read at index `i`. -/
def logLevelNames (i : Fin 4) : String :=
  match i with
  | 0 => "ERROR"
  | 1 => "WARNING"
  | 2 => "INFO"
  | 3 => "DEBUG"

/-- The function `logLevelNameToEnum`. -/
def logLevelNameToEnum (ls : String) : logLevel :=
  if ls = logLevelNames 0 then logLevel.ERROR
  else if ls = logLevelNames 1 then logLevel.WARNING
  else if ls = logLevelNames 2 then logLevel.INFO
  else if ls = logLevelNames 3 then logLevel.DEBUG
  else if ls = "EMERGENCY" ∨ ls = "ALERT" ∨ ls = "CRITICAL" then logLevel.ERROR
  else logLevel.INFO

/-- The function `logLevelIntegerToName`: the `switch` on `li`, whose `default` shares the
branch of `case 5` and `case DVLOG_INFO`. -/
def logLevelIntegerToName (c : LogLevelCodes) (li : Int) : String :=
  if li = 0 ∨ li = 1 ∨ li = 2 ∨ li = c.DVLOG_ERROR then logLevelNames 0
  else if li = c.DVLOG_WARNING then logLevelNames 1
  else if li = c.DVLOG_DEBUG then logLevelNames 3
  else logLevelNames 2

/-- The conversion of a `dv::logLevel` to its underlying integer. -/
def underlying (c : LogLevelCodes) (li : logLevel) : Int :=
  match li with
  | logLevel.ERROR => c.DVLOG_ERROR
  | logLevel.WARNING => c.DVLOG_WARNING
  | logLevel.INFO => c.DVLOG_INFO
  | logLevel.DEBUG => c.DVLOG_DEBUG

/-- The function `logLevelEnumToName`. -/
def logLevelEnumToName (c : LogLevelCodes) (li : logLevel) : String :=
  let enumValue := underlying c li
  logLevelIntegerToName c enumValue

/-- The function `logLevelNameToInteger`. -/
def logLevelNameToInteger (c : LogLevelCodes) (ls : String) : Int :=
  underlying c (logLevelNameToEnum ls)

/-- Sample codes: the syslog numbering, where 0, 1, 2 and 5 are the old levels the
comments of the `switch` name. -/
def sampleCodes : LogLevelCodes :=
  { DVLOG_ERROR := 3, DVLOG_WARNING := 4, DVLOG_INFO := 6, DVLOG_DEBUG := 7 }

end LoggerInternal
end dv

/-! # Properties of the noise filter -/

namespace dv
namespace Sionoise

/-- The loop variable of `for (int i = -sz; i <= sz; i++)` takes exactly the values of
`[-sz, sz]`. -/
theorem mem_offsets (sz j : Int) : j ∈ offsets sz ↔ -sz ≤ j ∧ j ≤ sz := by
  unfold offsets
  simp only [List.mem_map, List.mem_range]
  constructor
  · rintro ⟨k, hk, rfl⟩
    omega
  · intro h
    exact ⟨(j + sz).toNat, by omega, by omega⟩

/-- The inner loop returns, and returns `true` exactly when one of the visited offsets
passes the test, provided every cell it may read is in range. -/
theorem scanRow_spec (s : Sionoise) (e : Event) (t i : Int) (js : List Int)
    (hread : ∀ j ∈ js, ∃ c, readCell s.matrixMem ((e.x + i) * s.sizeY + e.y + j) = some c) :
    ∃ b, scanRow s e t i js = some b ∧
      (b = true ↔ ∃ j ∈ js, ¬(i = 0 ∧ j = 0) ∧
        ∃ c, readCell s.matrixMem ((e.x + i) * s.sizeY + e.y + j) = some c ∧
          toUInt32 (t - c) < s.threshold) := by
  induction js with
  | nil => exact ⟨false, rfl, by simp⟩
  | cons j js ih =>
    obtain ⟨b, hb, hiff⟩ := ih (fun k hk => hread k (List.mem_cons_of_mem _ hk))
    obtain ⟨c, hc⟩ := hread j (List.mem_cons_self _ _)
    by_cases h0 : i = 0 ∧ j = 0
    · refine ⟨b, ?_, ?_⟩
      · simp only [scanRow, h0, and_self, if_true]
        simpa [h0] using hb
      · rw [hiff]
        simp only [List.mem_cons, exists_eq_or_imp]
        constructor
        · intro h; exact Or.inr h
        · rintro (h | h)
          · exact absurd h0 h.1
          · exact h
    · by_cases ht : toUInt32 (t - c) < s.threshold
      · refine ⟨true, ?_, ?_⟩
        · simp only [scanRow, h0, if_false, hc, ht, if_true]
        · simp only [true_iff]
          exact ⟨j, List.mem_cons_self _ _, h0, c, hc, ht⟩
      · refine ⟨b, ?_, ?_⟩
        · simp only [scanRow, h0, if_false, hc, ht]
          exact hb
        · rw [hiff]
          simp only [List.mem_cons, exists_eq_or_imp]
          constructor
          · intro h; exact Or.inr h
          · rintro (h | h)
            · obtain ⟨_, c', hc', ht'⟩ := h
              rw [hc] at hc'
              cases hc'
              exact absurd ht' ht
            · exact h

/-- The outer loop returns, and returns `true` exactly when one offset of the scanned
square passes the test, provided every cell it may read is in range. -/
theorem scanRows_spec (s : Sionoise) (e : Event) (t : Int) (is : List Int)
    (hread : ∀ i ∈ is, ∀ j ∈ offsets s.sz,
      ∃ c, readCell s.matrixMem ((e.x + i) * s.sizeY + e.y + j) = some c) :
    ∃ b, scanRows s e t is = some b ∧
      (b = true ↔ ∃ i ∈ is, ∃ j ∈ offsets s.sz, ¬(i = 0 ∧ j = 0) ∧
        ∃ c, readCell s.matrixMem ((e.x + i) * s.sizeY + e.y + j) = some c ∧
          toUInt32 (t - c) < s.threshold) := by
  induction is with
  | nil => exact ⟨false, rfl, by simp⟩
  | cons i is ih =>
    obtain ⟨b, hb, hiff⟩ := ih (fun k hk => hread k (List.mem_cons_of_mem _ hk))
    obtain ⟨r, hr, hriff⟩ := scanRow_spec s e t i (offsets s.sz) (hread i (List.mem_cons_self _ _))
    cases r with
    | true =>
      refine ⟨true, by simp only [scanRows, hr], ?_⟩
      simp only [true_iff]
      obtain ⟨j, hj, h⟩ := hriff.mp rfl
      exact ⟨i, List.mem_cons_self _ _, j, hj, h⟩
    | false =>
      refine ⟨b, by simp only [scanRows, hr]; exact hb, ?_⟩
      rw [hiff]
      simp only [List.mem_cons, exists_eq_or_imp]
      constructor
      · intro h; exact Or.inr h
      · rintro (h | h)
        · have := hriff.mpr h
          cases this
        · exact h

/-- The cast chain of `updateMatrix`, `int64_t` to `int32_t` to the `uint32_t` cell, is
reduction modulo `2^32`. -/
theorem toUInt32_toInt32 (t : Int) : toUInt32 (toInt32 t) = t % 4294967296 := by
  unfold toUInt32 toInt32 UINT32_RANGE
  omega

/-- The address of a pixel of the sensor is an index of the cache. -/
theorem address_bounds (sizeX sizeY X Y : Int) (hX0 : 0 ≤ X) (hX : X < sizeX)
    (hY0 : 0 ≤ Y) (hY : Y < sizeY) :
    0 ≤ X * sizeY + Y ∧ X * sizeY + Y < sizeX * sizeY := by
  have h1 : 0 ≤ X * sizeY := mul_nonneg hX0 (by omega)
  have h2 : (X + 1) * sizeY ≤ sizeX * sizeY :=
    mul_le_mul_of_nonneg_right (by omega) (by omega)
  have h3 : (X + 1) * sizeY = X * sizeY + sizeY := by ring
  constructor <;> omega

/-- Two pixels with the same address are the same pixel. -/
theorem address_injective (sizeY X Y X' Y' : Int) (hY0 : 0 ≤ Y) (hY : Y < sizeY)
    (hY0' : 0 ≤ Y') (hY' : Y' < sizeY) (h : X * sizeY + Y = X' * sizeY + Y') :
    X = X' ∧ Y = Y' := by
  have hX : X = X' := by
    rcases lt_trichotomy X X' with hlt | heq | hgt
    · exfalso
      have h2 : (X + 1) * sizeY ≤ X' * sizeY :=
        mul_le_mul_of_nonneg_right (by omega) (by omega)
      have h3 : (X + 1) * sizeY = X * sizeY + sizeY := by ring
      omega
    · exact heq
    · exfalso
      have h2 : (X' + 1) * sizeY ≤ X * sizeY :=
        mul_le_mul_of_nonneg_right (by omega) (by omega)
      have h3 : (X' + 1) * sizeY = X' * sizeY + sizeY := by ring
      omega
  subst hX
  exact ⟨rfl, by omega⟩

/-- A read at an index of the cache returns a value. -/
theorem readCell_in_range (m : List Int) (a : Int) (h0 : 0 ≤ a) (h : a < m.length) :
    ∃ c, readCell m a = some c := by
  have hlt : a.toNat < m.length := by omega
  exact ⟨m[a.toNat], by simp [readCell, h0, List.getElem?_eq_getElem hlt]⟩

/-- Every cell the scan of an interior event reads is a cell of the cache. -/
theorem interior_read (s : Sionoise) (e : Event)
    (hlen : (s.matrixMem.length : Int) = s.sizeX * s.sizeY) (hint : Interior s e)
    (i j : Int) (hi : i ∈ offsets s.sz) (hj : j ∈ offsets s.sz) :
    ∃ c, readCell s.matrixMem ((e.x + i) * s.sizeY + e.y + j) = some c := by
  rw [mem_offsets] at hi hj
  obtain ⟨h1, h2, h3, h4⟩ := hint
  have hb := address_bounds s.sizeX s.sizeY (e.x + i) (e.y + j) (by omega) (by omega)
    (by omega) (by omega)
  apply readCell_in_range
  · omega
  · omega

/-- The decision of `filterEvent` on a state whose cache has `sizeX * sizeY` cells: the
function returns, `false` for a pixel within `sz` of an edge, and otherwise `true`
exactly when an offset of the square other than `(0, 0)` passes the test. -/
theorem filterEvent_spec (s : Sionoise) (e : Event)
    (hlen : (s.matrixMem.length : Int) = s.sizeX * s.sizeY) :
    ∃ b, filterEvent s e = some b ∧
      (b = true ↔ Interior s e ∧ ∃ i j, -s.sz ≤ i ∧ i ≤ s.sz ∧ -s.sz ≤ j ∧ j ≤ s.sz ∧
        ¬(i = 0 ∧ j = 0) ∧ Correlated s e i j) := by
  by_cases hb : e.y < s.sz ∨ e.y ≥ s.sizeY - s.sz ∨ e.x < s.sz ∨ e.x ≥ s.sizeX - s.sz
  · refine ⟨false, by simp only [filterEvent, hb, if_true], ?_⟩
    constructor
    · intro h; cases h
    · rintro ⟨⟨h1, h2, h3, h4⟩, _⟩
      omega
  · have hint : Interior s e := by
      unfold Interior
      omega
    obtain ⟨b, hb', hiff⟩ := scanRows_spec s e (toUInt32 e.timestamp) (offsets s.sz)
      (fun i hi j hj => interior_read s e hlen hint i j hi hj)
    refine ⟨b, by simp only [filterEvent, hb, if_false]; exact hb', ?_⟩
    rw [hiff]
    constructor
    · rintro ⟨i, hi, j, hj, h0, c, hc, ht⟩
      rw [mem_offsets] at hi hj
      refine ⟨hint, i, j, hi.1, hi.2, hj.1, hj.2, h0, c, ?_, ?_⟩
      · rw [← hc]; congr 1; ring
      · unfold toUInt32 UINT32_RANGE at ht
        exact ht
    · rintro ⟨_, i, j, hi1, hi2, hj1, hj2, h0, c, hc, ht⟩
      refine ⟨i, (mem_offsets _ _).mpr ⟨hi1, hi2⟩, j, (mem_offsets _ _).mpr ⟨hj1, hj2⟩, h0, c, ?_, ?_⟩
      · rw [← hc]; congr 1; ring
      · unfold toUInt32 UINT32_RANGE
        exact ht

/-- On a pixel of the sensor `updateMatrix` returns, and stores the low 32 bits of the
timestamp at the address of the pixel. -/
theorem updateMatrix_spec (s : Sionoise) (e : Event)
    (hlen : (s.matrixMem.length : Int) = s.sizeX * s.sizeY) (hgeo : InGeometry s e) :
    updateMatrix s e = some (storeCell s e) := by
  obtain ⟨h1, h2, h3, h4⟩ := hgeo
  have hb := address_bounds s.sizeX s.sizeY e.x e.y h1 h2 h3 h4
  have hlt : (e.x * s.sizeY + e.y).toNat < s.matrixMem.length := by omega
  simp only [updateMatrix, writeCell, hb.1, hlt, and_self, if_true, toUInt32_toInt32, storeCell]

/-- A successful `updateMatrix` wrote one cell and changed nothing else of the state. -/
theorem updateMatrix_some (s s1 : Sionoise) (e : Event) (h : updateMatrix s e = some s1) :
    s1 = storeCell s e := by
  unfold updateMatrix writeCell at h
  simp only [toUInt32_toInt32] at h
  split at h
  · cases h
  · rename_i m hm
    split at hm
    · cases hm
      cases h
      rfl
    · cases hm

/-- One iteration of the loop of `run`. -/
theorem runLoop_cons (s : Sionoise) (e : Event) (l : List Event) :
    runLoop s (e :: l) =
      match filterEvent s e with
      | none => none
      | some keep =>
        match updateMatrix s e with
        | none => none
        | some s1 =>
          match runLoop s1 l with
          | none => none
          | some (s2, out) => some (s2, if keep then e :: out else out) := rfl

/-- A successful run of the loop on `e :: l` is a decision on `e`, the update for `e` and
a successful run on `l`. -/
theorem runLoop_cons_some (s s2 : Sionoise) (e : Event) (l out : List Event)
    (h : runLoop s (e :: l) = some (s2, out)) :
    ∃ keep out1, filterEvent s e = some keep ∧ updateMatrix s e = some (storeCell s e) ∧
      runLoop (storeCell s e) l = some (s2, out1) ∧
      out = if keep then e :: out1 else out1 := by
  rw [runLoop_cons] at h
  cases hf : filterEvent s e with
  | none => simp only [hf] at h; cases h
  | some keep =>
    cases hu : updateMatrix s e with
    | none => simp only [hf, hu] at h; cases h
    | some s1 =>
      have h1 := updateMatrix_some s s1 e hu
      subst h1
      cases hr : runLoop (storeCell s e) l with
      | none => simp only [hf, hu, hr] at h; cases h
      | some p =>
        obtain ⟨s3, out3⟩ := p
        simp only [hf, hu, hr, Option.some.injEq, Prod.mk.injEq] at h
        obtain ⟨rfl, rfl⟩ := h
        exact ⟨keep, out3, rfl, rfl, rfl, rfl⟩

/-- The loop of `run` leaves the geometry, the configuration and the number of cells
of the cache as they were. -/
theorem runLoop_config (l : List Event) : ∀ (s s1 : Sionoise) (out : List Event),
    runLoop s l = some (s1, out) →
      s1.sizeX = s.sizeX ∧ s1.sizeY = s.sizeY ∧ s1.sz = s.sz ∧ s1.threshold = s.threshold ∧
        s1.matrixMem.length = s.matrixMem.length := by
  induction l with
  | nil =>
    intro s s1 out h
    simp only [runLoop, Option.some.injEq, Prod.mk.injEq] at h
    obtain ⟨rfl, _⟩ := h
    exact ⟨rfl, rfl, rfl, rfl, rfl⟩
  | cons e l ih =>
    intro s s1 out h
    obtain ⟨keep, out1, _, _, hr, _⟩ := runLoop_cons_some s s1 e l out h
    obtain ⟨a, b, c, d, f⟩ := ih _ s1 out1 hr
    simp only [storeCell, List.length_set] at a b c d f
    exact ⟨a, b, c, d, f⟩

/-- The method `run` is its loop: with no input the loop does nothing either. -/
theorem run_eq_runLoop (s : Sionoise) (l : List Event) : run s l = runLoop s l := by
  cases l with
  | nil => rfl
  | cons e l => rfl

/-- The loop of `run` returns on every batch of events of the sensor when the cache has
`sizeX * sizeY` cells. -/
theorem runLoop_total (l : List Event) : ∀ (s : Sionoise),
    (s.matrixMem.length : Int) = s.sizeX * s.sizeY → (∀ e ∈ l, InGeometry s e) →
      ∃ s1 out, runLoop s l = some (s1, out) := by
  induction l with
  | nil => intro s _ _; exact ⟨s, [], rfl⟩
  | cons e l ih =>
    intro s hlen hgeo
    obtain ⟨b, hb, _⟩ := filterEvent_spec s e hlen
    have hu := updateMatrix_spec s e hlen (hgeo e (List.mem_cons_self _ _))
    obtain ⟨s2, out2, h2⟩ := ih (storeCell s e) (by simpa [storeCell] using hlen)
      (fun e' he' => hgeo e' (List.mem_cons_of_mem _ he'))
    exact ⟨s2, if b then e :: out2 else out2, by simp only [runLoop_cons, hb, hu, h2]⟩

/-- The loop of `run` over a concatenation is the loop over the first part followed by
the loop over the second part from the state reached. -/
theorem runLoop_append (a b : List Event) : ∀ (s : Sionoise),
    runLoop s (a ++ b) =
      match runLoop s a with
      | none => none
      | some (s1, out1) =>
        match runLoop s1 b with
        | none => none
        | some (s2, out2) => some (s2, out1 ++ out2) := by
  induction a with
  | nil =>
    intro s
    simp only [List.nil_append, runLoop]
    cases runLoop s b with
    | none => rfl
    | some p => rfl
  | cons e a ih =>
    intro s
    rw [List.cons_append, runLoop_cons, runLoop_cons]
    cases filterEvent s e with
    | none => rfl
    | some keep =>
      cases updateMatrix s e with
      | none => rfl
      | some s1 =>
        simp only []
        rw [ih s1]
        cases runLoop s1 a with
        | none => rfl
        | some p =>
          obtain ⟨s2, out2⟩ := p
          simp only []
          cases runLoop s2 b with
          | none => rfl
          | some q =>
            obtain ⟨s3, out3⟩ := q
            cases keep <;> simp

/-- Whatever `filterEvent` passes is an interior event. -/
theorem filterEvent_true_interior (s : Sionoise) (e : Event)
    (h : filterEvent s e = some true) : Interior s e := by
  unfold filterEvent at h
  simp only at h
  split at h
  · cases h
  · unfold Interior
    omega

/-- The events written by the loop of `run` are a subsequence of the batch, and each of
them was passed by `filterEvent`, so each is an interior event. -/
theorem runLoop_out (l : List Event) : ∀ (s s1 : Sionoise) (out : List Event),
    runLoop s l = some (s1, out) → out.Sublist l ∧ ∀ e ∈ out, Interior s e := by
  induction l with
  | nil =>
    intro s s1 out h
    simp only [runLoop, Option.some.injEq, Prod.mk.injEq] at h
    obtain ⟨_, rfl⟩ := h
    exact ⟨List.Sublist.refl _, by simp⟩
  | cons e l ih =>
    intro s s1 out h
    obtain ⟨keep, out1, hf, _, hr, rfl⟩ := runLoop_cons_some s s1 e l out h
    obtain ⟨hsub, hint⟩ := ih _ s1 out1 hr
    have hint' : ∀ e' ∈ out1, Interior s e' := fun e' he' => hint e' he'
    cases keep with
    | false => exact ⟨List.Sublist.cons _ hsub, hint'⟩
    | true =>
      refine ⟨List.Sublist.cons₂ _ hsub, ?_⟩
      intro e' he'
      rcases List.mem_cons.mp he' with rfl | h'
      · exact filterEvent_true_interior s e' hf
      · exact hint' e' h'

/-- After the update for an event of the sensor, the cell of its pixel holds the low 32
bits of its timestamp. -/
theorem readCell_storeCell_same (s : Sionoise) (e : Event)
    (hlen : (s.matrixMem.length : Int) = s.sizeX * s.sizeY) (hgeo : InGeometry s e) :
    readCell (storeCell s e).matrixMem (e.x * s.sizeY + e.y) =
      some (e.timestamp % 4294967296) := by
  obtain ⟨h1, h2, h3, h4⟩ := hgeo
  have hb := address_bounds s.sizeX s.sizeY e.x e.y h1 h2 h3 h4
  have hlt : (e.x * s.sizeY + e.y).toNat < s.matrixMem.length := by omega
  simp only [readCell, storeCell, hb.1, if_true]
  rw [List.getElem?_set_self hlt]

/-- The update for an event of the sensor leaves the cell of every other pixel as it
was. -/
theorem readCell_storeCell_other (s : Sionoise) (e : Event) (hgeo : InGeometry s e)
    (px py : Int) (hpy0 : 0 ≤ py) (hpy : py < s.sizeY) (hne : ¬(e.x = px ∧ e.y = py)) :
    readCell (storeCell s e).matrixMem (px * s.sizeY + py) =
      readCell s.matrixMem (px * s.sizeY + py) := by
  obtain ⟨h1, h2, h3, h4⟩ := hgeo
  have hb := address_bounds s.sizeX s.sizeY e.x e.y h1 h2 h3 h4
  by_cases h0 : 0 ≤ px * s.sizeY + py
  · have hadr : e.x * s.sizeY + e.y ≠ px * s.sizeY + py := by
      intro h
      exact hne (address_injective s.sizeY e.x e.y px py h3 h4 hpy0 hpy h)
    have hnat : (e.x * s.sizeY + e.y).toNat ≠ (px * s.sizeY + py).toNat := by omega
    simp only [readCell, storeCell, h0, if_true]
    rw [List.getElem?_set_ne hnat]
  · simp only [readCell, h0, if_false]

/-- The loop of `run` on events of the sensor leaves the cell of a pixel that received
none of them as it was. -/
theorem runLoop_cell_frame (l : List Event) : ∀ (s s1 : Sionoise) (out : List Event),
    runLoop s l = some (s1, out) → (∀ h ∈ l, InGeometry s h) →
      ∀ (px py : Int), 0 ≤ py → py < s.sizeY → (∀ h ∈ l, ¬(h.x = px ∧ h.y = py)) →
        readCell s1.matrixMem (px * s.sizeY + py) = readCell s.matrixMem (px * s.sizeY + py) := by
  induction l with
  | nil =>
    intro s s1 out h _ px py _ _ _
    simp only [runLoop, Option.some.injEq, Prod.mk.injEq] at h
    obtain ⟨rfl, _⟩ := h
    rfl
  | cons e l ih =>
    intro s s1 out h hgeo px py hpy0 hpy hno
    obtain ⟨keep, out1, _, _, hr, _⟩ := runLoop_cons_some s s1 e l out h
    have h1 := ih (storeCell s e) s1 out1 hr
      (fun h hh => hgeo h (List.mem_cons_of_mem _ hh)) px py hpy0 hpy
      (fun h hh => hno h (List.mem_cons_of_mem _ hh))
    have h2 := readCell_storeCell_other s e (hgeo e (List.mem_cons_self _ _)) px py hpy0 hpy
      (hno e (List.mem_cons_self _ _))
    simp only [storeCell] at h1 h2 ⊢
    rw [h1, h2]

/-- A freshly constructed cache has `sizeX * sizeY` cells. -/
theorem construct_length (sizeX sizeY cfgSize cfgThreshold : Int) (hX : 0 ≤ sizeX)
    (hY : 0 ≤ sizeY) :
    ((construct sizeX sizeY cfgSize cfgThreshold).matrixMem.length : Int) =
      (construct sizeX sizeY cfgSize cfgThreshold).sizeX *
        (construct sizeX sizeY cfgSize cfgThreshold).sizeY := by
  have := mul_nonneg hX hY
  simp only [construct, List.length_replicate]
  omega

/-- Every cell of a freshly constructed cache reads as zero. -/
theorem construct_readCell (sizeX sizeY cfgSize cfgThreshold : Int) (a c : Int)
    (h : readCell (construct sizeX sizeY cfgSize cfgThreshold).matrixMem a = some c) :
    c = 0 := by
  unfold readCell construct at h
  simp only at h
  split at h
  · rw [List.getElem?_eq_some_iff] at h
    obtain ⟨_, h⟩ := h
    simp only [List.getElem_replicate] at h
    exact h.symm
  · cases h

/-- C4: on a cache of `sizeX * sizeY` cells and for an interior event, `filterEvent`
returns, and returns `true` if and only if some offset `(i, j)` of the square
`[-sz, sz] x [-sz, sz]` other than `(0, 0)` has
`((t mod 2^32) - cache[(x+i)*sizeY + (y+j)]) mod 2^32 < threshold`, where
`cache[a]` is the element of the list `matrixMem` at index `a`: the
short-circuiting scan is the existential over the whole neighbourhood, the time
difference being taken in 32-bit wrapping arithmetic. -/
theorem filterEvent_iff_neighbour_correlated (s : Sionoise) (e : Event)
    (hlen : (s.matrixMem.length : Int) = s.sizeX * s.sizeY) (hint : Interior s e) :
    (∃ b, filterEvent s e = some b) ∧
      (filterEvent s e = some true ↔
        ∃ i j, -s.sz ≤ i ∧ i ≤ s.sz ∧ -s.sz ≤ j ∧ j ≤ s.sz ∧ ¬(i = 0 ∧ j = 0) ∧
          ∃ c, s.matrixMem[((e.x + i) * s.sizeY + (e.y + j)).toNat]? = some c ∧
            (e.timestamp % 4294967296 - c) % 4294967296 < s.threshold) := by
  have haddr : ∀ i j : Int, -s.sz ≤ i → i ≤ s.sz → -s.sz ≤ j → j ≤ s.sz →
      readCell s.matrixMem ((e.x + i) * s.sizeY + (e.y + j)) =
        s.matrixMem[((e.x + i) * s.sizeY + (e.y + j)).toNat]? := by
    intro i j hi1 hi2 hj1 hj2
    obtain ⟨h1, h2, h3, h4⟩ := hint
    have hb := address_bounds s.sizeX s.sizeY (e.x + i) (e.y + j) (by omega) (by omega)
      (by omega) (by omega)
    simp only [readCell, hb.1, if_true]
  obtain ⟨b, hb, hiff⟩ := filterEvent_spec s e hlen
  refine ⟨⟨b, hb⟩, ?_⟩
  rw [hb]
  constructor
  · intro h
    have hb1 : b = true := by simpa using h
    obtain ⟨i, j, hi1, hi2, hj1, hj2, h0, c, hc, ht⟩ := (hiff.mp hb1).2
    exact ⟨i, j, hi1, hi2, hj1, hj2, h0, c, by rw [← haddr i j hi1 hi2 hj1 hj2]; exact hc, ht⟩
  · rintro ⟨i, j, hi1, hi2, hj1, hj2, h0, c, hc, ht⟩
    have hb1 : b = true :=
      hiff.mpr ⟨hint, i, j, hi1, hi2, hj1, hj2, h0, c,
        by rw [haddr i j hi1 hi2 hj1 hj2]; exact hc, ht⟩
    rw [hb1]

/-- Witness of C4: on an 8 x 8 sensor with `sz = 1` and threshold 100 whose pixel
`(4, 4)` was hit at `t = 100`, cell 36 of the cache holds 100, the interior event
`(4, 5, t = 150)` is passed (offset `(0, -1)`, difference 50) and the interior event
`(4, 5, t = 250)` is rejected (differences 150 and 250). -/
theorem filterEvent_iff_neighbour_correlated_witness :
    (storeCell (construct 8 8 1 100) ⟨100, 4, 4, true⟩).matrixMem[36]? = some 100 ∧
    filterEvent (storeCell (construct 8 8 1 100) ⟨100, 4, 4, true⟩) ⟨150, 4, 5, true⟩
        = some true ∧
    filterEvent (storeCell (construct 8 8 1 100) ⟨100, 4, 4, true⟩) ⟨250, 4, 5, true⟩
        = some false := by
  refine ⟨by decide, ?_, ?_⟩
  · exact (filterEvent_iff_neighbour_correlated
      (storeCell (construct 8 8 1 100) ⟨100, 4, 4, true⟩) ⟨150, 4, 5, true⟩ (by decide)
      (by unfold Interior; decide)).2.mpr
      ⟨0, -1, by decide, by decide, by decide, by decide, by decide, 100, by decide, by decide⟩
  · have h := filterEvent_iff_neighbour_correlated
      (storeCell (construct 8 8 1 100) ⟨100, 4, 4, true⟩) ⟨250, 4, 5, true⟩ (by decide)
      (by unfold Interior; decide)
    obtain ⟨b, hb⟩ := h.1
    cases b with
    | false => exact hb
    | true =>
      exfalso
      obtain ⟨i, j, hi1, hi2, hj1, hj2, h0, c, hc, ht⟩ := h.2.mp hb
      have hcells : ∀ v ∈ (storeCell (construct 8 8 1 100) ⟨100, 4, 4, true⟩).matrixMem,
          v = 0 ∨ v = 100 := by decide
      have ht1 : ((250 : Int) % 4294967296 - c) % 4294967296 < 100 := ht
      rcases hcells c (List.getElem?_mem hc) with h | h <;> subst h <;> omega

/-- C5: an event whose pixel lies within `sz` of an edge of the sensor is rejected by
`filterEvent` on every cache, and no batch processed by `run` puts it in the output;
`run` itself returns on every batch of events of the sensor. -/
theorem filterEvent_boundary_false (s : Sionoise) (e : Event)
    (hb : e.x < s.sz ∨ e.x ≥ s.sizeX - s.sz ∨ e.y < s.sz ∨ e.y ≥ s.sizeY - s.sz) :
    filterEvent s e = some false ∧
      ∀ batch : List Event,
        (∀ s1 out, run s batch = some (s1, out) → e ∉ out) ∧
        ((s.matrixMem.length : Int) = s.sizeX * s.sizeY → (∀ e1 ∈ batch, InGeometry s e1) →
          ∃ s1 out, run s batch = some (s1, out)) := by
  refine ⟨?_, fun batch => ⟨?_, ?_⟩⟩
  · have hb' : e.y < s.sz ∨ e.y ≥ s.sizeY - s.sz ∨ e.x < s.sz ∨ e.x ≥ s.sizeX - s.sz := by
      omega
    simp only [filterEvent, hb', if_true]
  · intro s1 out hrun hmem
    rw [run_eq_runLoop] at hrun
    obtain ⟨h1, h2, h3, h4⟩ := (runLoop_out batch s s1 out hrun).2 e hmem
    omega
  · intro hlen hgeo
    rw [run_eq_runLoop]
    exact runLoop_total batch s hlen hgeo

/-- Witness of C5: the corner event `(0, 0, t = 200)` of an 8 x 8 sensor with `sz = 1`. -/
theorem filterEvent_boundary_false_witness :
    filterEvent (construct 8 8 1 100) ⟨200, 0, 0, true⟩ = some false ∧
      ∀ batch : List Event,
        (∀ s1 out, run (construct 8 8 1 100) batch = some (s1, out) →
          (⟨200, 0, 0, true⟩ : Event) ∉ out) ∧
        (((construct 8 8 1 100).matrixMem.length : Int) =
            (construct 8 8 1 100).sizeX * (construct 8 8 1 100).sizeY →
          (∀ e1 ∈ batch, InGeometry (construct 8 8 1 100) e1) →
          ∃ s1 out, run (construct 8 8 1 100) batch = some (s1, out)) :=
  filterEvent_boundary_false (construct 8 8 1 100) ⟨200, 0, 0, true⟩ (by decide)

/-- C6, counterexample: on a freshly constructed 8 x 8 filter the event
`(4, 4, t = 2^32 + 500)` is an event of the sensor with a 64-bit timestamp, `run` processes
it, and afterwards the cell of pixel `(4, 4)` holds `500`, not `t`. -/
theorem run_cache_cell_counterexample :
    WellFormed (construct 8 8 1 100) ∧
      InGeometry (construct 8 8 1 100) ⟨4294967796, 4, 4, true⟩ ∧
      ∃ s1 out, run (construct 8 8 1 100) [⟨4294967796, 4, 4, true⟩] = some (s1, out) ∧
        readCell s1.matrixMem (4 * 8 + 4) = some 500 ∧
        readCell s1.matrixMem (4 * 8 + 4) ≠ some 4294967796 := by
  refine ⟨by unfold WellFormed; decide, by unfold InGeometry; decide,
    storeCell (construct 8 8 1 100) ⟨4294967796, 4, 4, true⟩, [], by decide, by decide,
    by decide⟩

/-- C6, amended: on a cache of `sizeX * sizeY` cells, after `run` has processed a batch
of events of the sensor ending with the event `(x, y, t)`, the cell `x*sizeY + y`
holds `t mod 2^32`, whatever the decision on the event; it holds `t` itself when
`0 ≤ t < 2^32`. -/
theorem run_cache_cell_low32 (s : Sionoise) (pre : List Event) (e : Event)
    (hlen : (s.matrixMem.length : Int) = s.sizeX * s.sizeY)
    (hpre : ∀ e1 ∈ pre, InGeometry s e1) (hgeo : InGeometry s e) :
    ∃ s1 out, run s (pre ++ [e]) = some (s1, out) ∧
      readCell s1.matrixMem (e.x * s.sizeY + e.y) = some (e.timestamp % 4294967296) ∧
      (0 ≤ e.timestamp → e.timestamp < 4294967296 →
        readCell s1.matrixMem (e.x * s.sizeY + e.y) = some e.timestamp) := by
  obtain ⟨s0, out0, h0⟩ := runLoop_total pre s hlen hpre
  obtain ⟨hX, hY, _, _, hL⟩ := runLoop_config pre s s0 out0 h0
  have hlen0 : (s0.matrixMem.length : Int) = s0.sizeX * s0.sizeY := by
    rw [hX, hY, hL]; exact hlen
  have hgeo0 : InGeometry s0 e := by
    unfold InGeometry at hgeo ⊢
    rw [hX, hY]; exact hgeo
  obtain ⟨b, hb, _⟩ := filterEvent_spec s0 e hlen0
  have hu := updateMatrix_spec s0 e hlen0 hgeo0
  have hcell := readCell_storeCell_same s0 e hlen0 hgeo0
  rw [hY] at hcell
  refine ⟨storeCell s0 e, out0 ++ (if b then [e] else []), ?_, hcell, ?_⟩
  · rw [run_eq_runLoop, runLoop_append, h0]
    simp only [runLoop_cons, hb, hu, runLoop]
  · intro h1 h2
    rw [hcell, Int.emod_eq_of_lt h1 h2]

/-- Witness of C6 (amended): the event `(4, 5, t = 150)` after `(4, 4, t = 100)` on a
freshly constructed 8 x 8 filter. -/
theorem run_cache_cell_low32_witness :
    ∃ s1 out, run (construct 8 8 1 100) ([⟨100, 4, 4, true⟩] ++ [⟨150, 4, 5, true⟩])
        = some (s1, out) ∧
      readCell s1.matrixMem ((4 : Int) * (construct 8 8 1 100).sizeY + 5)
        = some ((150 : Int) % 4294967296) ∧
      ((0 : Int) ≤ 150 → (150 : Int) < 4294967296 →
        readCell s1.matrixMem ((4 : Int) * (construct 8 8 1 100).sizeY + 5) = some 150) :=
  run_cache_cell_low32 (construct 8 8 1 100) [⟨100, 4, 4, true⟩] ⟨150, 4, 5, true⟩
    (by decide) (by unfold InGeometry; decide) (by unfold InGeometry; decide)

/-- C7, counterexample: the first event processed after construction of an 8 x 8 filter
with `sz = 1` and `threshold = 1`, the interior event `(4, 4, t = 0)`, is passed by
`filterEvent` although no pixel has received any event: a freshly allocated cell
reads as timestamp `0`. -/
theorem isolated_event_counterexample :
    (1 : Int) ≤ (construct 8 8 1 1).sz ∧ (1 : Int) ≤ (construct 8 8 1 1).threshold ∧
      filterEvent (construct 8 8 1 1) ⟨0, 4, 4, true⟩ = some true := by
  decide

/-- C7, amended: let the filter be constructed on a sensor of `sizeX x sizeY` pixels and
have processed a history of events of the sensor, none of them at a pixel of the
neighbourhood of `(x, y)`. If `threshold ≤ t mod 2^32`, `filterEvent` rejects the
event `(x, y, t)`. -/
theorem isolated_event_suppressed (sizeX sizeY cfgSize cfgThreshold : Int)
    (history : List Event) (s : Sionoise) (out : List Event) (e : Event)
    (hX : 0 ≤ sizeX) (hY : 0 ≤ sizeY)
    (hthr0 : 0 ≤ cfgThreshold) (hthr : cfgThreshold < 4294967296)
    (hrun : run (construct sizeX sizeY cfgSize cfgThreshold) history = some (s, out))
    (hgeo : ∀ h ∈ history, 0 ≤ h.x ∧ h.x < sizeX ∧ 0 ≤ h.y ∧ h.y < sizeY)
    (hiso : ∀ h ∈ history, ¬(e.x - cfgSize ≤ h.x ∧ h.x ≤ e.x + cfgSize ∧
      e.y - cfgSize ≤ h.y ∧ h.y ≤ e.y + cfgSize ∧ ¬(h.x = e.x ∧ h.y = e.y)))
    (ht : cfgThreshold ≤ e.timestamp % 4294967296) :
    filterEvent s e = some false := by
  rw [run_eq_runLoop] at hrun
  obtain ⟨hsX, hsY, hsz, hst, hL⟩ := runLoop_config history _ s out hrun
  have hlen0 := construct_length sizeX sizeY cfgSize cfgThreshold hX hY
  have hlen : (s.matrixMem.length : Int) = s.sizeX * s.sizeY := by
    rw [hsX, hsY, hL]; exact hlen0
  have hsX' : s.sizeX = sizeX := hsX
  have hsY' : s.sizeY = sizeY := hsY
  have hsz' : s.sz = cfgSize := hsz
  have hst' : s.threshold = cfgThreshold := by
    rw [hst]
    show toUInt32 cfgThreshold = cfgThreshold
    unfold toUInt32 UINT32_RANGE
    omega
  obtain ⟨b, hb, hiff⟩ := filterEvent_spec s e hlen
  cases b with
  | false => exact hb
  | true =>
    exfalso
    obtain ⟨⟨i1, i2, i3, i4⟩, i, j, hi1, hi2, hj1, hj2, hne, c, hc, hlt⟩ := hiff.mp rfl
    have hframe := runLoop_cell_frame history _ s out hrun
      (fun h hh => hgeo h hh) (e.x + i) (e.y + j)
      (by show 0 ≤ e.y + j; omega) (by show e.y + j < sizeY; omega)
      (fun h hh hxy => hiso h hh (by omega))
    have hc' : readCell s.matrixMem ((e.x + i) * sizeY + (e.y + j)) = some c := by
      rw [← hsY']; exact hc
    have hframe' : readCell s.matrixMem ((e.x + i) * sizeY + (e.y + j)) =
        readCell (construct sizeX sizeY cfgSize cfgThreshold).matrixMem
          ((e.x + i) * sizeY + (e.y + j)) := hframe
    rw [hframe'] at hc'
    have hc0 := construct_readCell sizeX sizeY cfgSize cfgThreshold _ c hc'
    subst hc0
    rw [hst'] at hlt
    omega

/-- Witness of C7 (amended): the event `(4, 4, t = 100)` after the history
`[(1, 1, t = 500)]` on an 8 x 8 sensor with `sz = 1` and `threshold = 100`. -/
theorem isolated_event_suppressed_witness :
    filterEvent (storeCell (construct 8 8 1 100) ⟨500, 1, 1, true⟩) ⟨100, 4, 4, true⟩
      = some false :=
  isolated_event_suppressed 8 8 1 100 [⟨500, 1, 1, true⟩]
    (storeCell (construct 8 8 1 100) ⟨500, 1, 1, true⟩) [] ⟨100, 4, 4, true⟩
    (by decide) (by decide) (by decide) (by decide) (by decide) (by decide) (by decide)
    (by decide)

/-- C8, counterexample: on an 8 x 8 sensor with `sz = 1` and `threshold = 100`, the
event `(0, 0, t = 200)` is an event of the sensor whose neighbour pixel `(0, 1)`
holds the cached timestamp `150`, with `200 - 150 < 100`, and `filterEvent` still
returns `false`: the pixel is on the edge. -/
theorem recent_neighbour_counterexample :
    InGeometry (storeCell (construct 8 8 1 100) ⟨150, 0, 1, true⟩) ⟨200, 0, 0, true⟩ ∧
      readCell (storeCell (construct 8 8 1 100) ⟨150, 0, 1, true⟩).matrixMem
        ((0 + 0) * 8 + (0 + 1)) = some 150 ∧
      (150 : Int) ≤ 200 ∧ (200 : Int) - 150 < 100 ∧
      filterEvent (storeCell (construct 8 8 1 100) ⟨150, 0, 1, true⟩) ⟨200, 0, 0, true⟩
        = some false ∧
      ∃ s1, run (storeCell (construct 8 8 1 100) ⟨150, 0, 1, true⟩) [⟨200, 0, 0, true⟩]
        = some (s1, []) := by
  refine ⟨by unfold InGeometry; decide, by decide, by decide, by decide, by decide,
    storeCell (storeCell (construct 8 8 1 100) ⟨150, 0, 1, true⟩) ⟨200, 0, 0, true⟩,
    by decide⟩

/-- C8, amended: on a well-formed state and for an interior event `(x, y, t)`, if some
pixel `(x+i, y+j)` with `i, j` in `[-sz, sz]`, `(i, j) ≠ (0, 0)`, holds a cached
timestamp `c ≤ t` with `t - c < threshold`, then `filterEvent` returns `true` and
`run` writes the event to its output. -/
theorem recent_neighbour_forwarded (s : Sionoise) (e : Event) (i j c : Int)
    (hwf : WellFormed s) (hint : Interior s e)
    (hi1 : -s.sz ≤ i) (hi2 : i ≤ s.sz) (hj1 : -s.sz ≤ j) (hj2 : j ≤ s.sz)
    (hne : ¬(i = 0 ∧ j = 0))
    (hc : readCell s.matrixMem ((e.x + i) * s.sizeY + (e.y + j)) = some c)
    (hle : c ≤ e.timestamp) (hlt : e.timestamp - c < s.threshold) :
    filterEvent s e = some true ∧ ∃ s1, run s [e] = some (s1, [e]) := by
  obtain ⟨hlen, _, _, hthr⟩ := hwf
  unfold UINT32_RANGE at hthr
  obtain ⟨b, hb, hiff⟩ := filterEvent_spec s e hlen
  have hb1 : b = true :=
    hiff.mpr ⟨hint, i, j, hi1, hi2, hj1, hj2, hne, c, hc, by omega⟩
  subst hb1
  have hgeo : InGeometry s e := by
    obtain ⟨h1, h2, h3, h4⟩ := hint
    unfold InGeometry
    omega
  have hu := updateMatrix_spec s e hlen hgeo
  refine ⟨hb, storeCell s e, ?_⟩
  rw [run_eq_runLoop]
  simp only [runLoop_cons, hb, hu, runLoop, if_true]

/-- Witness of C8 (amended): the interior event `(4, 5, t = 150)` next to pixel `(4, 4)`
hit at `t = 100`, with `threshold = 100`. -/
theorem recent_neighbour_forwarded_witness :
    filterEvent (storeCell (construct 8 8 1 100) ⟨100, 4, 4, true⟩) ⟨150, 4, 5, true⟩
        = some true ∧
      ∃ s1, run (storeCell (construct 8 8 1 100) ⟨100, 4, 4, true⟩) [⟨150, 4, 5, true⟩]
        = some (s1, [⟨150, 4, 5, true⟩]) :=
  recent_neighbour_forwarded (storeCell (construct 8 8 1 100) ⟨100, 4, 4, true⟩)
    ⟨150, 4, 5, true⟩ 0 (-1) 100 (by unfold WellFormed; decide) (by unfold Interior; decide)
    (by decide) (by decide) (by decide) (by decide) (by decide) (by decide) (by decide)
    (by decide)

/-- C9: whenever `run` returns, the events it wrote to the output are a sublist of the
input batch (unmodified input events, in input order); and `run` returns on every
batch of events of the sensor when the cache has `sizeX * sizeY` cells. -/
theorem run_output_sublist (s : Sionoise) (batch : List Event) :
    (∀ s1 out, run s batch = some (s1, out) → out.Sublist batch) ∧
      ((s.matrixMem.length : Int) = s.sizeX * s.sizeY → (∀ e ∈ batch, InGeometry s e) →
        ∃ s1 out, run s batch = some (s1, out) ∧ out.Sublist batch) := by
  have h1 : ∀ s1 out, run s batch = some (s1, out) → out.Sublist batch := by
    intro s1 out h
    rw [run_eq_runLoop] at h
    exact (runLoop_out batch s s1 out h).1
  refine ⟨h1, ?_⟩
  intro hlen hgeo
  obtain ⟨s1, out, h⟩ := runLoop_total batch s hlen hgeo
  rw [← run_eq_runLoop] at h
  exact ⟨s1, out, h, h1 s1 out h⟩

/-- Witness of C9: the batch `A = (4,4,100)`, `B = (4,5,150)`, `C = (0,0,200)` on a freshly
constructed 8 x 8 filter. -/
theorem run_output_sublist_witness :
    ∃ s1 out, run (construct 8 8 1 100)
        [⟨100, 4, 4, true⟩, ⟨150, 4, 5, true⟩, ⟨200, 0, 0, true⟩] = some (s1, out) ∧
      out.Sublist [⟨100, 4, 4, true⟩, ⟨150, 4, 5, true⟩, ⟨200, 0, 0, true⟩] :=
  (run_output_sublist (construct 8 8 1 100)
    [⟨100, 4, 4, true⟩, ⟨150, 4, 5, true⟩, ⟨200, 0, 0, true⟩]).2 (by decide)
    (by unfold InGeometry; decide)

end Sionoise
end dv

/-! # Properties of the codec -/

namespace dv

/-- The loop of the polarity branch appends, in input order, the record of every event
flagged valid. -/
theorem polarityLoop_eq (ts64 : TimestampRule) (tsOverflow : Int) (events : List PolarityEvent) :
    ∀ elements : List Event, polarityLoop ts64 tsOverflow events elements =
      elements ++ (events.filter (fun evt => evt.valid)).map (fun evt =>
        ({ timestamp := ts64 tsOverflow evt.timestamp, x := toInt16 evt.x, y := toInt16 evt.y,
           polarity := evt.polarity } : Event)) := by
  induction events with
  | nil => intro elements; simp [polarityLoop]
  | cons evt rest ih =>
    intro elements
    cases hv : evt.valid with
    | false => simp [polarityLoop, hv, ih]
    | true => simp [polarityLoop, hv, ih]

/-- A value of 15 bits goes unchanged through the conversion to `int16_t`. -/
theorem toInt16_of_lt (v : Int) (h0 : 0 ≤ v) (h : v < 32768) : toInt16 v = v := by
  unfold toInt16
  omega

/-- C1: for a packet tagged Polarity whose declared valid-event count is positive,
`dvConvertToAedat4` returns and the object it writes on "events" is `written`, the
list of the events flagged valid, in input order, each mapped to its reconstructed
64-bit timestamp, x, y (through the `int16_t` members, which keep every address below
`2^15` as it is) and polarity. The object is committed when it is not empty. Its
length is the number of events flagged valid; when the declared count is that
number, the object is committed and its length is the declared count. -/
theorem polarity_conversion_exact (ts64 : TimestampRule) (p : caerEventPacket)
    (md : ModuleData) (events : List PolarityEvent)
    (htag : p.events = EventArray.POLARITY_EVENT events) (hvalid : 0 < p.eventValid) :
    ∃ written : List Event,
      written = (events.filter (fun evt => evt.valid)).map (fun evt =>
        ({ timestamp := ts64 p.eventTSOverflow evt.timestamp, x := toInt16 evt.x,
           y := toInt16 evt.y, polarity := evt.polarity } : Event)) ∧
      ((∀ evt ∈ events, 0 ≤ evt.x ∧ evt.x < 32768 ∧ 0 ≤ evt.y ∧ evt.y < 32768) →
        written = (events.filter (fun evt => evt.valid)).map (fun evt =>
          ({ timestamp := ts64 p.eventTSOverflow evt.timestamp, x := evt.x, y := evt.y,
             polarity := evt.polarity } : Event))) ∧
      written.length = events.countP (fun evt => evt.valid) ∧
      dvConvertToAedat4 ts64 (some p) (some md) =
        some (some { md with events :=
          if written.length > 0 then
            { allocated := md.events.allocated + 1, current := none,
              committed := md.events.committed ++ [written] }
          else { allocated := md.events.allocated + 1, current := some [],
                 committed := md.events.committed } }) ∧
      (((events.countP (fun evt => evt.valid) : Nat) : Int) = p.eventValid →
        (written.length : Int) = p.eventValid ∧
        dvConvertToAedat4 ts64 (some p) (some md) =
          some (some { md with events :=
            { allocated := md.events.allocated + 1, current := none,
              committed := md.events.committed ++ [written] } })) := by
  have hlenw : ((events.filter (fun evt => evt.valid)).map (fun evt =>
        ({ timestamp := ts64 p.eventTSOverflow evt.timestamp, x := toInt16 evt.x,
           y := toInt16 evt.y, polarity := evt.polarity } : Event))).length =
      events.countP (fun evt => evt.valid) := by
    rw [List.length_map, List.countP_eq_length_filter]
  have hcall : dvConvertToAedat4 ts64 (some p) (some md) =
      some (some { md with events :=
        if ((events.filter (fun evt => evt.valid)).map (fun evt =>
          ({ timestamp := ts64 p.eventTSOverflow evt.timestamp, x := toInt16 evt.x,
             y := toInt16 evt.y, polarity := evt.polarity } : Event))).length > 0 then
          { allocated := md.events.allocated + 1, current := none,
            committed := md.events.committed ++ [(events.filter (fun evt => evt.valid)).map
              (fun evt => ({ timestamp := ts64 p.eventTSOverflow evt.timestamp,
                             x := toInt16 evt.x, y := toInt16 evt.y,
                             polarity := evt.polarity } : Event))] }
        else { allocated := md.events.allocated + 1, current := some [],
               committed := md.events.committed } }) := by
    have hnv : ¬ p.eventValid ≤ 0 := by omega
    simp only [dvConvertToAedat4, hnv, if_false, htag, polarityLoop_eq, List.nil_append,
      Output.allocate, Output.write, Output.commit]
    split
    · rfl
    · rename_i hempty
      have : (events.filter (fun evt => evt.valid)).map (fun evt =>
          ({ timestamp := ts64 p.eventTSOverflow evt.timestamp, x := toInt16 evt.x,
             y := toInt16 evt.y, polarity := evt.polarity } : Event)) = [] := by
        apply List.eq_nil_of_length_eq_zero
        omega
      rw [this]
  refine ⟨_, rfl, ?_, hlenw, hcall, ?_⟩
  · intro haddr
    apply List.map_congr_left
    intro evt hevt
    obtain ⟨h1, h2, h3, h4⟩ := haddr evt (List.mem_filter.mp hevt).1
    rw [toInt16_of_lt _ h1 h2, toInt16_of_lt _ h3 h4]
  · intro hcount
    have hpos : ((events.filter (fun evt => evt.valid)).map (fun evt =>
        ({ timestamp := ts64 p.eventTSOverflow evt.timestamp, x := toInt16 evt.x,
           y := toInt16 evt.y, polarity := evt.polarity } : Event))).length > 0 := by
      rw [hlenw]; omega
    refine ⟨by rw [hlenw]; exact hcount, ?_⟩
    rw [hcall, if_pos hpos]

end dv

namespace dv

/-- Witness of C1: the sample packet holds two valid events around an invalid one; the
two records are committed on "events" in input order. -/
theorem polarity_conversion_exact_witness :
    (0 : Int) < samplePolarityPacket.eventValid ∧
      dvConvertToAedat4 sampleTimestampRule (some samplePolarityPacket)
          (some ModuleData.initial) =
        some (some { ModuleData.initial with events :=
          { allocated := 1, current := none,
            committed := [[⟨2147483658, 3, 4, true⟩, ⟨2147483660, 7, 8, false⟩]] } }) := by
  obtain ⟨written, hw, _, _, _, h⟩ := polarity_conversion_exact sampleTimestampRule
    samplePolarityPacket ModuleData.initial _ rfl (by decide)
  subst hw
  exact ⟨by decide, (h (by decide)).2⟩

/-- The loop of the special branch appends, in input order, the trigger of every event
flagged valid whose subtype is mapped. -/
theorem specialLoop_eq (ts64 : TimestampRule) (tsOverflow : Int) (events : List SpecialEvent) :
    ∀ elements : List Trigger, specialLoop ts64 tsOverflow events elements =
      elements ++ (events.filter (fun evt => evt.valid)).filterMap (fun evt =>
        (triggerType evt.type).map (fun type =>
          ({ timestamp := ts64 tsOverflow evt.timestamp, type := type } : Trigger))) := by
  induction events with
  | nil => intro elements; simp [specialLoop]
  | cons evt rest ih =>
    intro elements
    cases hv : evt.valid with
    | false => simp [specialLoop, hv, ih]
    | true =>
      cases ht : triggerType evt.type with
      | none => simp [specialLoop, hv, ht, ih]
      | some type => simp [specialLoop, hv, ht, ih]

/-- C3: the subtype mapping of the special branch is defined on exactly the ten subtypes
TIMESTAMP_RESET, EXTERNAL_INPUT_RISING_EDGE, EXTERNAL_INPUT_FALLING_EDGE,
EXTERNAL_INPUT_PULSE, EXTERNAL_GENERATOR_RISING_EDGE, EXTERNAL_GENERATOR_FALLING_EDGE,
APS_FRAME_START, APS_FRAME_END, APS_EXPOSURE_START, APS_EXPOSURE_END, each with one
trigger type; for a packet tagged Special with a positive declared valid count the
object written on "triggers" holds, in input order, one record (mapped type,
reconstructed timestamp) per event flagged valid with a mapped subtype and nothing
else, and is committed when it is not empty; a packet of one valid TIMESTAMP_RESET
event and one invalid event gives exactly one record, of type timestamp-reset. -/
theorem special_conversion_exact (ts64 : TimestampRule) (p : caerEventPacket)
    (md : ModuleData) (events : List SpecialEvent)
    (htag : p.events = EventArray.SPECIAL_EVENT events) (hvalid : 0 < p.eventValid) :
    (∀ type : SpecialEventType, (∃ out, triggerType type = some out) ↔
      type ∈ [SpecialEventType.TIMESTAMP_RESET, SpecialEventType.EXTERNAL_INPUT_RISING_EDGE,
        SpecialEventType.EXTERNAL_INPUT_FALLING_EDGE, SpecialEventType.EXTERNAL_INPUT_PULSE,
        SpecialEventType.EXTERNAL_GENERATOR_RISING_EDGE,
        SpecialEventType.EXTERNAL_GENERATOR_FALLING_EDGE, SpecialEventType.APS_FRAME_START,
        SpecialEventType.APS_FRAME_END, SpecialEventType.APS_EXPOSURE_START,
        SpecialEventType.APS_EXPOSURE_END]) ∧
      (List.map triggerType
        [SpecialEventType.TIMESTAMP_RESET, SpecialEventType.EXTERNAL_INPUT_RISING_EDGE,
          SpecialEventType.EXTERNAL_INPUT_FALLING_EDGE, SpecialEventType.EXTERNAL_INPUT_PULSE,
          SpecialEventType.EXTERNAL_GENERATOR_RISING_EDGE,
          SpecialEventType.EXTERNAL_GENERATOR_FALLING_EDGE, SpecialEventType.APS_FRAME_START,
          SpecialEventType.APS_FRAME_END, SpecialEventType.APS_EXPOSURE_START,
          SpecialEventType.APS_EXPOSURE_END] =
        [some TriggerType.TIMESTAMP_RESET, some TriggerType.EXTERNAL_SIGNAL_RISING_EDGE,
          some TriggerType.EXTERNAL_SIGNAL_FALLING_EDGE, some TriggerType.EXTERNAL_SIGNAL_PULSE,
          some TriggerType.EXTERNAL_GENERATOR_RISING_EDGE,
          some TriggerType.EXTERNAL_GENERATOR_FALLING_EDGE, some TriggerType.APS_FRAME_START,
          some TriggerType.APS_FRAME_END, some TriggerType.APS_EXPOSURE_START,
          some TriggerType.APS_EXPOSURE_END]) ∧
      (∃ written : List Trigger,
        written = (events.filter (fun evt => evt.valid)).filterMap (fun evt =>
          (triggerType evt.type).map (fun type =>
            ({ timestamp := ts64 p.eventTSOverflow evt.timestamp, type := type } : Trigger))) ∧
        dvConvertToAedat4 ts64 (some p) (some md) =
          some (some { md with triggers :=
            if written.length > 0 then
              { allocated := md.triggers.allocated + 1, current := none,
                committed := md.triggers.committed ++ [written] }
            else { allocated := md.triggers.allocated + 1, current := some [],
                   committed := md.triggers.committed } })) ∧
      (∀ (t1 : Int) (e2 : SpecialEvent), e2.valid = false →
        events = [{ valid := true, timestamp := t1, type := SpecialEventType.TIMESTAMP_RESET },
          e2] →
        dvConvertToAedat4 ts64 (some p) (some md) =
          some (some { md with triggers :=
            { allocated := md.triggers.allocated + 1, current := none,
              committed := md.triggers.committed ++
                [[{ timestamp := ts64 p.eventTSOverflow t1,
                    type := TriggerType.TIMESTAMP_RESET }]] } })) := by
  have hnv : ¬ p.eventValid ≤ 0 := by omega
  have hcall : dvConvertToAedat4 ts64 (some p) (some md) =
      some (some { md with triggers :=
        if ((events.filter (fun evt => evt.valid)).filterMap (fun evt =>
          (triggerType evt.type).map (fun type =>
            ({ timestamp := ts64 p.eventTSOverflow evt.timestamp, type := type } :
              Trigger)))).length > 0 then
          { allocated := md.triggers.allocated + 1, current := none,
            committed := md.triggers.committed ++
              [(events.filter (fun evt => evt.valid)).filterMap (fun evt =>
                (triggerType evt.type).map (fun type =>
                  ({ timestamp := ts64 p.eventTSOverflow evt.timestamp, type := type } :
                    Trigger)))] }
        else { allocated := md.triggers.allocated + 1, current := some [],
               committed := md.triggers.committed } }) := by
    simp only [dvConvertToAedat4, hnv, if_false, htag, specialLoop_eq, List.nil_append,
      Output.allocate, Output.write, Output.commit]
    split
    · rfl
    · rename_i hempty
      have : (events.filter (fun evt => evt.valid)).filterMap (fun evt =>
          (triggerType evt.type).map (fun type =>
            ({ timestamp := ts64 p.eventTSOverflow evt.timestamp, type := type } :
              Trigger))) = [] := by
        apply List.eq_nil_of_length_eq_zero
        omega
      rw [this]
  refine ⟨?_, by decide, ⟨_, rfl, hcall⟩, ?_⟩
  · intro type
    cases type <;> simp [triggerType]
  · intro t1 e2 he2 hev
    rw [hcall, hev]
    simp [he2, triggerType]

/-- Witness of C3: the sample special packet, one valid TIMESTAMP_RESET event and one
invalid event, gives one committed object holding one timestamp-reset record. -/
theorem special_conversion_exact_witness :
    dvConvertToAedat4 sampleTimestampRule (some sampleSpecialPacket)
        (some ModuleData.initial) =
      some (some { ModuleData.initial with triggers :=
        { allocated := 1, current := none,
          committed := [[{ timestamp := 7, type := TriggerType.TIMESTAMP_RESET }]] } }) :=
  (special_conversion_exact sampleTimestampRule sampleSpecialPacket ModuleData.initial
    _ rfl (by decide)).2.2.2 7
    { valid := false, timestamp := 9, type := SpecialEventType.APS_FRAME_START } rfl rfl

/-- C10: `dvConvertToAedat4` returns with the module data as it was (nothing allocated,
written or committed on any output) when the packet pointer is null, when the module
data handle is null, and when the declared valid-event count of the packet is `≤ 0`,
whatever the tag and the events of the packet. -/
theorem dvConvertToAedat4_guards (ts64 : TimestampRule) (oldPacket : Option caerEventPacket)
    (moduleData : Option ModuleData)
    (h : oldPacket = none ∨ moduleData = none ∨
      ∃ p, oldPacket = some p ∧ p.eventValid ≤ 0) :
    dvConvertToAedat4 ts64 oldPacket moduleData = some moduleData := by
  rcases h with h | h | ⟨p, hp, hv⟩
  · subst h
    rfl
  · subst h
    cases oldPacket <;> rfl
  · subst hp
    cases moduleData with
    | none => rfl
    | some md => simp only [dvConvertToAedat4, hv, if_true]

/-- Witness of C10: the sample polarity packet with its declared valid count set to `0`
still holds events flagged valid, and the call changes nothing. -/
theorem dvConvertToAedat4_guards_witness :
    dvConvertToAedat4 sampleTimestampRule (some { samplePolarityPacket with eventValid := 0 })
      (some ModuleData.initial) = some (some ModuleData.initial) :=
  dvConvertToAedat4_guards sampleTimestampRule _ _
    (Or.inr (Or.inr ⟨{ samplePolarityPacket with eventValid := 0 }, rfl, by decide⟩))

/-- The shift by 8 is the division by 256. -/
theorem shr8_eq_div (v : Int) : shr8 v = v / 256 := by
  unfold shr8
  have h := Int.shiftRight_eq_div_pow v 8
  norm_num at h
  exact h

/-- The high byte of a 16-bit sample fits in 8 bits: the narrowing cast keeps it. -/
theorem toUInt8_shr8 (v : Int) (h0 : 0 ≤ v) (h : v < 65536) :
    toUInt8 (shr8 v) = shr8 v ∧ 0 ≤ shr8 v ∧ shr8 v < 256 := by
  rw [shr8_eq_div]
  unfold toUInt8
  omega

theorem setPixel_some (pixels : List Int) (i : Nat) (v : Int) (h : i < pixels.length) :
    setPixel pixels i v = some (pixels.set i v) := by
  simp only [setPixel, h, if_true]

/-- The pixel loop in format BGR, from pixel `m` on: with `3 * n` samples and an output
buffer of `3 * n` bytes it returns, keeps the bytes before `3 * m` and writes every
later triple from the source triple, channels reversed. -/
theorem pixelLoop_BGR (src : List Int) (n : Nat) (hsrc : 3 * n ≤ src.length) :
    ∀ (fuel m : Nat) (out : List Int), m ≤ n → n - m ≤ fuel → out.length = 3 * n →
      ∃ res, pixelLoop FrameFormat.BGR src (3 * n) fuel (3 * m) out = some res ∧
        res.length = 3 * n ∧
        (∀ idx, idx < 3 * m → res[idx]? = out[idx]?) ∧
        (∀ k, m ≤ k → k < n →
          res[3 * k]? = (src[3 * k + 2]?).map (fun v => toUInt8 (shr8 v)) ∧
          res[3 * k + 1]? = (src[3 * k + 1]?).map (fun v => toUInt8 (shr8 v)) ∧
          res[3 * k + 2]? = (src[3 * k]?).map (fun v => toUInt8 (shr8 v))) := by
  intro fuel
  induction fuel with
  | zero =>
    intro m out hm hfuel hout
    have hmn : m = n := by omega
    subst hmn
    refine ⟨out, by simp [pixelLoop], hout, fun _ _ => rfl, ?_⟩
    intro k h1 h2
    omega
  | succ fuel ih =>
    intro m out hm hfuel hout
    by_cases hlt : m < n
    · have h0 : 3 * m < src.length := by omega
      have h1 : 3 * m + 1 < src.length := by omega
      have h2 : 3 * m + 2 < src.length := by omega
      have hpx : 3 * m < 3 * n := by omega
      obtain ⟨res, hres, hlen, hkeep, hnew⟩ := ih (m + 1)
        (((out.set (3 * m) (toUInt8 (shr8 src[3 * m + 2]))).set (3 * m + 1)
          (toUInt8 (shr8 src[3 * m + 1]))).set (3 * m + 2) (toUInt8 (shr8 src[3 * m])))
        (by omega) (by omega) (by simp only [List.length_set]; exact hout)
      refine ⟨res, ?_, hlen, ?_, ?_⟩
      · rw [pixelLoop]
        simp only [hpx, if_true, Nat.add_zero, List.getElem?_eq_getElem h0,
          List.getElem?_eq_getElem h1, List.getElem?_eq_getElem h2]
        rw [setPixel_some _ _ _ (by omega)]
        simp only []
        rw [setPixel_some _ _ _ (by simp only [List.length_set]; omega)]
        simp only []
        rw [setPixel_some _ _ _ (by simp only [List.length_set]; omega)]
        simp only []
        exact hres
      · intro idx hidx
        rw [hkeep idx (by omega)]
        rw [List.getElem?_set_ne (by omega), List.getElem?_set_ne (by omega),
          List.getElem?_set_ne (by omega)]
      · intro k hk1 hk2
        by_cases hkm : k = m
        · subst hkm
          have e0 := hkeep (3 * k) (by omega)
          have e1 := hkeep (3 * k + 1) (by omega)
          have e2 := hkeep (3 * k + 2) (by omega)
          rw [List.getElem?_eq_getElem h2, List.getElem?_eq_getElem h1,
            List.getElem?_eq_getElem (show 3 * k < src.length by omega)]
          refine ⟨?_, ?_, ?_⟩
          · rw [e0, List.getElem?_set_ne (by omega), List.getElem?_set_ne (by omega)]
            rw [List.getElem?_set_self (by omega)]
            rfl
          · rw [e1, List.getElem?_set_ne (by omega)]
            rw [List.getElem?_set_self (by simp only [List.length_set]; omega)]
            rfl
          · rw [e2, List.getElem?_set_self (by simp only [List.length_set]; omega)]
            rfl
        · exact hnew k (by omega) hk2
    · have hmn : m = n := by omega
      subst hmn
      refine ⟨out, by simp [pixelLoop], hout, fun _ _ => rfl, ?_⟩
      intro k h1 h2
      omega

/-- The pixel loop in format BGRA, from pixel `m` on: with `4 * n` samples and an output
buffer of `4 * n` bytes it returns, keeps the bytes before `4 * m` and writes every
later group of four from the source group, first three channels reversed, fourth in
place. -/
theorem pixelLoop_BGRA (src : List Int) (n : Nat) (hsrc : 4 * n ≤ src.length) :
    ∀ (fuel m : Nat) (out : List Int), m ≤ n → n - m ≤ fuel → out.length = 4 * n →
      ∃ res, pixelLoop FrameFormat.BGRA src (4 * n) fuel (4 * m) out = some res ∧
        res.length = 4 * n ∧
        (∀ idx, idx < 4 * m → res[idx]? = out[idx]?) ∧
        (∀ k, m ≤ k → k < n →
          res[4 * k]? = (src[4 * k + 2]?).map (fun v => toUInt8 (shr8 v)) ∧
          res[4 * k + 1]? = (src[4 * k + 1]?).map (fun v => toUInt8 (shr8 v)) ∧
          res[4 * k + 2]? = (src[4 * k]?).map (fun v => toUInt8 (shr8 v)) ∧
          res[4 * k + 3]? = (src[4 * k + 3]?).map (fun v => toUInt8 (shr8 v))) := by
  intro fuel
  induction fuel with
  | zero =>
    intro m out hm hfuel hout
    have hmn : m = n := by omega
    subst hmn
    refine ⟨out, by simp [pixelLoop], hout, fun _ _ => rfl, ?_⟩
    intro k h1 h2
    omega
  | succ fuel ih =>
    intro m out hm hfuel hout
    by_cases hlt : m < n
    · have h0 : 4 * m < src.length := by omega
      have h1 : 4 * m + 1 < src.length := by omega
      have h2 : 4 * m + 2 < src.length := by omega
      have h3 : 4 * m + 3 < src.length := by omega
      have hpx : 4 * m < 4 * n := by omega
      obtain ⟨res, hres, hlen, hkeep, hnew⟩ := ih (m + 1)
        ((((out.set (4 * m) (toUInt8 (shr8 src[4 * m + 2]))).set (4 * m + 1)
          (toUInt8 (shr8 src[4 * m + 1]))).set (4 * m + 2) (toUInt8 (shr8 src[4 * m]))).set
          (4 * m + 3) (toUInt8 (shr8 src[4 * m + 3])))
        (by omega) (by omega) (by simp only [List.length_set]; exact hout)
      refine ⟨res, ?_, hlen, ?_, ?_⟩
      · rw [pixelLoop]
        simp only [hpx, if_true, Nat.add_zero, List.getElem?_eq_getElem h0,
          List.getElem?_eq_getElem h1, List.getElem?_eq_getElem h2,
          List.getElem?_eq_getElem h3]
        rw [setPixel_some _ _ _ (by omega)]
        simp only []
        rw [setPixel_some _ _ _ (by simp only [List.length_set]; omega)]
        simp only []
        rw [setPixel_some _ _ _ (by simp only [List.length_set]; omega)]
        simp only []
        rw [setPixel_some _ _ _ (by simp only [List.length_set]; omega)]
        simp only []
        exact hres
      · intro idx hidx
        rw [hkeep idx (by omega)]
        rw [List.getElem?_set_ne (by omega), List.getElem?_set_ne (by omega),
          List.getElem?_set_ne (by omega), List.getElem?_set_ne (by omega)]
      · intro k hk1 hk2
        by_cases hkm : k = m
        · subst hkm
          have e0 := hkeep (4 * k) (by omega)
          have e1 := hkeep (4 * k + 1) (by omega)
          have e2 := hkeep (4 * k + 2) (by omega)
          have e3 := hkeep (4 * k + 3) (by omega)
          rw [List.getElem?_eq_getElem h2, List.getElem?_eq_getElem h1,
            List.getElem?_eq_getElem h0, List.getElem?_eq_getElem h3]
          refine ⟨?_, ?_, ?_, ?_⟩
          · rw [e0, List.getElem?_set_ne (by omega), List.getElem?_set_ne (by omega),
              List.getElem?_set_ne (by omega)]
            rw [List.getElem?_set_self (by omega)]
            rfl
          · rw [e1, List.getElem?_set_ne (by omega), List.getElem?_set_ne (by omega)]
            rw [List.getElem?_set_self (by simp only [List.length_set]; omega)]
            rfl
          · rw [e2, List.getElem?_set_ne (by omega)]
            rw [List.getElem?_set_self (by simp only [List.length_set]; omega)]
            rfl
          · rw [e3, List.getElem?_set_self (by simp only [List.length_set]; omega)]
            rfl
        · exact hnew k (by omega) hk2
    · have hmn : m = n := by omega
      subst hmn
      refine ⟨out, by simp [pixelLoop], hout, fun _ _ => rfl, ?_⟩
      intro k h1 h2
      omega

/-- The buffer after `resize(n)` has `n` bytes. -/
theorem resize_length (pixels : List Int) (n : Nat) : (resize pixels n).length = n := by
  simp only [resize, List.length_append, List.length_take, List.length_replicate]
  omega

/-- On an array of 16-bit samples the byte stored for a sample is its high byte. -/
theorem map_high_byte (src : List Int) (hsamples : ∀ v ∈ src, 0 ≤ v ∧ v < 65536) (i : Nat) :
    (src[i]?).map (fun v => toUInt8 (shr8 v)) = (src[i]?).map shr8 := by
  cases h : src[i]? with
  | none => rfl
  | some v =>
    have hv := hsamples v (List.getElem?_mem h)
    simp only [Option.map_some', (toUInt8_shr8 v hv.1 hv.2).1]

/-- C2: for a legacy frame event with 16-bit samples, 3 channels and `3 * n` samples, the
frame written has a pixel buffer of `3 * n` bytes with
`out[3k + c] = s[3k + (2 - c)] / 256` (the shift `>> 8`) for `k < n` and `c < 3`; with 4 channels and
`4 * n` samples the buffer has `4 * n` bytes with
`out[4k + c] = s[4k + (2 - c)] / 256` for `c < 3` and `out[4k + 3] = s[4k + 3] / 256`.
A packet holding that event, flagged valid, writes exactly that frame on "frames". -/
theorem frame_pixels_channel_reversed (ts64 : TimestampRule) (tsOverflow : Int)
    (evt : FrameEvent) (n : Nat)
    (hsamples : ∀ v ∈ evt.pixelArray, 0 ≤ v ∧ v < 65536)
    (hchan : (evt.channelNumber = 3 ∧ evt.pixelArray.length = 3 * n ∧
        evt.pixelsMaxIndex = 3 * n) ∨
      (evt.channelNumber = 4 ∧ evt.pixelArray.length = 4 * n ∧ evt.pixelsMaxIndex = 4 * n)) :
    ∃ f, convertFrame ts64 tsOverflow evt Frame.fresh = some f ∧
      (evt.valid = true → ∀ frames : Output Frame,
        frameLoop ts64 tsOverflow [evt] frames =
          some (if f.pixels.length > 0 then ((frames.allocate Frame.fresh).write f).commit
            else (frames.allocate Frame.fresh).write f)) ∧
      (evt.channelNumber = 3 → f.pixels.length = 3 * n ∧
        ∀ k c, k < n → c < 3 →
          f.pixels[3 * k + c]? = (evt.pixelArray[3 * k + (2 - c)]?).map (fun s => s / 256)) ∧
      (evt.channelNumber = 4 → f.pixels.length = 4 * n ∧
        ∀ k, k < n →
          (∀ c, c < 3 → f.pixels[4 * k + c]? = (evt.pixelArray[4 * k + (2 - c)]?).map (fun s => s / 256)) ∧
          f.pixels[4 * k + 3]? = (evt.pixelArray[4 * k + 3]?).map (fun s => s / 256)) := by
  have hdiv : shr8 = fun s => s / 256 := funext shr8_eq_div
  have hloop : ∀ f, convertFrame ts64 tsOverflow evt Frame.fresh = some f →
      evt.valid = true → ∀ frames : Output Frame,
        frameLoop ts64 tsOverflow [evt] frames =
          some (if f.pixels.length > 0 then ((frames.allocate Frame.fresh).write f).commit
            else (frames.allocate Frame.fresh).write f) := by
    intro f hf hv frames
    simp only [frameLoop, hv, hf]
    rfl
  rcases hchan with ⟨hc, hlen, hmax⟩ | ⟨hc, hlen, hmax⟩
  · obtain ⟨res, hres, hrlen, _, hnew⟩ := pixelLoop_BGR evt.pixelArray n (by omega) (3 * n) 0
      (resize Frame.fresh.pixels (3 * n)) (by omega) (by omega) (resize_length _ _)
    simp only [Nat.mul_zero] at hres
    have hfmt : frameFormat evt.channelNumber = FrameFormat.BGR := by
      simp [frameFormat, hc]
    have hconv : convertFrame ts64 tsOverflow evt Frame.fresh =
        some { timestamp := ts64 tsOverflow evt.timestamp
               timestampStartOfFrame := ts64 tsOverflow evt.tsStartOfFrame
               timestampStartOfExposure := ts64 tsOverflow evt.tsStartOfExposure
               timestampEndOfExposure := ts64 tsOverflow evt.tsEndOfExposure
               timestampEndOfFrame := ts64 tsOverflow evt.tsEndOfFrame
               sizeX := toInt16 evt.lengthX
               sizeY := toInt16 evt.lengthY
               positionX := toInt16 evt.positionX
               positionY := toInt16 evt.positionY
               format := FrameFormat.BGR
               pixels := res } := by
      simp only [convertFrame, hfmt, hmax, hres]
    refine ⟨_, hconv, hloop _ hconv, ?_, ?_⟩
    · intro _
      refine ⟨hrlen, ?_⟩
      intro k c hk hc3
      obtain ⟨a0, a1, a2⟩ := hnew k (by omega) hk
      rw [map_high_byte _ hsamples, hdiv] at a0 a1 a2
      interval_cases c
      · exact a0
      · exact a1
      · exact a2
    · intro h4
      omega
  · obtain ⟨res, hres, hrlen, _, hnew⟩ := pixelLoop_BGRA evt.pixelArray n (by omega) (4 * n) 0
      (resize Frame.fresh.pixels (4 * n)) (by omega) (by omega) (resize_length _ _)
    simp only [Nat.mul_zero] at hres
    have hfmt : frameFormat evt.channelNumber = FrameFormat.BGRA := by
      simp [frameFormat, hc]
    have hconv : convertFrame ts64 tsOverflow evt Frame.fresh =
        some { timestamp := ts64 tsOverflow evt.timestamp
               timestampStartOfFrame := ts64 tsOverflow evt.tsStartOfFrame
               timestampStartOfExposure := ts64 tsOverflow evt.tsStartOfExposure
               timestampEndOfExposure := ts64 tsOverflow evt.tsEndOfExposure
               timestampEndOfFrame := ts64 tsOverflow evt.tsEndOfFrame
               sizeX := toInt16 evt.lengthX
               sizeY := toInt16 evt.lengthY
               positionX := toInt16 evt.positionX
               positionY := toInt16 evt.positionY
               format := FrameFormat.BGRA
               pixels := res } := by
      simp only [convertFrame, hfmt, hmax, hres]
    refine ⟨_, hconv, hloop _ hconv, ?_, ?_⟩
    · intro h3
      omega
    · intro _
      refine ⟨hrlen, ?_⟩
      intro k hk
      obtain ⟨a0, a1, a2, a3⟩ := hnew k (by omega) hk
      rw [map_high_byte _ hsamples, hdiv] at a0 a1 a2 a3
      refine ⟨?_, a3⟩
      intro c hc3
      interval_cases c
      · exact a0
      · exact a1
      · exact a2

/-- Witness of C2: the sample frame event with 3 channels and two pixels
`(0x1122, 0x3344, 0x5566)`, `(0x7788, 0x99AA, 0xBBCC)` gives the bytes
`0x55, 0x33, 0x11, 0xBB, 0x99, 0x77`, and both the conversion of the event and the
packet loop produce that frame; the sample with 4 channels and the same samples
followed by `0xDDEE, 0xFFFF` gives `0x55, 0x33, 0x11, 0x77, 0xDD, 0xBB, 0x99, 0xFF`. -/
theorem frame_pixels_channel_reversed_witness :
    (∃ f, convertFrame sampleTimestampRule 0 sampleFrameEventRGB Frame.fresh = some f ∧
      f.pixels = [85, 51, 17, 187, 153, 119] ∧
      ∀ frames : Output Frame,
        frameLoop sampleTimestampRule 0 [sampleFrameEventRGB] frames =
          some ((frames.allocate Frame.fresh).write f).commit) ∧
    (∃ f, convertFrame sampleTimestampRule 0 sampleFrameEventRGBA Frame.fresh = some f ∧
      f.pixels = [85, 51, 17, 119, 221, 187, 153, 255] ∧
      ∀ frames : Output Frame,
        frameLoop sampleTimestampRule 0 [sampleFrameEventRGBA] frames =
          some ((frames.allocate Frame.fresh).write f).commit) := by
  constructor
  · obtain ⟨f, hf, hloop, h3, _⟩ := frame_pixels_channel_reversed sampleTimestampRule 0
      sampleFrameEventRGB 2 (by decide) (Or.inl ⟨rfl, rfl, rfl⟩)
    obtain ⟨hlen, hpix⟩ := h3 rfl
    have hp : f.pixels = [85, 51, 17, 187, 153, 119] := by
      apply List.ext_getElem?
      intro i
      by_cases hi : i < 6
      · have e00 := hpix 0 0 (by decide) (by decide)
        have e01 := hpix 0 1 (by decide) (by decide)
        have e02 := hpix 0 2 (by decide) (by decide)
        have e10 := hpix 1 0 (by decide) (by decide)
        have e11 := hpix 1 1 (by decide) (by decide)
        have e12 := hpix 1 2 (by decide) (by decide)
        interval_cases i
        · exact e00
        · exact e01
        · exact e02
        · exact e10
        · exact e11
        · exact e12
      · rw [List.getElem?_eq_none (by omega), List.getElem?_eq_none (by simp; omega)]
    refine ⟨f, hf, hp, ?_⟩
    intro frames
    rw [hloop rfl frames, if_pos (by omega)]
  · obtain ⟨f, hf, hloop, _, h4⟩ := frame_pixels_channel_reversed sampleTimestampRule 0
      sampleFrameEventRGBA 2 (by decide) (Or.inr ⟨rfl, rfl, rfl⟩)
    obtain ⟨hlen, hpix⟩ := h4 rfl
    have hp : f.pixels = [85, 51, 17, 119, 221, 187, 153, 255] := by
      apply List.ext_getElem?
      intro i
      by_cases hi : i < 8
      · have e00 := (hpix 0 (by decide)).1 0 (by decide)
        have e01 := (hpix 0 (by decide)).1 1 (by decide)
        have e02 := (hpix 0 (by decide)).1 2 (by decide)
        have e03 := (hpix 0 (by decide)).2
        have e10 := (hpix 1 (by decide)).1 0 (by decide)
        have e11 := (hpix 1 (by decide)).1 1 (by decide)
        have e12 := (hpix 1 (by decide)).1 2 (by decide)
        have e13 := (hpix 1 (by decide)).2
        interval_cases i
        · exact e00
        · exact e01
        · exact e02
        · exact e03
        · exact e10
        · exact e11
        · exact e12
        · exact e13
      · rw [List.getElem?_eq_none (by omega), List.getElem?_eq_none (by simp; omega)]
    refine ⟨f, hf, hp, ?_⟩
    intro frames
    rw [hloop rfl frames, if_pos (by omega)]

/-- Allocating an object, writing it and committing it hands exactly that object to the
consumer. -/
theorem Output.commit_write {α : Type} (o : Output α) (fresh obj : α) :
    ((o.allocate fresh).write obj).commit =
      { allocated := o.allocated + 1, current := none, committed := o.committed ++ [obj] } :=
  rfl

/-- The call on a packet tagged Polarity that passes the guards. -/
theorem dvConvertToAedat4_polarity (ts64 : TimestampRule) (p : caerEventPacket)
    (md : ModuleData) (events : List PolarityEvent)
    (htag : p.events = EventArray.POLARITY_EVENT events) (hvalid : 0 < p.eventValid) :
    dvConvertToAedat4 ts64 (some p) (some md) =
      some (some { md with events :=
        if (polarityLoop ts64 p.eventTSOverflow events []).length > 0 then
          { allocated := md.events.allocated + 1, current := none,
            committed := md.events.committed ++ [polarityLoop ts64 p.eventTSOverflow events []] }
        else { allocated := md.events.allocated + 1,
               current := some (polarityLoop ts64 p.eventTSOverflow events []),
               committed := md.events.committed } }) := by
  have hnv : ¬ p.eventValid ≤ 0 := by omega
  simp only [dvConvertToAedat4, hnv, if_false, htag, Output.allocate, Output.write,
    Output.commit]

/-- The call on a packet tagged IMU6 that passes the guards. -/
theorem dvConvertToAedat4_imu (ts64 : TimestampRule) (p : caerEventPacket)
    (md : ModuleData) (events : List IMU6Event)
    (htag : p.events = EventArray.IMU6_EVENT events) (hvalid : 0 < p.eventValid) :
    dvConvertToAedat4 ts64 (some p) (some md) =
      some (some { md with imu :=
        if (imuLoop ts64 p.eventTSOverflow events []).length > 0 then
          { allocated := md.imu.allocated + 1, current := none,
            committed := md.imu.committed ++ [imuLoop ts64 p.eventTSOverflow events []] }
        else { allocated := md.imu.allocated + 1,
               current := some (imuLoop ts64 p.eventTSOverflow events []),
               committed := md.imu.committed } }) := by
  have hnv : ¬ p.eventValid ≤ 0 := by omega
  simp only [dvConvertToAedat4, hnv, if_false, htag, Output.allocate, Output.write,
    Output.commit]

/-- The call on a packet tagged Special that passes the guards. -/
theorem dvConvertToAedat4_special (ts64 : TimestampRule) (p : caerEventPacket)
    (md : ModuleData) (events : List SpecialEvent)
    (htag : p.events = EventArray.SPECIAL_EVENT events) (hvalid : 0 < p.eventValid) :
    dvConvertToAedat4 ts64 (some p) (some md) =
      some (some { md with triggers :=
        if (specialLoop ts64 p.eventTSOverflow events []).length > 0 then
          { allocated := md.triggers.allocated + 1, current := none,
            committed := md.triggers.committed ++
              [specialLoop ts64 p.eventTSOverflow events []] }
        else { allocated := md.triggers.allocated + 1,
               current := some (specialLoop ts64 p.eventTSOverflow events []),
               committed := md.triggers.committed } }) := by
  have hnv : ¬ p.eventValid ≤ 0 := by omega
  simp only [dvConvertToAedat4, hnv, if_false, htag, Output.allocate, Output.write,
    Output.commit]

/-- The call on a packet tagged Frame that passes the guards is the frame loop on the
"frames" output. -/
theorem dvConvertToAedat4_frame (ts64 : TimestampRule) (p : caerEventPacket)
    (md : ModuleData) (events : List FrameEvent)
    (htag : p.events = EventArray.FRAME_EVENT events) (hvalid : 0 < p.eventValid) :
    dvConvertToAedat4 ts64 (some p) (some md) =
      match frameLoop ts64 p.eventTSOverflow events md.frames with
      | none => none
      | some frames => some (some { md with frames := frames }) := by
  have hnv : ¬ p.eventValid ≤ 0 := by omega
  simp only [dvConvertToAedat4, hnv, if_false, htag]

/-- The call on a packet with any other tag that passes the guards does nothing. -/
theorem dvConvertToAedat4_unknown (ts64 : TimestampRule) (p : caerEventPacket)
    (md : ModuleData) (eventType : Int)
    (htag : p.events = EventArray.unknown eventType) (hvalid : 0 < p.eventValid) :
    dvConvertToAedat4 ts64 (some p) (some md) = some (some md) := by
  have hnv : ¬ p.eventValid ≤ 0 := by omega
  simp only [dvConvertToAedat4, hnv, if_false, htag]

/-- The loop of the IMU6 branch appends, in input order, the record of every event
flagged valid. -/
theorem imuLoop_eq (ts64 : TimestampRule) (tsOverflow : Int) (events : List IMU6Event) :
    ∀ elements : List IMU, imuLoop ts64 tsOverflow events elements =
      elements ++ (events.filter (fun evt => evt.valid)).map (fun evt =>
        ({ timestamp := ts64 tsOverflow evt.timestamp, temperature := evt.temp,
           accelerometerX := evt.accelX, accelerometerY := evt.accelY,
           accelerometerZ := evt.accelZ, gyroscopeX := evt.gyroX,
           gyroscopeY := evt.gyroY, gyroscopeZ := evt.gyroZ } : IMU)) := by
  induction events with
  | nil => intro elements; simp [imuLoop]
  | cons evt rest ih =>
    intro elements
    cases hv : evt.valid with
    | false => simp [imuLoop, hv, ih]
    | true => simp [imuLoop, hv, ih]

/-- The pixel loop in format GRAY, from index `m` on: with at least `maxIndex` samples
and an output buffer of `maxIndex` bytes it returns, keeps the bytes before `m` and
writes every later byte from the sample of the same index. -/
theorem pixelLoop_GRAY (src : List Int) (maxIndex : Nat) (hsrc : maxIndex ≤ src.length) :
    ∀ (fuel m : Nat) (out : List Int), m ≤ maxIndex → maxIndex - m ≤ fuel →
      out.length = maxIndex →
      ∃ res, pixelLoop FrameFormat.GRAY src maxIndex fuel m out = some res ∧
        res.length = maxIndex ∧
        (∀ idx, idx < m → res[idx]? = out[idx]?) ∧
        (∀ k, m ≤ k → k < maxIndex →
          res[k]? = (src[k]?).map (fun v => toUInt8 (shr8 v))) := by
  intro fuel
  induction fuel with
  | zero =>
    intro m out hm hfuel hout
    have hmn : m = maxIndex := by omega
    subst hmn
    refine ⟨out, by simp [pixelLoop], hout, fun _ _ => rfl, ?_⟩
    intro k h1 h2
    omega
  | succ fuel ih =>
    intro m out hm hfuel hout
    by_cases hlt : m < maxIndex
    · have h0 : m < src.length := by omega
      obtain ⟨res, hres, hlen, hkeep, hnew⟩ := ih (m + 1)
        (out.set m (toUInt8 (shr8 src[m]))) (by omega) (by omega)
        (by simp only [List.length_set]; exact hout)
      refine ⟨res, ?_, hlen, ?_, ?_⟩
      · rw [pixelLoop]
        simp only [hlt, if_true, List.getElem?_eq_getElem h0]
        rw [setPixel_some _ _ _ (by omega)]
        simp only []
        exact hres
      · intro idx hidx
        rw [hkeep idx (by omega), List.getElem?_set_ne (by omega)]
      · intro k hk1 hk2
        by_cases hkm : k = m
        · subst hkm
          rw [hkeep k (by omega), List.getElem?_set_self (by omega),
            List.getElem?_eq_getElem h0]
          rfl
        · exact hnew k (by omega) hk2
    · have hmn : m = maxIndex := by omega
      subst hmn
      refine ⟨out, by simp [pixelLoop], hout, fun _ _ => rfl, ?_⟩
      intro k h1 h2
      omega

/-- On a frame event laid out for its pixel loop the loop returns, with a buffer of
`getPixelsMaxIndex()` bytes. -/
theorem pixelLoop_total (evt : FrameEvent) (hwf : evt.WellFormed) :
    ∃ pixels, pixelLoop (frameFormat evt.channelNumber) evt.pixelArray evt.pixelsMaxIndex
        evt.pixelsMaxIndex 0 (resize Frame.fresh.pixels evt.pixelsMaxIndex) = some pixels ∧
      pixels.length = evt.pixelsMaxIndex := by
  obtain ⟨hlen, hdvd⟩ := hwf
  cases hf : frameFormat evt.channelNumber with
  | GRAY =>
    obtain ⟨res, hres, hrlen, _, _⟩ := pixelLoop_GRAY evt.pixelArray evt.pixelsMaxIndex hlen
      evt.pixelsMaxIndex 0 (resize Frame.fresh.pixels evt.pixelsMaxIndex) (by omega) (by omega)
      (resize_length _ _)
    exact ⟨res, hres, hrlen⟩
  | BGR =>
    rw [hf] at hdvd
    obtain ⟨n, hn⟩ := hdvd
    simp only [pixelStride] at hn
    rw [hn]
    obtain ⟨res, hres, hrlen, _, _⟩ := pixelLoop_BGR evt.pixelArray n (by omega) (3 * n) 0
      (resize Frame.fresh.pixels (3 * n)) (by omega) (by omega) (resize_length _ _)
    simp only [Nat.mul_zero] at hres
    exact ⟨res, hres, hrlen⟩
  | BGRA =>
    rw [hf] at hdvd
    obtain ⟨n, hn⟩ := hdvd
    simp only [pixelStride] at hn
    rw [hn]
    obtain ⟨res, hres, hrlen, _, _⟩ := pixelLoop_BGRA evt.pixelArray n (by omega) (4 * n) 0
      (resize Frame.fresh.pixels (4 * n)) (by omega) (by omega) (resize_length _ _)
    simp only [Nat.mul_zero] at hres
    exact ⟨res, hres, hrlen⟩

/-- A frame returned by the body of the frame loop carries the reconstructed timestamps,
the narrowed size and position, the selected format and the buffer the pixel loop
returned. -/
theorem convertFrame_some (ts64 : TimestampRule) (tsOverflow : Int) (evt : FrameEvent)
    (f : Frame) (h : convertFrame ts64 tsOverflow evt Frame.fresh = some f) :
    pixelLoop (frameFormat evt.channelNumber) evt.pixelArray evt.pixelsMaxIndex
        evt.pixelsMaxIndex 0 (resize Frame.fresh.pixels evt.pixelsMaxIndex) = some f.pixels ∧
      f.timestamp = ts64 tsOverflow evt.timestamp ∧
      f.timestampStartOfFrame = ts64 tsOverflow evt.tsStartOfFrame ∧
      f.timestampStartOfExposure = ts64 tsOverflow evt.tsStartOfExposure ∧
      f.timestampEndOfExposure = ts64 tsOverflow evt.tsEndOfExposure ∧
      f.timestampEndOfFrame = ts64 tsOverflow evt.tsEndOfFrame ∧
      f.sizeX = toInt16 evt.lengthX ∧ f.sizeY = toInt16 evt.lengthY ∧
      f.positionX = toInt16 evt.positionX ∧ f.positionY = toInt16 evt.positionY ∧
      f.format = frameFormat evt.channelNumber := by
  unfold convertFrame at h
  simp only at h
  split at h
  · cases h
  · rename_i pixels hp
    cases h
    exact ⟨hp, rfl, rfl, rfl, rfl, rfl, rfl, rfl, rfl, rfl, rfl⟩

/-- On a frame event laid out for its pixel loop the body of the frame loop returns a
frame, whose pixel buffer has `getPixelsMaxIndex()` bytes. -/
theorem convertFrame_total (ts64 : TimestampRule) (tsOverflow : Int) (evt : FrameEvent)
    (hwf : evt.WellFormed) :
    ∃ f, convertFrame ts64 tsOverflow evt Frame.fresh = some f ∧
      f.pixels.length = evt.pixelsMaxIndex := by
  obtain ⟨pixels, hp, hlen⟩ := pixelLoop_total evt hwf
  have hconv : convertFrame ts64 tsOverflow evt Frame.fresh =
      some { timestamp := ts64 tsOverflow evt.timestamp
             timestampStartOfFrame := ts64 tsOverflow evt.tsStartOfFrame
             timestampStartOfExposure := ts64 tsOverflow evt.tsStartOfExposure
             timestampEndOfExposure := ts64 tsOverflow evt.tsEndOfExposure
             timestampEndOfFrame := ts64 tsOverflow evt.tsEndOfFrame
             sizeX := toInt16 evt.lengthX
             sizeY := toInt16 evt.lengthY
             positionX := toInt16 evt.positionX
             positionY := toInt16 evt.positionY
             format := frameFormat evt.channelNumber
             pixels := pixels } := by
    simp only [convertFrame, hp]
  exact ⟨_, hconv, hlen⟩

/-- The frame loop on events laid out for their pixel loops: it returns; one frame is
allocated and converted per event flagged valid, in input order (`fs`); the frames
committed are, in that order, those of `fs` whose pixel buffer is not empty, which
are the frames of the valid events with a positive maximum index. -/
theorem frameLoop_spec (ts64 : TimestampRule) (tsOverflow : Int) (events : List FrameEvent) :
    ∀ frames : Output Frame, (∀ evt ∈ events, evt.valid = true → evt.WellFormed) →
      ∃ fs out, frameLoop ts64 tsOverflow events frames = some out ∧
        List.Forall₂ (fun evt f => convertFrame ts64 tsOverflow evt Frame.fresh = some f)
          (events.filter (fun evt => evt.valid)) fs ∧
        out.allocated = frames.allocated + fs.length ∧
        out.committed = frames.committed ++ fs.filter (fun f => decide (f.pixels.length > 0)) ∧
        List.Forall₂ (fun evt f => convertFrame ts64 tsOverflow evt Frame.fresh = some f)
          (events.filter (fun evt => evt.valid && decide (0 < evt.pixelsMaxIndex)))
          (fs.filter (fun f => decide (f.pixels.length > 0))) := by
  induction events with
  | nil =>
    intro frames _
    exact ⟨[], frames, rfl, List.Forall₂.nil, by simp, by simp, List.Forall₂.nil⟩
  | cons evt rest ih =>
    intro frames hwf
    have hrest : ∀ e ∈ rest, e.valid = true → e.WellFormed :=
      fun e he => hwf e (List.mem_cons_of_mem _ he)
    cases hv : evt.valid with
    | false =>
      obtain ⟨fs, out, h1, h2, h3, h4, h5⟩ := ih frames hrest
      refine ⟨fs, out, ?_, ?_, h3, h4, ?_⟩
      · simp only [frameLoop, hv, Bool.not_false, if_true]
        exact h1
      · simpa [List.filter_cons, hv] using h2
      · simpa [List.filter_cons, hv] using h5
    | true =>
      obtain ⟨f, hf, hflen⟩ := convertFrame_total ts64 tsOverflow evt
        (hwf evt (List.mem_cons_self _ _) hv)
      by_cases hpos : f.pixels.length > 0
      · obtain ⟨fs, out, h1, h2, h3, h4, h5⟩ :=
          ih (((frames.allocate Frame.fresh).write f).commit) hrest
        rw [Output.commit_write] at h1 h3 h4
        have hN : 0 < evt.pixelsMaxIndex := by omega
        refine ⟨f :: fs, out, ?_, ?_, ?_, ?_, ?_⟩
        · simp only [frameLoop, hv, Bool.not_true, hf, hpos, if_true]
          rw [Output.commit_write]
          simpa using h1
        · simp only [List.filter_cons, hv, if_true]
          exact List.Forall₂.cons hf h2
        · simp only [List.length_cons] at h3 ⊢
          omega
        · simp only [List.filter_cons, hpos, decide_True, if_true]
          simpa using h4
        · simp only [List.filter_cons, hv, hN, hpos, decide_True, Bool.and_self, if_true]
          exact List.Forall₂.cons hf h5
      · obtain ⟨fs, out, h1, h2, h3, h4, h5⟩ :=
          ih ((frames.allocate Frame.fresh).write f) hrest
        have hN : ¬ 0 < evt.pixelsMaxIndex := by omega
        refine ⟨f :: fs, out, ?_, ?_, ?_, ?_, ?_⟩
        · simp only [frameLoop, hv, Bool.not_true, hf, hpos, if_false]
          simpa using h1
        · simp only [List.filter_cons, hv, if_true]
          exact List.Forall₂.cons hf h2
        · simp only [List.length_cons, Output.allocate, Output.write] at h3 ⊢
          omega
        · simp only [List.filter_cons, hpos, decide_False]
          simpa [Output.allocate, Output.write] using h4
        · simp only [List.filter_cons, hv, hN, hpos, decide_False, Bool.and_false]
          simpa using h5

/-- A special event whose subtype is unmapped, or which is not flagged valid, leaves no
record: the records written are those of the other events. -/
theorem specialLoop_all_unmapped (ts64 : TimestampRule) (tsOverflow : Int)
    (events : List SpecialEvent)
    (h : ∀ evt ∈ events, evt.valid = true → triggerType evt.type = none) :
    specialLoop ts64 tsOverflow events [] = [] := by
  rw [specialLoop_eq, List.nil_append, List.filterMap_eq_nil_iff]
  intro evt hevt
  obtain ⟨hmem, hv⟩ := List.mem_filter.mp hevt
  rw [h evt hmem hv]
  rfl

/-- C11: for a packet that passes the guards, the batch written on "events" (Polarity),
"imu" (IMU6) or "triggers" (Special) is committed exactly once when it holds a record
and not at all when it holds none, as for a Special packet whose valid events all
have unmapped subtypes; for a Frame packet one frame is allocated per valid event
and the frames committed are exactly the allocated ones with a non-empty pixel
buffer. -/
theorem commit_iff_nonempty (ts64 : TimestampRule) (p : caerEventPacket) (md : ModuleData)
    (hvalid : 0 < p.eventValid) :
    (∀ events, p.events = EventArray.POLARITY_EVENT events →
      ∃ r, dvConvertToAedat4 ts64 (some p) (some md) = some (some r) ∧
        r.events.committed =
          if polarityLoop ts64 p.eventTSOverflow events [] = [] then md.events.committed
          else md.events.committed ++ [polarityLoop ts64 p.eventTSOverflow events []]) ∧
    (∀ events, p.events = EventArray.IMU6_EVENT events →
      ∃ r, dvConvertToAedat4 ts64 (some p) (some md) = some (some r) ∧
        r.imu.committed =
          if imuLoop ts64 p.eventTSOverflow events [] = [] then md.imu.committed
          else md.imu.committed ++ [imuLoop ts64 p.eventTSOverflow events []]) ∧
    (∀ events, p.events = EventArray.SPECIAL_EVENT events →
      ∃ r, dvConvertToAedat4 ts64 (some p) (some md) = some (some r) ∧
        (r.triggers.committed =
          if specialLoop ts64 p.eventTSOverflow events [] = [] then md.triggers.committed
          else md.triggers.committed ++ [specialLoop ts64 p.eventTSOverflow events []]) ∧
        ((∀ evt ∈ events, evt.valid = true → triggerType evt.type = none) →
          r.triggers.committed = md.triggers.committed)) ∧
    (∀ events, p.events = EventArray.FRAME_EVENT events →
      (∀ evt ∈ events, evt.valid = true → evt.WellFormed) →
      ∃ r fs, dvConvertToAedat4 ts64 (some p) (some md) = some (some r) ∧
        List.Forall₂
          (fun evt f => convertFrame ts64 p.eventTSOverflow evt Frame.fresh = some f)
          (events.filter (fun evt => evt.valid)) fs ∧
        r.frames.allocated = md.frames.allocated + fs.length ∧
        r.frames.committed =
          md.frames.committed ++ fs.filter (fun f => decide (f.pixels.length > 0))) := by
  refine ⟨?_, ?_, ?_, ?_⟩
  · intro events htag
    refine ⟨_, dvConvertToAedat4_polarity ts64 p md events htag hvalid, ?_⟩
    cases h : polarityLoop ts64 p.eventTSOverflow events [] with
    | nil => simp
    | cons a l => simp
  · intro events htag
    refine ⟨_, dvConvertToAedat4_imu ts64 p md events htag hvalid, ?_⟩
    cases h : imuLoop ts64 p.eventTSOverflow events [] with
    | nil => simp
    | cons a l => simp
  · intro events htag
    refine ⟨_, dvConvertToAedat4_special ts64 p md events htag hvalid, ?_, ?_⟩
    · cases h : specialLoop ts64 p.eventTSOverflow events [] with
      | nil => simp
      | cons a l => simp
    · intro hun
      rw [specialLoop_all_unmapped ts64 p.eventTSOverflow events hun]
      simp
  · intro events htag hwf
    obtain ⟨fs, out, h1, h2, h3, h4, _⟩ :=
      frameLoop_spec ts64 p.eventTSOverflow events md.frames hwf
    refine ⟨{ md with frames := out }, fs, ?_, h2, h3, h4⟩
    rw [dvConvertToAedat4_frame ts64 p md events htag hvalid, h1]

/-- Witness of C11: the sample special packet, whose batch of one record is committed
once. -/
theorem commit_iff_nonempty_witness :
    ∃ r, dvConvertToAedat4 sampleTimestampRule (some sampleSpecialPacket)
        (some ModuleData.initial) = some (some r) ∧
      (r.triggers.committed =
        if specialLoop sampleTimestampRule sampleSpecialPacket.eventTSOverflow
            [ { valid := true, timestamp := 7, type := SpecialEventType.TIMESTAMP_RESET },
              { valid := false, timestamp := 9, type := SpecialEventType.APS_FRAME_START } ] []
            = [] then ModuleData.initial.triggers.committed
        else ModuleData.initial.triggers.committed ++
          [specialLoop sampleTimestampRule sampleSpecialPacket.eventTSOverflow
            [ { valid := true, timestamp := 7, type := SpecialEventType.TIMESTAMP_RESET },
              { valid := false, timestamp := 9, type := SpecialEventType.APS_FRAME_START } ]
            []]) ∧
      ((∀ evt ∈ ([ { valid := true, timestamp := 7, type := SpecialEventType.TIMESTAMP_RESET },
            { valid := false, timestamp := 9, type := SpecialEventType.APS_FRAME_START } ] :
              List SpecialEvent), evt.valid = true → triggerType evt.type = none) →
        r.triggers.committed = ModuleData.initial.triggers.committed) :=
  (commit_iff_nonempty sampleTimestampRule sampleSpecialPacket ModuleData.initial
    (by decide)).2.2.1 _ rfl

/-- C12: for a packet that passes the guards, `dvConvertToAedat4` changes only the output
named for the tag of the packet ("events" for Polarity, "frames" for Frame, "imu" for
IMU6, "triggers" for Special), on which it allocates, and leaves the three others
as they were; for any other tag it changes nothing. -/
theorem dispatch_only_matching_sink (ts64 : TimestampRule) (p : caerEventPacket)
    (md : ModuleData) (hvalid : 0 < p.eventValid) :
    (∀ events, p.events = EventArray.POLARITY_EVENT events →
      ∃ out, dvConvertToAedat4 ts64 (some p) (some md) = some (some { md with events := out }) ∧
        out.allocated = md.events.allocated + 1) ∧
    (∀ events, p.events = EventArray.FRAME_EVENT events →
      (∀ r, dvConvertToAedat4 ts64 (some p) (some md) = some r →
        ∃ out, r = some { md with frames := out }) ∧
      ((∀ evt ∈ events, evt.valid = true → evt.WellFormed) →
        ∃ out, dvConvertToAedat4 ts64 (some p) (some md) = some (some { md with frames := out }) ∧
          out.allocated = md.frames.allocated + events.countP (fun evt => evt.valid))) ∧
    (∀ events, p.events = EventArray.IMU6_EVENT events →
      ∃ out, dvConvertToAedat4 ts64 (some p) (some md) = some (some { md with imu := out }) ∧
        out.allocated = md.imu.allocated + 1) ∧
    (∀ events, p.events = EventArray.SPECIAL_EVENT events →
      ∃ out, dvConvertToAedat4 ts64 (some p) (some md) =
          some (some { md with triggers := out }) ∧
        out.allocated = md.triggers.allocated + 1) ∧
    (∀ eventType, p.events = EventArray.unknown eventType →
      dvConvertToAedat4 ts64 (some p) (some md) = some (some md)) := by
  refine ⟨?_, ?_, ?_, ?_, ?_⟩
  · intro events htag
    refine ⟨_, dvConvertToAedat4_polarity ts64 p md events htag hvalid, ?_⟩
    split <;> rfl
  · intro events htag
    constructor
    · intro r hr
      rw [dvConvertToAedat4_frame ts64 p md events htag hvalid] at hr
      split at hr
      · cases hr
      · rename_i frames _
        cases hr
        exact ⟨frames, rfl⟩
    · intro hwf
      obtain ⟨fs, out, h1, h2, h3, _, _⟩ :=
        frameLoop_spec ts64 p.eventTSOverflow events md.frames hwf
      refine ⟨out, ?_, ?_⟩
      · rw [dvConvertToAedat4_frame ts64 p md events htag hvalid, h1]
      · rw [h3, ← h2.length_eq, List.countP_eq_length_filter]
  · intro events htag
    refine ⟨_, dvConvertToAedat4_imu ts64 p md events htag hvalid, ?_⟩
    split <;> rfl
  · intro events htag
    refine ⟨_, dvConvertToAedat4_special ts64 p md events htag hvalid, ?_⟩
    split <;> rfl
  · intro eventType htag
    exact dvConvertToAedat4_unknown ts64 p md eventType htag hvalid

/-- Witness of C12: the sample polarity packet changes "events" only. -/
theorem dispatch_only_matching_sink_witness :
    ∃ out, dvConvertToAedat4 sampleTimestampRule (some samplePolarityPacket)
        (some ModuleData.initial) = some (some { ModuleData.initial with events := out }) ∧
      out.allocated = ModuleData.initial.events.allocated + 1 :=
  (dispatch_only_matching_sink sampleTimestampRule samplePolarityPacket ModuleData.initial
    (by decide)).1 _ rfl

/-- C13: for a packet tagged IMU6 whose declared valid-event count is positive,
`dvConvertToAedat4` returns and the batch it writes on "imu" is `written`: in input
order, one record per event flagged valid, with the reconstructed 64-bit timestamp
and the temperature, accelerometer and gyroscope fields of the legacy event as they
are; events not flagged valid contribute nothing. The batch is committed when it is
not empty. -/
theorem imu_conversion_exact (ts64 : TimestampRule) (p : caerEventPacket)
    (md : ModuleData) (events : List IMU6Event)
    (htag : p.events = EventArray.IMU6_EVENT events) (hvalid : 0 < p.eventValid) :
    ∃ written : List IMU,
      written = (events.filter (fun evt => evt.valid)).map (fun evt =>
        ({ timestamp := ts64 p.eventTSOverflow evt.timestamp, temperature := evt.temp,
           accelerometerX := evt.accelX, accelerometerY := evt.accelY,
           accelerometerZ := evt.accelZ, gyroscopeX := evt.gyroX,
           gyroscopeY := evt.gyroY, gyroscopeZ := evt.gyroZ } : IMU)) ∧
      written.length = events.countP (fun evt => evt.valid) ∧
      dvConvertToAedat4 ts64 (some p) (some md) =
        some (some { md with imu :=
          if written.length > 0 then
            { allocated := md.imu.allocated + 1, current := none,
              committed := md.imu.committed ++ [written] }
          else { allocated := md.imu.allocated + 1, current := some written,
                 committed := md.imu.committed } }) := by
  refine ⟨_, rfl, ?_, ?_⟩
  · rw [List.length_map, List.countP_eq_length_filter]
  · rw [dvConvertToAedat4_imu ts64 p md events htag hvalid, imuLoop_eq, List.nil_append]

/-- Witness of C13: the sample IMU6 packet holds two valid events around an invalid one;
the two records are committed on "imu" in input order. -/
theorem imu_conversion_exact_witness :
    dvConvertToAedat4 sampleTimestampRule (some sampleIMU6Packet) (some ModuleData.initial) =
      some (some { ModuleData.initial with imu :=
        { allocated := 1, current := none,
          committed := [[⟨2147483658, 1, 2, 3, 4, 5, 6, 7⟩,
            ⟨2147483660, 15, 16, 17, 18, 19, 20, 21⟩]] } }) := by
  obtain ⟨written, hw, _, h⟩ := imu_conversion_exact sampleTimestampRule sampleIMU6Packet
    ModuleData.initial _ rfl (by decide)
  subst hw
  exact h

/-- C14: the frame written for a legacy frame event has format BGR when the channel
number is 3, BGRA when it is 4 and GRAY for every other channel number; the frame is
written for every event laid out for its pixel loop. -/
theorem frame_format_selection (ts64 : TimestampRule) (tsOverflow : Int) (evt : FrameEvent) :
    (∀ f, convertFrame ts64 tsOverflow evt Frame.fresh = some f →
      (evt.channelNumber = 3 → f.format = FrameFormat.BGR) ∧
      (evt.channelNumber = 4 → f.format = FrameFormat.BGRA) ∧
      (evt.channelNumber ≠ 3 → evt.channelNumber ≠ 4 → f.format = FrameFormat.GRAY)) ∧
    (evt.WellFormed → ∃ f, convertFrame ts64 tsOverflow evt Frame.fresh = some f ∧
      f.format = if evt.channelNumber = 3 then FrameFormat.BGR
        else if evt.channelNumber = 4 then FrameFormat.BGRA else FrameFormat.GRAY) := by
  constructor
  · intro f hf
    have hfmt := (convertFrame_some ts64 tsOverflow evt f hf).2.2.2.2.2.2.2.2.2.2
    rw [hfmt]
    refine ⟨?_, ?_, ?_⟩
    · intro h; simp [frameFormat, h]
    · intro h; simp [frameFormat, h]
    · intro h3 h4; simp [frameFormat, h3, h4]
  · intro hwf
    obtain ⟨f, hf, _⟩ := convertFrame_total ts64 tsOverflow evt hwf
    exact ⟨f, hf, (convertFrame_some ts64 tsOverflow evt f hf).2.2.2.2.2.2.2.2.2.2⟩

/-- Witness of C14: the sample frame events, 3 channels and 1 channel. -/
theorem frame_format_selection_witness :
    (∃ f, convertFrame sampleTimestampRule 0 sampleFrameEventRGB Frame.fresh = some f ∧
      f.format = FrameFormat.BGR) ∧
    (∃ f, convertFrame sampleTimestampRule 0 sampleFrameEventGray Frame.fresh = some f ∧
      f.format = FrameFormat.GRAY) := by
  obtain ⟨f1, h1, g1⟩ := (frame_format_selection sampleTimestampRule 0 sampleFrameEventRGB).2
    (by unfold FrameEvent.WellFormed; decide)
  obtain ⟨f2, h2, g2⟩ := (frame_format_selection sampleTimestampRule 0 sampleFrameEventGray).2
    (by unfold FrameEvent.WellFormed; decide)
  exact ⟨⟨f1, h1, g1⟩, ⟨f2, h2, g2⟩⟩

/-- C15: for a legacy frame event classified GRAY whose array holds exactly
`getPixelsMaxIndex()` samples of 16 bits, the frame written has a pixel buffer of the
length of the array with `out[k] = s[k] / 256` at every index; and for every 16-bit
sample `s >> 8` is `s / 256`, lies below 256 and goes unchanged through the cast to
8 bits. -/
theorem gray_pixels_high_byte (ts64 : TimestampRule) (tsOverflow : Int) (evt : FrameEvent)
    (hgray : frameFormat evt.channelNumber = FrameFormat.GRAY)
    (hlen : evt.pixelArray.length = evt.pixelsMaxIndex)
    (hsamples : ∀ v ∈ evt.pixelArray, 0 ≤ v ∧ v < 65536) :
    (∃ f, convertFrame ts64 tsOverflow evt Frame.fresh = some f ∧
      f.format = FrameFormat.GRAY ∧
      f.pixels.length = evt.pixelArray.length ∧
      ∀ k : Nat, f.pixels[k]? = (evt.pixelArray[k]?).map (fun s => s / 256)) ∧
    (∀ s : Int, 0 ≤ s → s < 65536 →
      shr8 s = s / 256 ∧ 0 ≤ shr8 s ∧ shr8 s < 256 ∧ toUInt8 (shr8 s) = shr8 s) := by
  constructor
  · obtain ⟨res, hres, hrlen, _, hnew⟩ := pixelLoop_GRAY evt.pixelArray evt.pixelsMaxIndex
      (by omega) evt.pixelsMaxIndex 0 (resize Frame.fresh.pixels evt.pixelsMaxIndex)
      (by omega) (by omega) (resize_length _ _)
    have hconv : convertFrame ts64 tsOverflow evt Frame.fresh =
        some { timestamp := ts64 tsOverflow evt.timestamp
               timestampStartOfFrame := ts64 tsOverflow evt.tsStartOfFrame
               timestampStartOfExposure := ts64 tsOverflow evt.tsStartOfExposure
               timestampEndOfExposure := ts64 tsOverflow evt.tsEndOfExposure
               timestampEndOfFrame := ts64 tsOverflow evt.tsEndOfFrame
               sizeX := toInt16 evt.lengthX
               sizeY := toInt16 evt.lengthY
               positionX := toInt16 evt.positionX
               positionY := toInt16 evt.positionY
               format := FrameFormat.GRAY
               pixels := res } := by
      simp only [convertFrame, hgray, hres]
    refine ⟨_, hconv, rfl, by rw [hlen]; exact hrlen, ?_⟩
    intro k
    show res[k]? = _
    by_cases hk : k < evt.pixelsMaxIndex
    · rw [hnew k (by omega) hk, map_high_byte _ hsamples]
      cases evt.pixelArray[k]? with
      | none => rfl
      | some v => simp only [Option.map_some', shr8_eq_div]
    · rw [List.getElem?_eq_none (by omega), List.getElem?_eq_none (by omega)]
      rfl
  · intro s h0 h1
    have h := toUInt8_shr8 s h0 h1
    exact ⟨shr8_eq_div s, h.2.1, h.2.2, h.1⟩

/-- Witness of C15: the sample grayscale frame event, three samples. -/
theorem gray_pixels_high_byte_witness :
    (∃ f, convertFrame sampleTimestampRule 0 sampleFrameEventGray Frame.fresh = some f ∧
      f.format = FrameFormat.GRAY ∧
      f.pixels.length = sampleFrameEventGray.pixelArray.length ∧
      ∀ k : Nat, f.pixels[k]? = (sampleFrameEventGray.pixelArray[k]?).map (fun s => s / 256)) ∧
    (∀ s : Int, 0 ≤ s → s < 65536 →
      shr8 s = s / 256 ∧ 0 ≤ shr8 s ∧ shr8 s < 256 ∧ toUInt8 (shr8 s) = shr8 s) :=
  gray_pixels_high_byte sampleTimestampRule 0 sampleFrameEventGray (by decide) (by decide)
    (by decide)

/-- C16, counterexample: the sample packet tagged Frame whose only event is flagged valid
and has no pixel passes the guards; one frame is allocated, none is committed, while
one event is flagged valid. -/
theorem frame_count_counterexample :
    (0 : Int) < sampleEmptyFramePacket.eventValid ∧
      sampleEmptyFramePacket.events = EventArray.FRAME_EVENT [sampleFrameEventEmpty] ∧
      [sampleFrameEventEmpty].countP (fun evt => evt.valid) = 1 ∧
      ∃ r, dvConvertToAedat4 sampleTimestampRule (some sampleEmptyFramePacket)
          (some ModuleData.initial) = some (some r) ∧
        r.frames.allocated = 1 ∧ r.frames.committed.length = 0 := by
  refine ⟨by decide, rfl, by decide,
    { ModuleData.initial with frames :=
        { allocated := 1
          current := some { Frame.fresh with timestamp := 90, timestampStartOfFrame := 90,
                                             timestampStartOfExposure := 90,
                                             timestampEndOfExposure := 90,
                                             timestampEndOfFrame := 90 }
          committed := [] } }, by decide, rfl, rfl⟩

/-- C16, amended: for a packet tagged Frame that passes the guards, with valid events
laid out for their pixel loops, `dvConvertToAedat4` returns, allocates one frame per
event flagged valid, and the frames it commits on "frames" are, in input order, the
frames of the events flagged valid whose maximum pixel index is positive, one each;
when every valid event has pixels their number is the number of events flagged
valid. -/
theorem frame_count_nonempty (ts64 : TimestampRule) (p : caerEventPacket) (md : ModuleData)
    (events : List FrameEvent)
    (htag : p.events = EventArray.FRAME_EVENT events) (hvalid : 0 < p.eventValid)
    (hwf : ∀ evt ∈ events, evt.valid = true → evt.WellFormed) :
    ∃ r fs, dvConvertToAedat4 ts64 (some p) (some md) = some (some r) ∧
      r.frames.allocated = md.frames.allocated + events.countP (fun evt => evt.valid) ∧
      r.frames.committed = md.frames.committed ++ fs ∧
      List.Forall₂ (fun evt f => convertFrame ts64 p.eventTSOverflow evt Frame.fresh = some f)
        (events.filter (fun evt => evt.valid && decide (0 < evt.pixelsMaxIndex))) fs ∧
      fs.length = events.countP (fun evt => evt.valid && decide (0 < evt.pixelsMaxIndex)) ∧
      ((∀ evt ∈ events, evt.valid = true → 0 < evt.pixelsMaxIndex) →
        fs.length = events.countP (fun evt => evt.valid)) := by
  obtain ⟨fs, out, h1, h2, h3, h4, h5⟩ :=
    frameLoop_spec ts64 p.eventTSOverflow events md.frames hwf
  have hlen : (fs.filter (fun f => decide (f.pixels.length > 0))).length =
      events.countP (fun evt => evt.valid && decide (0 < evt.pixelsMaxIndex)) := by
    rw [← h5.length_eq, List.countP_eq_length_filter]
  refine ⟨{ md with frames := out }, fs.filter (fun f => decide (f.pixels.length > 0)),
    ?_, ?_, h4, h5, hlen, ?_⟩
  · rw [dvConvertToAedat4_frame ts64 p md events htag hvalid, h1]
  · show out.allocated = _
    rw [h3, ← h2.length_eq, List.countP_eq_length_filter]
  · intro hall
    rw [hlen]
    apply List.countP_congr
    intro evt hevt
    cases hv : evt.valid with
    | false => simp
    | true => simp [hall evt hevt hv]

/-- Witness of C16 (amended): the sample frame packet, two valid events with pixels
around an invalid one. -/
theorem frame_count_nonempty_witness :
    ∃ r fs, dvConvertToAedat4 sampleTimestampRule (some sampleFramePacket)
        (some ModuleData.initial) = some (some r) ∧
      r.frames.allocated = ModuleData.initial.frames.allocated + 2 ∧
      r.frames.committed = ModuleData.initial.frames.committed ++ fs ∧
      fs.length = 2 := by
  obtain ⟨r, fs, h1, h2, h3, _, h5, _⟩ := frame_count_nonempty sampleTimestampRule
    sampleFramePacket ModuleData.initial
    [sampleFrameEventRGB, { sampleFrameEventGray with valid := false }, sampleFrameEventGray]
    rfl (by decide) (by unfold FrameEvent.WellFormed; decide)
  exact ⟨r, fs, h1, h2, h3, h5⟩

/-- The conversion to `int16_t` keeps a value of the signed 16-bit range and reduces any
other one modulo `2^16` into that range. -/
theorem toInt16_spec (v : Int) :
    (-32768 ≤ v → v < 32768 → toInt16 v = v) ∧
      -32768 ≤ toInt16 v ∧ toInt16 v < 32768 ∧ (toInt16 v - v) % 65536 = 0 := by
  unfold toInt16
  omega

/-- C17: the frame written for a legacy frame event laid out for its pixel loop carries
the five reconstructed 64-bit timestamps, each from its own legacy field, and the
legacy lengthX, lengthY, positionX, positionY narrowed to `int16_t`: equal to the
legacy value when it lies in the signed 16-bit range, and in every case the legacy
value reduced modulo `2^16` into that range. -/
theorem frame_metadata_copy (ts64 : TimestampRule) (tsOverflow : Int) (evt : FrameEvent)
    (hwf : evt.WellFormed) :
    ∃ f, convertFrame ts64 tsOverflow evt Frame.fresh = some f ∧
      f.timestamp = ts64 tsOverflow evt.timestamp ∧
      f.timestampStartOfFrame = ts64 tsOverflow evt.tsStartOfFrame ∧
      f.timestampStartOfExposure = ts64 tsOverflow evt.tsStartOfExposure ∧
      f.timestampEndOfExposure = ts64 tsOverflow evt.tsEndOfExposure ∧
      f.timestampEndOfFrame = ts64 tsOverflow evt.tsEndOfFrame ∧
      ((-32768 ≤ evt.lengthX → evt.lengthX < 32768 → f.sizeX = evt.lengthX) ∧
        -32768 ≤ f.sizeX ∧ f.sizeX < 32768 ∧ (f.sizeX - evt.lengthX) % 65536 = 0) ∧
      ((-32768 ≤ evt.lengthY → evt.lengthY < 32768 → f.sizeY = evt.lengthY) ∧
        -32768 ≤ f.sizeY ∧ f.sizeY < 32768 ∧ (f.sizeY - evt.lengthY) % 65536 = 0) ∧
      ((-32768 ≤ evt.positionX → evt.positionX < 32768 → f.positionX = evt.positionX) ∧
        -32768 ≤ f.positionX ∧ f.positionX < 32768 ∧
        (f.positionX - evt.positionX) % 65536 = 0) ∧
      ((-32768 ≤ evt.positionY → evt.positionY < 32768 → f.positionY = evt.positionY) ∧
        -32768 ≤ f.positionY ∧ f.positionY < 32768 ∧
        (f.positionY - evt.positionY) % 65536 = 0) := by
  obtain ⟨f, hf, _⟩ := convertFrame_total ts64 tsOverflow evt hwf
  obtain ⟨_, t1, t2, t3, t4, t5, sx, sy, px, py, _⟩ := convertFrame_some ts64 tsOverflow evt f hf
  refine ⟨f, hf, t1, t2, t3, t4, t5, ?_, ?_, ?_, ?_⟩
  · rw [sx]; exact toInt16_spec _
  · rw [sy]; exact toInt16_spec _
  · rw [px]; exact toInt16_spec _
  · rw [py]; exact toInt16_spec _

/-- Witness of C17: the sample grayscale frame event, with overflow counter 1. -/
theorem frame_metadata_copy_witness :
    ∃ f, convertFrame sampleTimestampRule 1 sampleFrameEventGray Frame.fresh = some f ∧
      f.timestamp = 2147483713 ∧ f.timestampStartOfFrame = 2147483698 ∧
      f.timestampStartOfExposure = 2147483708 ∧ f.timestampEndOfExposure = 2147483718 ∧
      f.timestampEndOfFrame = 2147483728 ∧
      f.sizeX = 3 ∧ f.sizeY = 1 ∧ f.positionX = 5 ∧ f.positionY = 6 := by
  obtain ⟨f, hf, t1, t2, t3, t4, t5, sx, sy, px, py⟩ :=
    frame_metadata_copy sampleTimestampRule 1 sampleFrameEventGray
      (by unfold FrameEvent.WellFormed; decide)
  exact ⟨f, hf, t1, t2, t3, t4, t5, sx.1 (by decide) (by decide), sy.1 (by decide) (by decide),
    px.1 (by decide) (by decide), py.1 (by decide) (by decide)⟩

end dv

namespace dv

/-- The subtype chain has no trigger type for a subtype outside the ten it names. -/
theorem triggerType_none_of_not_mem (type : SpecialEventType)
    (h : type ∉ [SpecialEventType.TIMESTAMP_RESET, SpecialEventType.EXTERNAL_INPUT_RISING_EDGE,
      SpecialEventType.EXTERNAL_INPUT_FALLING_EDGE, SpecialEventType.EXTERNAL_INPUT_PULSE,
      SpecialEventType.EXTERNAL_GENERATOR_RISING_EDGE,
      SpecialEventType.EXTERNAL_GENERATOR_FALLING_EDGE, SpecialEventType.APS_FRAME_START,
      SpecialEventType.APS_FRAME_END, SpecialEventType.APS_EXPOSURE_START,
      SpecialEventType.APS_EXPOSURE_END]) :
    triggerType type = none := by
  cases type <;> simp [triggerType] at h ⊢

/-- C18, counterexample: EXTERNAL_INPUT_PULSE is none of the nine subtypes behind the kinds
timestamp-reset, external rising and falling edge, external-generator rising and
falling edge, frame start and end, exposure start and end, and the sample packet
holding one valid event of that subtype gets one trigger record, of type
EXTERNAL_SIGNAL_PULSE, committed on "triggers". -/
theorem unlisted_subtype_counterexample :
    SpecialEventType.EXTERNAL_INPUT_PULSE ∉
        [SpecialEventType.TIMESTAMP_RESET, SpecialEventType.EXTERNAL_INPUT_RISING_EDGE,
          SpecialEventType.EXTERNAL_INPUT_FALLING_EDGE,
          SpecialEventType.EXTERNAL_GENERATOR_RISING_EDGE,
          SpecialEventType.EXTERNAL_GENERATOR_FALLING_EDGE, SpecialEventType.APS_FRAME_START,
          SpecialEventType.APS_FRAME_END, SpecialEventType.APS_EXPOSURE_START,
          SpecialEventType.APS_EXPOSURE_END] ∧
      dvConvertToAedat4 sampleTimestampRule (some samplePulsePacket)
          (some ModuleData.initial) =
        some (some { ModuleData.initial with triggers :=
          { allocated := 1, current := none,
            committed := [[{ timestamp := 5,
                             type := TriggerType.EXTERNAL_SIGNAL_PULSE }]] } }) := by
  decide

/-- C18, amended: a valid legacy special event whose subtype is none of the ten the
subtype chain names (the nine above and EXTERNAL_INPUT_PULSE) leaves no trigger
record and no error: the call returns, and returns what it returns on the packet
without that event. -/
theorem unmapped_subtype_dropped (ts64 : TimestampRule) (p : caerEventPacket)
    (md : ModuleData) (pre post : List SpecialEvent) (evt : SpecialEvent)
    (htag : p.events = EventArray.SPECIAL_EVENT (pre ++ evt :: post))
    (hvalid : 0 < p.eventValid) (hev : evt.valid = true)
    (hsub : evt.type ∉ [SpecialEventType.TIMESTAMP_RESET,
      SpecialEventType.EXTERNAL_INPUT_RISING_EDGE, SpecialEventType.EXTERNAL_INPUT_FALLING_EDGE,
      SpecialEventType.EXTERNAL_INPUT_PULSE, SpecialEventType.EXTERNAL_GENERATOR_RISING_EDGE,
      SpecialEventType.EXTERNAL_GENERATOR_FALLING_EDGE, SpecialEventType.APS_FRAME_START,
      SpecialEventType.APS_FRAME_END, SpecialEventType.APS_EXPOSURE_START,
      SpecialEventType.APS_EXPOSURE_END]) :
    (∃ r, dvConvertToAedat4 ts64 (some p) (some md) = some (some r)) ∧
      specialLoop ts64 p.eventTSOverflow (pre ++ evt :: post) [] =
        specialLoop ts64 p.eventTSOverflow (pre ++ post) [] ∧
      dvConvertToAedat4 ts64 (some p) (some md) =
        dvConvertToAedat4 ts64
          (some { p with events := EventArray.SPECIAL_EVENT (pre ++ post) }) (some md) := by
  have hnone := triggerType_none_of_not_mem evt.type hsub
  have hloop : specialLoop ts64 p.eventTSOverflow (pre ++ evt :: post) [] =
      specialLoop ts64 p.eventTSOverflow (pre ++ post) [] := by
    rw [specialLoop_eq, specialLoop_eq]
    simp only [List.nil_append, List.filter_append, List.filter_cons, hev, if_true,
      List.filterMap_append, List.filterMap_cons, hnone, Option.map_none']
  refine ⟨⟨_, dvConvertToAedat4_special ts64 p md _ htag hvalid⟩, hloop, ?_⟩
  rw [dvConvertToAedat4_special ts64 p md _ htag hvalid,
    dvConvertToAedat4_special ts64 { p with events := EventArray.SPECIAL_EVENT (pre ++ post) }
      md (pre ++ post) rfl hvalid, hloop]

/-- Witness of C18 (amended): the sample packet with a valid event of an unmapped subtype
between a frame start and a frame end. -/
theorem unmapped_subtype_dropped_witness :
    dvConvertToAedat4 sampleTimestampRule (some sampleUnmappedPacket)
        (some ModuleData.initial) =
      dvConvertToAedat4 sampleTimestampRule
        (some { sampleUnmappedPacket with events := (EventArray.SPECIAL_EVENT
          ([{ valid := true, timestamp := 1, type := SpecialEventType.APS_FRAME_START }] ++
            [{ valid := true, timestamp := 3, type := SpecialEventType.APS_FRAME_END }])) })
        (some ModuleData.initial) :=
  (unmapped_subtype_dropped sampleTimestampRule sampleUnmappedPacket ModuleData.initial
    [{ valid := true, timestamp := 1, type := SpecialEventType.APS_FRAME_START }]
    [{ valid := true, timestamp := 3, type := SpecialEventType.APS_FRAME_END }]
    { valid := true, timestamp := 2, type := SpecialEventType.other 0 }
    rfl (by decide) rfl (by decide)).2.2

end dv

namespace dv
namespace Sionoise

/-- C19: on a freshly constructed filter for an 8 x 8 sensor with `sz = 1` and
`threshold = 100`, `filterEvent` rejects `A = (4, 4, t = 100)`, passes
`B = (4, 5, t = 150)` once `A` is cached and rejects `C = (0, 0, t = 200)`; `run` on
`[A, B, C]` writes exactly `[B]`, and afterwards the cells of `(4, 4)`, `(4, 5)` and
`(0, 0)` hold 100, 150 and 200. -/
theorem concrete_scenario :
    filterEvent (construct 8 8 1 100) ⟨100, 4, 4, true⟩ = some false ∧
      filterEvent (storeCell (construct 8 8 1 100) ⟨100, 4, 4, true⟩) ⟨150, 4, 5, true⟩
        = some true ∧
      filterEvent
        (storeCell (storeCell (construct 8 8 1 100) ⟨100, 4, 4, true⟩) ⟨150, 4, 5, true⟩)
        ⟨200, 0, 0, true⟩ = some false ∧
      ∃ s1, run (construct 8 8 1 100)
          [⟨100, 4, 4, true⟩, ⟨150, 4, 5, true⟩, ⟨200, 0, 0, true⟩]
          = some (s1, [⟨150, 4, 5, true⟩]) ∧
        readCell s1.matrixMem (4 * 8 + 4) = some 100 ∧
        readCell s1.matrixMem (4 * 8 + 5) = some 150 ∧
        readCell s1.matrixMem (0 * 8 + 0) = some 200 ∧
        s1.matrixMem.length = 64 := by
  refine ⟨by decide, by decide, by decide,
    storeCell (storeCell (storeCell (construct 8 8 1 100) ⟨100, 4, 4, true⟩)
      ⟨150, 4, 5, true⟩) ⟨200, 0, 0, true⟩, by decide, by decide, by decide, by decide,
    by decide⟩

/-- C20: on a cache of `sizeX * sizeY` cells and for an event of the sensor, when
`sz = 0` or `threshold = 0` `filterEvent` returns `false` (it returns, so no cell
outside the cache is read), and `run` on the event writes nothing and leaves
`t mod 2^32` in the cell of its pixel. -/
theorem degenerate_configuration_suppresses (s : Sionoise) (e : Event)
    (hlen : (s.matrixMem.length : Int) = s.sizeX * s.sizeY) (hgeo : InGeometry s e)
    (hdeg : s.sz = 0 ∨ s.threshold = 0) :
    filterEvent s e = some false ∧
      ∃ s1, run s [e] = some (s1, []) ∧
        readCell s1.matrixMem (e.x * s.sizeY + e.y) = some (e.timestamp % 4294967296) := by
  obtain ⟨b, hb, hiff⟩ := filterEvent_spec s e hlen
  have hfalse : b = false := by
    cases b with
    | false => rfl
    | true =>
      exfalso
      obtain ⟨_, i, j, hi1, hi2, hj1, hj2, hne, c, _, hlt⟩ := hiff.mp rfl
      rcases hdeg with h0 | h0
      · rw [h0] at hi1 hi2 hj1 hj2
        exact hne ⟨by omega, by omega⟩
      · rw [h0] at hlt
        omega
  subst hfalse
  have hu := updateMatrix_spec s e hlen hgeo
  refine ⟨hb, storeCell s e, ?_, readCell_storeCell_same s e hlen hgeo⟩
  rw [run_eq_runLoop]
  simp only [runLoop_cons, hb, hu, runLoop]
  rfl

/-- Witness of C20: the event `(4, 4, t = 0)` on an 8 x 8 sensor with `sz = 0`. -/
theorem degenerate_configuration_suppresses_witness :
    filterEvent (construct 8 8 0 100) ⟨0, 4, 4, true⟩ = some false ∧
      ∃ s1, run (construct 8 8 0 100) [⟨0, 4, 4, true⟩] = some (s1, []) ∧
        readCell s1.matrixMem ((4 : Int) * (construct 8 8 0 100).sizeY + 4)
          = some ((0 : Int) % 4294967296) :=
  degenerate_configuration_suppresses (construct 8 8 0 100) ⟨0, 4, 4, true⟩ (by decide)
    (by unfold InGeometry; decide) (Or.inl rfl)

end Sionoise
end dv

/-! # Further properties of the noise filter -/

namespace dv
namespace Sionoise

/-- The inner loop depends on the state only through the threshold, `sizeY` and the cells
it reads, and on the event only through its pixel. -/
theorem scanRow_congr (s s1 : Sionoise) (e e1 : Event) (t i : Int) (js : List Int)
    (hthr : s.threshold = s1.threshold) (hY : s.sizeY = s1.sizeY)
    (hx : e.x = e1.x) (hy : e.y = e1.y)
    (hcells : ∀ j ∈ js, ¬(i = 0 ∧ j = 0) →
      readCell s.matrixMem ((e.x + i) * s.sizeY + e.y + j) =
        readCell s1.matrixMem ((e.x + i) * s.sizeY + e.y + j)) :
    scanRow s e t i js = scanRow s1 e1 t i js := by
  induction js with
  | nil => rfl
  | cons j js ih =>
    have ih1 := ih (fun k hk => hcells k (List.mem_cons_of_mem _ hk))
    by_cases h0 : i = 0 ∧ j = 0
    · simp only [scanRow, h0, and_self, if_true]
      simpa [h0] using ih1
    · have hc := hcells j (List.mem_cons_self _ _) h0
      simp only [scanRow, h0, if_false]
      rw [← hx, ← hy, ← hY, ← hthr, ← hc, ih1]

/-- The outer loop depends on the state only through the configuration, `sizeY` and the
cells it reads, and on the event only through its pixel. -/
theorem scanRows_congr (s s1 : Sionoise) (e e1 : Event) (t : Int) (is : List Int)
    (hthr : s.threshold = s1.threshold) (hY : s.sizeY = s1.sizeY) (hsz : s.sz = s1.sz)
    (hx : e.x = e1.x) (hy : e.y = e1.y)
    (hcells : ∀ i ∈ is, ∀ j ∈ offsets s.sz, ¬(i = 0 ∧ j = 0) →
      readCell s.matrixMem ((e.x + i) * s.sizeY + e.y + j) =
        readCell s1.matrixMem ((e.x + i) * s.sizeY + e.y + j)) :
    scanRows s e t is = scanRows s1 e1 t is := by
  induction is with
  | nil => rfl
  | cons i is ih =>
    have ih1 := ih (fun k hk => hcells k (List.mem_cons_of_mem _ hk))
    have hrow := scanRow_congr s s1 e e1 t i (offsets s.sz) hthr hY hx hy
      (hcells i (List.mem_cons_self _ _))
    simp only [scanRows]
    rw [← hsz, ← hrow, ih1]

/-- A successful `updateMatrix` wrote inside the cache. -/
theorem updateMatrix_some_range (s s1 : Sionoise) (e : Event)
    (h : updateMatrix s e = some s1) :
    0 ≤ e.x * s.sizeY + e.y ∧ (e.x * s.sizeY + e.y).toNat < s.matrixMem.length := by
  unfold updateMatrix writeCell at h
  simp only at h
  split at h
  · cases h
  · rename_i m hm
    split at hm
    · rename_i hr
      exact hr
    · cases hm

/-- A successful `updateMatrix` leaves every cell other than the one it writes as it
was. -/
theorem updateMatrix_other_cells (s s1 : Sionoise) (e : Event)
    (h : updateMatrix s e = some s1) (a : Int) (ha : a ≠ e.x * s.sizeY + e.y) :
    readCell s1.matrixMem a = readCell s.matrixMem a := by
  obtain ⟨h0, _⟩ := updateMatrix_some_range s s1 e h
  have hs := updateMatrix_some s s1 e h
  subst hs
  by_cases hpos : 0 ≤ a
  · have hne : (e.x * s.sizeY + e.y).toNat ≠ a.toNat := by omega
    simp only [readCell, storeCell, hpos, if_true]
    rw [List.getElem?_set_ne hne]
  · simp only [readCell, hpos, if_false]

/-- The state the loop of `run` ends in is the one obtained by storing every event of the
batch in turn: it does not depend on the decisions. -/
theorem runLoop_state (l : List Event) : ∀ (s s1 : Sionoise) (out : List Event),
    runLoop s l = some (s1, out) → s1 = l.foldl storeCell s := by
  induction l with
  | nil =>
    intro s s1 out h
    simp only [runLoop, Option.some.injEq, Prod.mk.injEq] at h
    exact h.1.symm
  | cons e l ih =>
    intro s s1 out h
    obtain ⟨keep, out1, _, _, hr, _⟩ := runLoop_cons_some s s1 e l out h
    exact ih _ s1 out1 hr

/-- The cache obtained by storing a batch depends on the starting state only through its
cache and `sizeY`. -/
theorem foldl_storeCell_congr (l : List Event) : ∀ (s s1 : Sionoise),
    s.matrixMem = s1.matrixMem → s.sizeY = s1.sizeY →
      (l.foldl storeCell s).matrixMem = (l.foldl storeCell s1).matrixMem := by
  induction l with
  | nil => intro s s1 h _; exact h
  | cons e l ih =>
    intro s s1 hm hY
    simp only [List.foldl_cons]
    apply ih
    · simp only [storeCell, hm, hY]
    · simp only [storeCell, hY]

/-- Successive calls of `run` are one run of the loop over the batches put end to end. -/
theorem runBatches_eq (batches : List (List Event)) : ∀ (s : Sionoise),
    runBatches s batches = runLoop s batches.flatten := by
  induction batches with
  | nil => intro s; rfl
  | cons b rest ih =>
    intro s
    simp only [runBatches, List.flatten_cons, runLoop_append, run_eq_runLoop]
    cases runLoop s b with
    | none => rfl
    | some p =>
      obtain ⟨s1, out1⟩ := p
      simp only [ih s1]

/-- After the loop of `run` on events of the sensor, the cell of a pixel holds the low 32
bits of the timestamp of the last event of the batch at that pixel, or what it held
before when there is none. -/
theorem runLoop_cell_last (l : List Event) : ∀ (s s1 : Sionoise) (out : List Event),
    runLoop s l = some (s1, out) → (s.matrixMem.length : Int) = s.sizeX * s.sizeY →
      (∀ h ∈ l, InGeometry s h) →
      ∀ (px py : Int), 0 ≤ py → py < s.sizeY →
        readCell s1.matrixMem (px * s.sizeY + py) =
          match (l.filter (fun e => decide (e.x = px ∧ e.y = py))).getLast? with
          | some e => some (e.timestamp % 4294967296)
          | none => readCell s.matrixMem (px * s.sizeY + py) := by
  induction l with
  | nil =>
    intro s s1 out h _ _ px py _ _
    simp only [runLoop, Option.some.injEq, Prod.mk.injEq] at h
    obtain ⟨rfl, _⟩ := h
    rfl
  | cons e l ih =>
    intro s s1 out h hlen hgeo px py hpy0 hpy
    obtain ⟨keep, out1, _, _, hr, _⟩ := runLoop_cons_some s s1 e l out h
    have hge := hgeo e (List.mem_cons_self _ _)
    have h1 := ih (storeCell s e) s1 out1 hr (by simpa [storeCell] using hlen)
      (fun h hh => hgeo h (List.mem_cons_of_mem _ hh)) px py hpy0 hpy
    simp only [storeCell] at h1
    rw [h1]
    by_cases hat : e.x = px ∧ e.y = py
    · have hsame := readCell_storeCell_same s e hlen hge
      simp only [storeCell] at hsame
      have hf : (e :: l).filter (fun e => decide (e.x = px ∧ e.y = py)) =
          e :: l.filter (fun e => decide (e.x = px ∧ e.y = py)) := by
        simp [List.filter_cons, hat]
      rw [hf, List.getLast?_cons]
      cases hl : (l.filter (fun e => decide (e.x = px ∧ e.y = py))).getLast? with
      | none =>
        simp only [Option.getD_none]
        rw [← hat.1, ← hat.2]
        exact hsame
      | some e1 => simp only [Option.getD_some]
    · have hother := readCell_storeCell_other s e hge px py hpy0 hpy hat
      simp only [storeCell] at hother
      have hf : (e :: l).filter (fun e => decide (e.x = px ∧ e.y = py)) =
          l.filter (fun e => decide (e.x = px ∧ e.y = py)) := by
        simp [List.filter_cons, hat]
      rw [hf, hother]

/-- C21: starting from a freshly allocated cache for a sensor of `sizeX x sizeY` pixels
and running any number of batches of events of the sensor through `run`, every call
returns, the cache still has `sizeX * sizeY` cells, and the cell `x*sizeY + y` of
every pixel holds the low 32 bits of the timestamp of the last event of the sequence
at `(x, y)`, or its initial value 0 when there is none; and processing one event
changes no cell but the one of its pixel. -/
theorem cache_invariant (sizeX sizeY cfgSize cfgThreshold : Int)
    (batches : List (List Event)) (hX : 0 ≤ sizeX) (hY : 0 ≤ sizeY)
    (hgeo : ∀ b ∈ batches, ∀ e ∈ b, 0 ≤ e.x ∧ e.x < sizeX ∧ 0 ≤ e.y ∧ e.y < sizeY) :
    (∃ s1 out, runBatches (construct sizeX sizeY cfgSize cfgThreshold) batches
        = some (s1, out) ∧
      (s1.matrixMem.length : Int) = sizeX * sizeY ∧
      ∀ x y : Int, 0 ≤ x → x < sizeX → 0 ≤ y → y < sizeY →
        readCell s1.matrixMem (x * sizeY + y) =
          some (match (batches.flatten.filter
              (fun e => decide (e.x = x ∧ e.y = y))).getLast? with
            | some e => e.timestamp % 4294967296
            | none => 0)) ∧
    (∀ (s s2 : Sionoise) (e : Event) (o : List Event), run s [e] = some (s2, o) →
      ∀ a : Int, a ≠ e.x * s.sizeY + e.y →
        readCell s2.matrixMem a = readCell s.matrixMem a) := by
  constructor
  · have hlen := construct_length sizeX sizeY cfgSize cfgThreshold hX hY
    have hgeo1 : ∀ e ∈ batches.flatten,
        InGeometry (construct sizeX sizeY cfgSize cfgThreshold) e := by
      intro e he
      obtain ⟨b, hb, heb⟩ := List.mem_flatten.mp he
      exact hgeo b hb e heb
    obtain ⟨s1, out, hrun⟩ := runLoop_total batches.flatten _ hlen hgeo1
    obtain ⟨_, _, _, _, hL⟩ := runLoop_config batches.flatten _ s1 out hrun
    refine ⟨s1, out, by rw [runBatches_eq]; exact hrun, ?_, ?_⟩
    · rw [hL]; exact hlen
    · intro x y hx0 hx hy0 hy
      have hcell := runLoop_cell_last batches.flatten _ s1 out hrun hlen hgeo1 x y hy0 hy
      have hcell1 : readCell s1.matrixMem (x * sizeY + y) =
          match (batches.flatten.filter (fun e => decide (e.x = x ∧ e.y = y))).getLast? with
          | some e => some (e.timestamp % 4294967296)
          | none => readCell (construct sizeX sizeY cfgSize cfgThreshold).matrixMem
              (x * sizeY + y) := hcell
      rw [hcell1]
      cases (batches.flatten.filter (fun e => decide (e.x = x ∧ e.y = y))).getLast? with
      | some e => rfl
      | none =>
        have hb := address_bounds sizeX sizeY x y hx0 hx hy0 hy
        obtain ⟨c, hc⟩ := readCell_in_range
          (construct sizeX sizeY cfgSize cfgThreshold).matrixMem (x * sizeY + y) hb.1
          (by
            have h2 : ((construct sizeX sizeY cfgSize cfgThreshold).matrixMem.length : Int) =
                sizeX * sizeY := hlen
            omega)
        have h0 := construct_readCell sizeX sizeY cfgSize cfgThreshold _ c hc
        subst h0
        exact hc
  · intro s s2 e o hrun a ha
    rw [run_eq_runLoop] at hrun
    obtain ⟨keep, out1, _, hu, hr, _⟩ := runLoop_cons_some s s2 e [] o hrun
    simp only [runLoop, Option.some.injEq, Prod.mk.injEq] at hr
    obtain ⟨rfl, _⟩ := hr
    exact updateMatrix_other_cells s _ e hu a ha

/-- Witness of C21: two batches on an 8 x 8 sensor, with two events at pixel `(4, 4)`. -/
theorem cache_invariant_witness :
    ∃ s1 out, runBatches (construct 8 8 1 100)
        [[⟨100, 4, 4, true⟩, ⟨150, 4, 5, true⟩], [⟨300, 4, 4, false⟩]] = some (s1, out) ∧
      (s1.matrixMem.length : Int) = 8 * 8 ∧
      ∀ x y : Int, 0 ≤ x → x < 8 → 0 ≤ y → y < 8 →
        readCell s1.matrixMem (x * 8 + y) =
          some (match (([[⟨100, 4, 4, true⟩, ⟨150, 4, 5, true⟩], [⟨300, 4, 4, false⟩]] :
              List (List Event)).flatten.filter
                (fun e => decide (e.x = x ∧ e.y = y))).getLast? with
            | some e => e.timestamp % 4294967296
            | none => 0) :=
  (cache_invariant 8 8 1 100 [[⟨100, 4, 4, true⟩, ⟨150, 4, 5, true⟩], [⟨300, 4, 4, false⟩]]
    (by decide) (by decide) (by decide)).1

/-- C22: for every state and batch, the cache `run` ends with is the same under any other
configuration `(size, threshold)`; and under both configurations `run` returns on a
batch of events of the sensor when the cache has `sizeX * sizeY` cells. -/
theorem cache_independent_of_configuration (s : Sionoise) (cfgSize cfgThreshold : Int)
    (batch : List Event) :
    (∀ s1 out s2 out2, run s batch = some (s1, out) →
      run (configUpdate s cfgSize cfgThreshold) batch = some (s2, out2) →
        s2.matrixMem = s1.matrixMem) ∧
    ((s.matrixMem.length : Int) = s.sizeX * s.sizeY → (∀ e ∈ batch, InGeometry s e) →
      ∃ s1 out s2 out2, run s batch = some (s1, out) ∧
        run (configUpdate s cfgSize cfgThreshold) batch = some (s2, out2) ∧
        s2.matrixMem = s1.matrixMem) := by
  have hsame : ∀ s1 out s2 out2, run s batch = some (s1, out) →
      run (configUpdate s cfgSize cfgThreshold) batch = some (s2, out2) →
        s2.matrixMem = s1.matrixMem := by
    intro s1 out s2 out2 h1 h2
    rw [run_eq_runLoop] at h1 h2
    rw [runLoop_state batch _ s1 out h1, runLoop_state batch _ s2 out2 h2]
    exact foldl_storeCell_congr batch _ _ rfl rfl
  refine ⟨hsame, ?_⟩
  intro hlen hgeo
  obtain ⟨s1, out, h1⟩ := runLoop_total batch s hlen hgeo
  obtain ⟨s2, out2, h2⟩ := runLoop_total batch (configUpdate s cfgSize cfgThreshold)
    hlen hgeo
  rw [← run_eq_runLoop] at h1 h2
  exact ⟨s1, out, s2, out2, h1, h2, hsame s1 out s2 out2 h1 h2⟩

/-- Witness of C22: the batch `A, B, C` on a freshly constructed 8 x 8 filter, with
configuration `(1, 100)` and with configuration `(2, 7)`. -/
theorem cache_independent_of_configuration_witness :
    ∃ s1 out s2 out2, run (construct 8 8 1 100)
        [⟨100, 4, 4, true⟩, ⟨150, 4, 5, true⟩, ⟨200, 0, 0, true⟩] = some (s1, out) ∧
      run (configUpdate (construct 8 8 1 100) 2 7)
        [⟨100, 4, 4, true⟩, ⟨150, 4, 5, true⟩, ⟨200, 0, 0, true⟩] = some (s2, out2) ∧
      s2.matrixMem = s1.matrixMem :=
  (cache_independent_of_configuration (construct 8 8 1 100) 2 7
    [⟨100, 4, 4, true⟩, ⟨150, 4, 5, true⟩, ⟨200, 0, 0, true⟩]).2 (by decide)
    (by unfold InGeometry; decide)

/-- The scan of an event that passed the boundary test never reads the cell of the
event's own pixel. -/
theorem neighbour_address_ne (s : Sionoise) (e : Event) (i j : Int)
    (hnb : ¬(e.y < s.sz ∨ e.y ≥ s.sizeY - s.sz ∨ e.x < s.sz ∨ e.x ≥ s.sizeX - s.sz))
    (hi : i ∈ offsets s.sz) (hj : j ∈ offsets s.sz) (hne : ¬(i = 0 ∧ j = 0)) :
    (e.x + i) * s.sizeY + e.y + j ≠ e.x * s.sizeY + e.y := by
  rw [mem_offsets] at hi hj
  have hring : (e.x + i) * s.sizeY = e.x * s.sizeY + i * s.sizeY := by ring
  rw [hring]
  rcases lt_trichotomy i 0 with hneg | hzero | hpos
  · have h1 : i * s.sizeY ≤ (-1) * s.sizeY :=
      mul_le_mul_of_nonneg_right (by omega) (by omega)
    omega
  · subst hzero
    have hj0 : j ≠ 0 := fun h => hne ⟨rfl, h⟩
    omega
  · have h1 : 1 * s.sizeY ≤ i * s.sizeY :=
      mul_le_mul_of_nonneg_right (by omega) (by omega)
    omega

/-- C23: `filterEvent` gives the same result on two states with the same geometry and
configuration whose caches agree on every cell except possibly the one of the
event's own pixel; so the update for an event at the same pixel, made just before,
does not change the decision; and on a cache of `sizeX * sizeY` cells that result
is a decision. -/
theorem own_pixel_not_counted (s : Sionoise) (e : Event) :
    (∀ s1 : Sionoise, s1.sizeX = s.sizeX → s1.sizeY = s.sizeY → s1.sz = s.sz →
      s1.threshold = s.threshold →
      (∀ a : Int, a ≠ e.x * s.sizeY + e.y →
        readCell s1.matrixMem a = readCell s.matrixMem a) →
      filterEvent s1 e = filterEvent s e) ∧
    (∀ (e0 : Event) (s2 : Sionoise), e0.x = e.x → e0.y = e.y →
      updateMatrix s e0 = some s2 → filterEvent s2 e = filterEvent s e) ∧
    ((s.matrixMem.length : Int) = s.sizeX * s.sizeY → ∃ b, filterEvent s e = some b) := by
  have hmain : ∀ s1 : Sionoise, s1.sizeX = s.sizeX → s1.sizeY = s.sizeY → s1.sz = s.sz →
      s1.threshold = s.threshold →
      (∀ a : Int, a ≠ e.x * s.sizeY + e.y →
        readCell s1.matrixMem a = readCell s.matrixMem a) →
      filterEvent s1 e = filterEvent s e := by
    intro s1 hX hY hsz hthr hcells
    unfold filterEvent
    simp only [hX, hY, hsz]
    split
    · rfl
    · rename_i hnb
      symm
      apply scanRows_congr s s1 e e _ _ hthr.symm hY.symm hsz.symm rfl rfl
      intro i hi j hj hne
      exact (hcells _ (neighbour_address_ne s e i j hnb hi hj hne)).symm
  refine ⟨hmain, ?_, ?_⟩
  · intro e0 s2 hx hy hu
    have hs := updateMatrix_some s s2 e0 hu
    apply hmain s2 (by rw [hs]; rfl) (by rw [hs]; rfl) (by rw [hs]; rfl) (by rw [hs]; rfl)
    intro a ha
    apply updateMatrix_other_cells s s2 e0 hu a
    rw [hx, hy]
    exact ha
  · intro hlen
    obtain ⟨b, hb, _⟩ := filterEvent_spec s e hlen
    exact ⟨b, hb⟩

/-- Witness of C23: on an 8 x 8 sensor with pixel `(4, 4)` hit at `t = 100`, a second
event at `(4, 4)` gets the decision it gets on the fresh cache. -/
theorem own_pixel_not_counted_witness :
    filterEvent (storeCell (construct 8 8 1 100) ⟨100, 4, 4, true⟩) ⟨150, 4, 4, true⟩ =
      filterEvent (construct 8 8 1 100) ⟨150, 4, 4, true⟩ :=
  (own_pixel_not_counted (construct 8 8 1 100) ⟨150, 4, 4, true⟩).2.1 ⟨100, 4, 4, true⟩
    (storeCell (construct 8 8 1 100) ⟨100, 4, 4, true⟩) rfl rfl (by decide)

/-- C24: on a cache of `sizeX * sizeY` cells and for an event of the sensor, `filterEvent`
returns a decision and `updateMatrix` returns a state, so `run` returns: no access
falls outside the cache. The index `x*sizeY + y` written lies in `[0, sizeX*sizeY)`;
an event rejected by the boundary test is decided without a read; for any other
event every index `(x+i)*sizeY + y + j` with `i, j` in `[-sz, sz]` lies in
`[0, sizeX*sizeY)`. -/
theorem cache_indexing_in_range (s : Sionoise) (e : Event)
    (hlen : (s.matrixMem.length : Int) = s.sizeX * s.sizeY) (hgeo : InGeometry s e) :
    (∃ b, filterEvent s e = some b) ∧ (∃ s1, updateMatrix s e = some s1) ∧
      (∃ s1 out, run s [e] = some (s1, out)) ∧
      (0 ≤ e.x * s.sizeY + e.y ∧ e.x * s.sizeY + e.y < s.sizeX * s.sizeY) ∧
      (¬ Interior s e → filterEvent s e = some false) ∧
      (Interior s e → ∀ i j : Int, -s.sz ≤ i → i ≤ s.sz → -s.sz ≤ j → j ≤ s.sz →
        0 ≤ (e.x + i) * s.sizeY + e.y + j ∧
          (e.x + i) * s.sizeY + e.y + j < s.sizeX * s.sizeY) := by
  obtain ⟨b, hb, hiff⟩ := filterEvent_spec s e hlen
  have hu := updateMatrix_spec s e hlen hgeo
  obtain ⟨h1, h2, h3, h4⟩ := hgeo
  refine ⟨⟨b, hb⟩, ⟨_, hu⟩, ?_, address_bounds s.sizeX s.sizeY e.x e.y h1 h2 h3 h4, ?_, ?_⟩
  · obtain ⟨s1, out, h⟩ := runLoop_total [e] s hlen
      (by intro e1 he1; rw [List.mem_singleton.mp he1]; exact ⟨h1, h2, h3, h4⟩)
    exact ⟨s1, out, by rw [run_eq_runLoop]; exact h⟩
  · intro hni
    cases b with
    | false => exact hb
    | true => exact absurd (hiff.mp rfl).1 hni
  · intro hint i j hi1 hi2 hj1 hj2
    obtain ⟨g1, g2, g3, g4⟩ := hint
    have hb2 := address_bounds s.sizeX s.sizeY (e.x + i) (e.y + j) (by omega) (by omega)
      (by omega) (by omega)
    omega

/-- Witness of C24: the interior event `(4, 5, t = 150)` on a freshly constructed 8 x 8
filter. -/
theorem cache_indexing_in_range_witness :
    (∃ b, filterEvent (construct 8 8 1 100) ⟨150, 4, 5, true⟩ = some b) ∧
      (∃ s1, updateMatrix (construct 8 8 1 100) ⟨150, 4, 5, true⟩ = some s1) ∧
      (∃ s1 out, run (construct 8 8 1 100) [⟨150, 4, 5, true⟩] = some (s1, out)) :=
  ⟨(cache_indexing_in_range (construct 8 8 1 100) ⟨150, 4, 5, true⟩ (by decide)
    (by unfold InGeometry; decide)).1,
   (cache_indexing_in_range (construct 8 8 1 100) ⟨150, 4, 5, true⟩ (by decide)
    (by unfold InGeometry; decide)).2.1,
   (cache_indexing_in_range (construct 8 8 1 100) ⟨150, 4, 5, true⟩ (by decide)
    (by unfold InGeometry; decide)).2.2.1⟩

/-- An event passed under a threshold is passed under any larger one. -/
theorem filterEvent_threshold_mono (s : Sionoise) (T1 : Int) (e : Event)
    (hlen : (s.matrixMem.length : Int) = s.sizeX * s.sizeY) (hT : s.threshold ≤ T1) :
    ∃ b b1, filterEvent s e = some b ∧
      filterEvent { s with threshold := T1 } e = some b1 ∧ (b = true → b1 = true) := by
  obtain ⟨b, hb, hiff⟩ := filterEvent_spec s e hlen
  obtain ⟨b1, hb1, hiff1⟩ := filterEvent_spec { s with threshold := T1 } e hlen
  refine ⟨b, b1, hb, hb1, ?_⟩
  intro h
  obtain ⟨hint, i, j, hi1, hi2, hj1, hj2, hne, c, hc, hlt⟩ := hiff.mp h
  exact hiff1.mpr ⟨hint, i, j, hi1, hi2, hj1, hj2, hne, c, hc, lt_of_lt_of_le hlt hT⟩

/-- The events the loop of `run` writes under a threshold are a sublist of those it
writes under any larger one. -/
theorem runLoop_threshold_mono (T1 : Int) (l : List Event) : ∀ (s : Sionoise),
    (s.matrixMem.length : Int) = s.sizeX * s.sizeY → s.threshold ≤ T1 →
      ∀ s1 out s2 out2, runLoop s l = some (s1, out) →
        runLoop { s with threshold := T1 } l = some (s2, out2) → out.Sublist out2 := by
  induction l with
  | nil =>
    intro s _ _ s1 out s2 out2 h1 h2
    simp only [runLoop, Option.some.injEq, Prod.mk.injEq] at h1 h2
    rw [← h1.2, ← h2.2]
  | cons e l ih =>
    intro s hlen hT s1 out s2 out2 h1 h2
    obtain ⟨keep, o, hf, _, hr, rfl⟩ := runLoop_cons_some s s1 e l out h1
    obtain ⟨keep1, o1, hf1, _, hr1, rfl⟩ :=
      runLoop_cons_some { s with threshold := T1 } s2 e l out2 h2
    obtain ⟨b, b1, hb, hb1, hmono⟩ := filterEvent_threshold_mono s T1 e hlen hT
    rw [hf] at hb
    rw [hf1] at hb1
    cases hb
    cases hb1
    have hsub : o.Sublist o1 :=
      ih (storeCell s e) (by simpa [storeCell] using hlen) hT s1 o s2 o1 hr hr1
    cases keep with
    | true =>
      rw [hmono rfl]
      exact List.Sublist.cons₂ _ hsub
    | false =>
      cases keep1 with
      | true => exact List.Sublist.cons _ hsub
      | false => exact hsub

/-- C26: on a cache of `sizeX * sizeY` cells, for thresholds `T ≤ T1`, whatever `run`
writes with threshold `T` is a sublist of what it writes with threshold `T1` on the
same state and batch; and both runs return on a batch of events of the sensor. -/
theorem threshold_monotone (s : Sionoise) (T1 : Int) (batch : List Event)
    (hlen : (s.matrixMem.length : Int) = s.sizeX * s.sizeY) (hT : s.threshold ≤ T1) :
    (∀ s1 out s2 out2, run s batch = some (s1, out) →
      run { s with threshold := T1 } batch = some (s2, out2) → out.Sublist out2) ∧
    ((∀ e ∈ batch, InGeometry s e) →
      ∃ s1 out s2 out2, run s batch = some (s1, out) ∧
        run { s with threshold := T1 } batch = some (s2, out2) ∧ out.Sublist out2) := by
  have hsub : ∀ s1 out s2 out2, run s batch = some (s1, out) →
      run { s with threshold := T1 } batch = some (s2, out2) → out.Sublist out2 := by
    intro s1 out s2 out2 h1 h2
    rw [run_eq_runLoop] at h1 h2
    exact runLoop_threshold_mono T1 batch s hlen hT s1 out s2 out2 h1 h2
  refine ⟨hsub, ?_⟩
  intro hgeo
  obtain ⟨s1, out, h1⟩ := runLoop_total batch s hlen hgeo
  obtain ⟨s2, out2, h2⟩ := runLoop_total batch { s with threshold := T1 } hlen hgeo
  rw [← run_eq_runLoop] at h1 h2
  exact ⟨s1, out, s2, out2, h1, h2, hsub s1 out s2 out2 h1 h2⟩

/-- Witness of C26: the batch `A, B, C` on a freshly constructed 8 x 8 filter, with
thresholds 100 and 101. -/
theorem threshold_monotone_witness :
    ∃ s1 out s2 out2, run (construct 8 8 1 100)
        [⟨100, 4, 4, true⟩, ⟨150, 4, 5, true⟩, ⟨200, 0, 0, true⟩] = some (s1, out) ∧
      run { construct 8 8 1 100 with threshold := 101 }
        [⟨100, 4, 4, true⟩, ⟨150, 4, 5, true⟩, ⟨200, 0, 0, true⟩] = some (s2, out2) ∧
      out.Sublist out2 :=
  (threshold_monotone (construct 8 8 1 100) 101
    [⟨100, 4, 4, true⟩, ⟨150, 4, 5, true⟩, ⟨200, 0, 0, true⟩] (by decide) (by decide)).2
    (by unfold InGeometry; decide)

/-- C27: `run` on `A ++ B` is `run` on `A` followed by `run` on `B` from the state
reached: it returns exactly when both calls return, ends in the same state and
writes the events of the first call followed by those of the second; on a cache of
`sizeX * sizeY` cells and events of the sensor all three calls return. -/
theorem batch_boundaries_irrelevant (s : Sionoise) (A B : List Event) :
    (run s (A ++ B) =
      match run s A with
      | none => none
      | some (sA, outA) =>
        match run sA B with
        | none => none
        | some (sB, outB) => some (sB, outA ++ outB)) ∧
    ((s.matrixMem.length : Int) = s.sizeX * s.sizeY → (∀ e ∈ A ++ B, InGeometry s e) →
      ∃ sA outA sB outB, run s A = some (sA, outA) ∧ run sA B = some (sB, outB) ∧
        run s (A ++ B) = some (sB, outA ++ outB)) := by
  have heq : run s (A ++ B) =
      match run s A with
      | none => none
      | some (sA, outA) =>
        match run sA B with
        | none => none
        | some (sB, outB) => some (sB, outA ++ outB) := by
    simp only [run_eq_runLoop]
    exact runLoop_append A B s
  refine ⟨heq, ?_⟩
  intro hlen hgeo
  obtain ⟨s2, out, h⟩ := runLoop_total (A ++ B) s hlen hgeo
  rw [← run_eq_runLoop] at h
  rw [heq] at h
  cases hA : run s A with
  | none => rw [hA] at h; cases h
  | some p =>
    obtain ⟨sA, outA⟩ := p
    rw [hA] at h
    simp only at h
    cases hB : run sA B with
    | none => rw [hB] at h; cases h
    | some q =>
      obtain ⟨sB, outB⟩ := q
      refine ⟨sA, outA, sB, outB, rfl, hB, ?_⟩
      rw [heq, hA]
      simp only [hB]

/-- Witness of C27: the batches `[A]` and `[B, C]` on a freshly constructed 8 x 8 filter. -/
theorem batch_boundaries_irrelevant_witness :
    ∃ sA outA sB outB, run (construct 8 8 1 100) [⟨100, 4, 4, true⟩] = some (sA, outA) ∧
      run sA [⟨150, 4, 5, true⟩, ⟨200, 0, 0, true⟩] = some (sB, outB) ∧
      run (construct 8 8 1 100)
        ([⟨100, 4, 4, true⟩] ++ [⟨150, 4, 5, true⟩, ⟨200, 0, 0, true⟩])
        = some (sB, outA ++ outB) :=
  (batch_boundaries_irrelevant (construct 8 8 1 100) [⟨100, 4, 4, true⟩]
    [⟨150, 4, 5, true⟩, ⟨200, 0, 0, true⟩]).2 (by decide) (by unfold InGeometry; decide)

/-- An event whose timestamp is replaced by one with the same low 32 bits gets the same
decision and the same update, in every state. -/
theorem retime_event (s : Sionoise) (e : Event) (t1 : Int)
    (h : t1 % 4294967296 = e.timestamp % 4294967296) :
    filterEvent s { e with timestamp := t1 } = filterEvent s e ∧
      updateMatrix s { e with timestamp := t1 } = updateMatrix s e := by
  constructor
  · unfold filterEvent
    have ht : toUInt32 t1 = toUInt32 e.timestamp := by
      unfold toUInt32 UINT32_RANGE
      exact h
    simp only [ht]
    split
    · rfl
    · exact scanRows_congr s s _ e _ _ rfl rfl rfl rfl rfl (fun _ _ _ _ _ => rfl)
  · unfold updateMatrix
    simp only [toUInt32_toInt32, h]

/-- The loop of `run` on a batch whose timestamps are replaced by ones with the same low
32 bits: it fails when the loop on the original batch fails, and otherwise ends in
the same state, having written the replaced events at the same positions. -/
theorem runLoop_retime (pairs : List (Event × Int))
    (hcong : ∀ p ∈ pairs, p.2 % 4294967296 = p.1.timestamp % 4294967296) :
    ∀ s : Sionoise,
      (runLoop s (pairs.map Prod.fst) = none →
        runLoop s (pairs.map (fun p => { p.1 with timestamp := p.2 })) = none) ∧
      (∀ s1 out, runLoop s (pairs.map Prod.fst) = some (s1, out) →
        ∃ kept : List (Event × Int), kept.Sublist pairs ∧ out = kept.map Prod.fst ∧
          runLoop s (pairs.map (fun p => { p.1 with timestamp := p.2 })) =
            some (s1, kept.map (fun p => { p.1 with timestamp := p.2 }))) := by
  induction pairs with
  | nil =>
    intro s
    refine ⟨(fun h => by cases h), ?_⟩
    intro s1 out h
    simp only [List.map_nil, runLoop, Option.some.injEq, Prod.mk.injEq] at h
    obtain ⟨rfl, rfl⟩ := h
    exact ⟨[], List.Sublist.refl _, rfl, rfl⟩
  | cons p ps ih =>
    intro s
    have hp := retime_event s p.1 p.2 (hcong p (List.mem_cons_self _ _))
    have ih1 := ih (fun q hq => hcong q (List.mem_cons_of_mem _ hq))
    simp only [List.map_cons, runLoop_cons, hp.1, hp.2]
    cases hf : filterEvent s p.1 with
    | none => exact ⟨fun _ => rfl, fun s1 out h => by cases h⟩
    | some keep =>
      cases hu : updateMatrix s p.1 with
      | none => exact ⟨fun _ => rfl, fun s1 out h => by cases h⟩
      | some s2 =>
        obtain ⟨hnone, hsome⟩ := ih1 s2
        cases hr : runLoop s2 (ps.map Prod.fst) with
        | none =>
          constructor
          · intro _
            simp only [hnone hr]
          · intro s1 out h
            simp only [hr] at h
            cases h
        | some r =>
          obtain ⟨s3, out3⟩ := r
          obtain ⟨kept, hsub, hout, hrun⟩ := hsome s3 out3 hr
          constructor
          · intro h
            simp only [hr] at h
            cases h
          · intro s1 out h
            simp only [hr, Option.some.injEq, Prod.mk.injEq] at h
            obtain ⟨rfl, rfl⟩ := h
            cases keep with
            | true =>
              refine ⟨p :: kept, List.Sublist.cons₂ _ hsub, ?_, ?_⟩
              · simp only [if_true, List.map_cons, hout]
              · simp only [hrun, if_true, List.map_cons]
            | false =>
              refine ⟨kept, List.Sublist.cons _ hsub, ?_, ?_⟩
              · simpa using hout
              · simp only [hrun]
                rfl

/-- C28: let every event of a batch get a new timestamp with the same low 32 bits (`pairs`
lists each event with its new timestamp). Then `run` on the new batch ends in the
same state, cache included, and writes the new events at the positions where it
wrote the original ones; every single decision and update is the same in every
state; and the value `updateMatrix` stores is `t mod 2^32`, the value `filterEvent`
uses for `t`. -/
theorem low32_only (s : Sionoise) (pairs : List (Event × Int))
    (hcong : ∀ p ∈ pairs, p.2 % 4294967296 = p.1.timestamp % 4294967296) :
    (∀ s1 out, run s (pairs.map Prod.fst) = some (s1, out) →
      ∃ kept : List (Event × Int), kept.Sublist pairs ∧ out = kept.map Prod.fst ∧
        run s (pairs.map (fun p => { p.1 with timestamp := p.2 })) =
          some (s1, kept.map (fun p => { p.1 with timestamp := p.2 }))) ∧
    ((s.matrixMem.length : Int) = s.sizeX * s.sizeY →
      (∀ p ∈ pairs, InGeometry s p.1) →
      ∃ s1 out, run s (pairs.map Prod.fst) = some (s1, out)) ∧
    (∀ (s0 : Sionoise) (p : Event × Int), p ∈ pairs →
      filterEvent s0 { p.1 with timestamp := p.2 } = filterEvent s0 p.1 ∧
        updateMatrix s0 { p.1 with timestamp := p.2 } = updateMatrix s0 p.1) ∧
    (∀ t : Int, toUInt32 (toInt32 t) = t % 4294967296 ∧ toUInt32 t = t % 4294967296) := by
  refine ⟨?_, ?_, ?_, ?_⟩
  · intro s1 out h
    rw [run_eq_runLoop] at h
    obtain ⟨kept, h1, h2, h3⟩ := (runLoop_retime pairs hcong s).2 s1 out h
    exact ⟨kept, h1, h2, by rw [run_eq_runLoop]; exact h3⟩
  · intro hlen hgeo
    obtain ⟨s1, out, h⟩ := runLoop_total (pairs.map Prod.fst) s hlen
      (by
        intro e he
        obtain ⟨p, hp, rfl⟩ := List.mem_map.mp he
        exact hgeo p hp)
    exact ⟨s1, out, by rw [run_eq_runLoop]; exact h⟩
  · intro s0 p hp
    exact retime_event s0 p.1 p.2 (hcong p hp)
  · intro t
    exact ⟨toUInt32_toInt32 t, rfl⟩

/-- Witness of C28: the events `A` and `B` with their timestamps raised by `2^32` and
`2^33`; the run on the new batch ends in the state of the run on `A, B` and writes
the new events at the positions kept. -/
theorem low32_only_witness :
    ∃ kept : List (Event × Int),
      kept.Sublist [(⟨100, 4, 4, true⟩, 4294967396), (⟨150, 4, 5, true⟩, 8589934742)] ∧
      [(⟨150, 4, 5, true⟩ : Event)] = kept.map Prod.fst ∧
      run (construct 8 8 1 100)
          (([(⟨100, 4, 4, true⟩, 4294967396), (⟨150, 4, 5, true⟩, 8589934742)] :
            List (Event × Int)).map (fun p => { p.1 with timestamp := p.2 })) =
        some (storeCell (storeCell (construct 8 8 1 100) ⟨100, 4, 4, true⟩)
          ⟨150, 4, 5, true⟩, kept.map (fun p => { p.1 with timestamp := p.2 })) :=
  (low32_only (construct 8 8 1 100)
    [(⟨100, 4, 4, true⟩, 4294967396), (⟨150, 4, 5, true⟩, 8589934742)] (by decide)).1
    (storeCell (storeCell (construct 8 8 1 100) ⟨100, 4, 4, true⟩) ⟨150, 4, 5, true⟩)
    [⟨150, 4, 5, true⟩] (by decide)

end Sionoise
end dv

/-! # Further properties of the codec -/

namespace dv

/-- The pixel loop in format GRAY cannot finish in fewer iterations than there are
samples left. -/
theorem pixelLoop_GRAY_short (src : List Int) (maxIndex : Nat) (hsrc : maxIndex ≤ src.length) :
    ∀ (fuel m : Nat) (out : List Int), fuel < maxIndex - m → out.length = maxIndex →
      pixelLoop FrameFormat.GRAY src maxIndex fuel m out = none := by
  intro fuel
  induction fuel with
  | zero =>
    intro m out hfuel _
    have hlt : m < maxIndex := by omega
    simp only [pixelLoop, hlt, if_true]
  | succ fuel ih =>
    intro m out hfuel hout
    have hlt : m < maxIndex := by omega
    have h0 : m < src.length := by omega
    rw [pixelLoop]
    simp only [hlt, if_true, List.getElem?_eq_getElem h0]
    rw [setPixel_some _ _ _ (by omega)]
    simp only []
    exact ih (m + 1) _ (by omega) (by simp only [List.length_set]; exact hout)

/-- The pixel loop in format BGR cannot finish in fewer iterations than there are pixels
left. -/
theorem pixelLoop_BGR_short (src : List Int) (n : Nat) (hsrc : 3 * n ≤ src.length) :
    ∀ (fuel m : Nat) (out : List Int), fuel < n - m → out.length = 3 * n →
      pixelLoop FrameFormat.BGR src (3 * n) fuel (3 * m) out = none := by
  intro fuel
  induction fuel with
  | zero =>
    intro m out hfuel _
    have hlt : 3 * m < 3 * n := by omega
    simp only [pixelLoop, hlt, if_true]
  | succ fuel ih =>
    intro m out hfuel hout
    have hlt : 3 * m < 3 * n := by omega
    have h0 : 3 * m < src.length := by omega
    have h1 : 3 * m + 1 < src.length := by omega
    have h2 : 3 * m + 2 < src.length := by omega
    rw [pixelLoop]
    simp only [hlt, if_true, Nat.add_zero, List.getElem?_eq_getElem h0,
      List.getElem?_eq_getElem h1, List.getElem?_eq_getElem h2]
    rw [setPixel_some _ _ _ (by omega)]
    simp only []
    rw [setPixel_some _ _ _ (by simp only [List.length_set]; omega)]
    simp only []
    rw [setPixel_some _ _ _ (by simp only [List.length_set]; omega)]
    simp only []
    exact ih (m + 1) _ (by omega) (by simp only [List.length_set]; exact hout)

/-- The pixel loop in format BGRA cannot finish in fewer iterations than there are pixels
left. -/
theorem pixelLoop_BGRA_short (src : List Int) (n : Nat) (hsrc : 4 * n ≤ src.length) :
    ∀ (fuel m : Nat) (out : List Int), fuel < n - m → out.length = 4 * n →
      pixelLoop FrameFormat.BGRA src (4 * n) fuel (4 * m) out = none := by
  intro fuel
  induction fuel with
  | zero =>
    intro m out hfuel _
    have hlt : 4 * m < 4 * n := by omega
    simp only [pixelLoop, hlt, if_true]
  | succ fuel ih =>
    intro m out hfuel hout
    have hlt : 4 * m < 4 * n := by omega
    have h0 : 4 * m < src.length := by omega
    have h1 : 4 * m + 1 < src.length := by omega
    have h2 : 4 * m + 2 < src.length := by omega
    have h3 : 4 * m + 3 < src.length := by omega
    rw [pixelLoop]
    simp only [hlt, if_true, Nat.add_zero, List.getElem?_eq_getElem h0,
      List.getElem?_eq_getElem h1, List.getElem?_eq_getElem h2, List.getElem?_eq_getElem h3]
    rw [setPixel_some _ _ _ (by omega)]
    simp only []
    rw [setPixel_some _ _ _ (by simp only [List.length_set]; omega)]
    simp only []
    rw [setPixel_some _ _ _ (by simp only [List.length_set]; omega)]
    simp only []
    rw [setPixel_some _ _ _ (by simp only [List.length_set]; omega)]
    simp only []
    exact ih (m + 1) _ (by omega) (by simp only [List.length_set]; exact hout)

/-- The pixel loop of a frame event whose array holds at least `getPixelsMaxIndex()`
samples, that index being `n` whole pixels: it returns, with a buffer of that many
bytes, exactly when it is given at least `n` iterations. -/
theorem pixelLoop_iterations (evt : FrameEvent) (n : Nat)
    (hlen : evt.pixelsMaxIndex ≤ evt.pixelArray.length)
    (hn : evt.pixelsMaxIndex = pixelStride (frameFormat evt.channelNumber) * n) (fuel : Nat) :
    (∃ pixels, pixelLoop (frameFormat evt.channelNumber) evt.pixelArray evt.pixelsMaxIndex
        fuel 0 (resize Frame.fresh.pixels evt.pixelsMaxIndex) = some pixels ∧
      pixels.length = evt.pixelsMaxIndex) ↔ n ≤ fuel := by
  cases hf : frameFormat evt.channelNumber with
  | GRAY =>
    rw [hf] at hn
    simp only [pixelStride, Nat.one_mul] at hn
    constructor
    · rintro ⟨pixels, hp, _⟩
      by_contra hlt
      rw [pixelLoop_GRAY_short evt.pixelArray evt.pixelsMaxIndex hlen fuel 0 _ (by omega)
        (resize_length _ _)] at hp
      cases hp
    · intro hle
      obtain ⟨res, hres, hrlen, _, _⟩ := pixelLoop_GRAY evt.pixelArray evt.pixelsMaxIndex hlen
        fuel 0 (resize Frame.fresh.pixels evt.pixelsMaxIndex) (by omega) (by omega)
        (resize_length _ _)
      exact ⟨res, hres, hrlen⟩
  | BGR =>
    rw [hf] at hn
    simp only [pixelStride] at hn
    rw [hn]
    constructor
    · rintro ⟨pixels, hp, _⟩
      by_contra hlt
      have hshort := pixelLoop_BGR_short evt.pixelArray n (by omega) fuel 0
        (resize Frame.fresh.pixels (3 * n)) (by omega) (resize_length _ _)
      simp only [Nat.mul_zero] at hshort
      rw [hshort] at hp
      cases hp
    · intro hle
      obtain ⟨res, hres, hrlen, _, _⟩ := pixelLoop_BGR evt.pixelArray n (by omega) fuel 0
        (resize Frame.fresh.pixels (3 * n)) (by omega) (by omega) (resize_length _ _)
      simp only [Nat.mul_zero] at hres
      exact ⟨res, hres, hrlen⟩
  | BGRA =>
    rw [hf] at hn
    simp only [pixelStride] at hn
    rw [hn]
    constructor
    · rintro ⟨pixels, hp, _⟩
      by_contra hlt
      have hshort := pixelLoop_BGRA_short evt.pixelArray n (by omega) fuel 0
        (resize Frame.fresh.pixels (4 * n)) (by omega) (resize_length _ _)
      simp only [Nat.mul_zero] at hshort
      rw [hshort] at hp
      cases hp
    · intro hle
      obtain ⟨res, hres, hrlen, _, _⟩ := pixelLoop_BGRA evt.pixelArray n (by omega) fuel 0
        (resize Frame.fresh.pixels (4 * n)) (by omega) (by omega) (resize_length _ _)
      simp only [Nat.mul_zero] at hres
      exact ⟨res, hres, hrlen⟩

/-- A maximum index equal to `lengthX * lengthY * channels` is a whole number of pixels of
the format selected from the channel number. -/
theorem stride_dvd_maxIndex (evt : FrameEvent)
    (hN : (evt.pixelsMaxIndex : Int) = evt.lengthX * evt.lengthY * evt.channelNumber) :
    pixelStride (frameFormat evt.channelNumber) ∣ evt.pixelsMaxIndex := by
  by_cases h3 : evt.channelNumber = 3
  · have hf : frameFormat evt.channelNumber = FrameFormat.BGR := by simp [frameFormat, h3]
    rw [hf]
    simp only [pixelStride]
    have hmod : (evt.pixelsMaxIndex : Int) % 3 = 0 := by
      rw [hN, h3]; exact Int.mul_emod_left _ _
    exact Nat.dvd_of_mod_eq_zero (by omega)
  · by_cases h4 : evt.channelNumber = 4
    · have hf : frameFormat evt.channelNumber = FrameFormat.BGRA := by
        simp [frameFormat, h4]
      rw [hf]
      simp only [pixelStride]
      have hmod : (evt.pixelsMaxIndex : Int) % 4 = 0 := by
        rw [hN, h4]; exact Int.mul_emod_left _ _
      exact Nat.dvd_of_mod_eq_zero (by omega)
    · have hf : frameFormat evt.channelNumber = FrameFormat.GRAY := by
        simp [frameFormat, h3, h4]
      rw [hf]
      exact Nat.one_dvd _

end dv

namespace dv

/-- C25: for a legacy frame event whose array holds exactly `N = getPixelsMaxIndex()`
samples with `N = lengthX * lengthY * channels`, `N` is a whole number of pixels of
the selected format; the pixel loop on the buffer resized to `N` returns, so every
index it reads in the array and writes in the buffer is below `N`; it returns when
given `N / stride` iterations and not when given fewer, so it performs exactly
`N / stride` iterations; and the frame is written with a buffer of `N` bytes. -/
theorem pixel_loop_in_range (ts64 : TimestampRule) (tsOverflow : Int) (evt : FrameEvent)
    (hN : (evt.pixelsMaxIndex : Int) = evt.lengthX * evt.lengthY * evt.channelNumber)
    (hlen : evt.pixelArray.length = evt.pixelsMaxIndex) :
    pixelStride (frameFormat evt.channelNumber) ∣ evt.pixelsMaxIndex ∧
      (∀ fuel : Nat,
        (∃ pixels, pixelLoop (frameFormat evt.channelNumber) evt.pixelArray
            evt.pixelsMaxIndex fuel 0 (resize Frame.fresh.pixels evt.pixelsMaxIndex)
              = some pixels ∧
          pixels.length = evt.pixelsMaxIndex) ↔
        evt.pixelsMaxIndex / pixelStride (frameFormat evt.channelNumber) ≤ fuel) ∧
      (∀ fuel : Nat,
        fuel < evt.pixelsMaxIndex / pixelStride (frameFormat evt.channelNumber) →
        pixelLoop (frameFormat evt.channelNumber) evt.pixelArray evt.pixelsMaxIndex fuel 0
          (resize Frame.fresh.pixels evt.pixelsMaxIndex) = none) ∧
      evt.pixelsMaxIndex / pixelStride (frameFormat evt.channelNumber)
        ≤ evt.pixelsMaxIndex ∧
      ∃ f, convertFrame ts64 tsOverflow evt Frame.fresh = some f ∧
        f.pixels.length = evt.pixelsMaxIndex := by
  have hdvd := stride_dvd_maxIndex evt hN
  obtain ⟨n, hn⟩ := hdvd
  have hpos : 0 < pixelStride (frameFormat evt.channelNumber) := by
    cases frameFormat evt.channelNumber <;> simp [pixelStride]
  have hdiv : evt.pixelsMaxIndex / pixelStride (frameFormat evt.channelNumber) = n := by
    rw [hn]; exact Nat.mul_div_cancel_left n hpos
  have hiter := pixelLoop_iterations evt n (by omega) hn
  refine ⟨⟨n, hn⟩, ?_, ?_, ?_, ?_⟩
  · intro fuel
    rw [hdiv]
    exact hiter fuel
  · intro fuel hfuel
    rw [hdiv] at hfuel
    cases hf : frameFormat evt.channelNumber with
    | GRAY =>
      rw [hf] at hn
      simp only [pixelStride, Nat.one_mul] at hn
      exact pixelLoop_GRAY_short evt.pixelArray evt.pixelsMaxIndex (by omega) fuel 0 _
        (by omega) (resize_length _ _)
    | BGR =>
      rw [hf] at hn
      simp only [pixelStride] at hn
      rw [hn]
      have hshort := pixelLoop_BGR_short evt.pixelArray n (by omega) fuel 0
        (resize Frame.fresh.pixels (3 * n)) (by omega) (resize_length _ _)
      simp only [Nat.mul_zero] at hshort
      exact hshort
    | BGRA =>
      rw [hf] at hn
      simp only [pixelStride] at hn
      rw [hn]
      have hshort := pixelLoop_BGRA_short evt.pixelArray n (by omega) fuel 0
        (resize Frame.fresh.pixels (4 * n)) (by omega) (resize_length _ _)
      simp only [Nat.mul_zero] at hshort
      exact hshort
  · exact Nat.div_le_self _ _
  · exact convertFrame_total ts64 tsOverflow evt ⟨by omega, ⟨n, hn⟩⟩

/-- Witness of C25: the sample frame event, 2 x 1 pixels of 3 channels, 6 samples: the
pixel loop takes 2 iterations. -/
theorem pixel_loop_in_range_witness :
    (∀ fuel : Nat,
      (∃ pixels, pixelLoop (frameFormat sampleFrameEventRGB.channelNumber)
          sampleFrameEventRGB.pixelArray sampleFrameEventRGB.pixelsMaxIndex fuel 0
            (resize Frame.fresh.pixels sampleFrameEventRGB.pixelsMaxIndex) = some pixels ∧
        pixels.length = sampleFrameEventRGB.pixelsMaxIndex) ↔
      sampleFrameEventRGB.pixelsMaxIndex /
        pixelStride (frameFormat sampleFrameEventRGB.channelNumber) ≤ fuel) ∧
    sampleFrameEventRGB.pixelsMaxIndex /
      pixelStride (frameFormat sampleFrameEventRGB.channelNumber) = 2 :=
  ⟨(pixel_loop_in_range sampleTimestampRule 0 sampleFrameEventRGB (by decide)
    (by decide)).2.1, by decide⟩

end dv

/-! # Properties of the camera module -/

namespace dv
namespace davis

/-- The codec returns on every packet whose valid frame events, if any, are laid out for
their pixel loops. -/
theorem codec_total (ts64 : TimestampRule) (p : caerEventPacket) (md : ModuleData)
    (hwf : FramesWellFormed p) :
    ∃ md1, dvConvertToAedat4 ts64 (some p) (some md) = some (some md1) := by
  by_cases hv : p.eventValid ≤ 0
  · exact ⟨md, by simp only [dvConvertToAedat4, hv, if_true]⟩
  · have hpos : 0 < p.eventValid := by omega
    cases htag : p.events with
    | POLARITY_EVENT events => exact ⟨_, dvConvertToAedat4_polarity ts64 p md events htag hpos⟩
    | FRAME_EVENT events =>
      obtain ⟨fs, out, h1, _⟩ := frameLoop_spec ts64 p.eventTSOverflow events md.frames
        (hwf events htag)
      exact ⟨{ md with frames := out },
        by rw [dvConvertToAedat4_frame ts64 p md events htag hpos, h1]⟩
    | IMU6_EVENT events => exact ⟨_, dvConvertToAedat4_imu ts64 p md events htag hpos⟩
    | SPECIAL_EVENT events => exact ⟨_, dvConvertToAedat4_special ts64 p md events htag hpos⟩
    | unknown t => exact ⟨_, dvConvertToAedat4_unknown ts64 p md t htag hpos⟩

/-- A call of the codec from `davis::run` that returns records the packet and leaves the
two configuration attributes as they were. -/
theorem convert_some (ts64 : TimestampRule) (d d1 : davis) (p : caerEventPacket)
    (h : convert ts64 d p = some d1) :
    d1.resetInitialization = d.resetInitialization ∧ d1.initialized = d.initialized ∧
      d1.converted = d.converted ++ [p] := by
  unfold convert at h
  split at h
  · cases h
    exact ⟨rfl, rfl, rfl⟩
  · cases h

/-- A call of the codec from `davis::run` returns when the codec does. -/
theorem convert_total (ts64 : TimestampRule) (d : davis) (p : caerEventPacket)
    (hwf : FramesWellFormed p) : ∃ d1, convert ts64 d p = some d1 := by
  obtain ⟨md1, h⟩ := codec_total ts64 p d.moduleData hwf
  refine ⟨{ d with moduleData := md1, converted := d.converted ++ [p] }, ?_⟩
  simp only [convert, h]

/-- The conversion of a packet that may be absent records the packet when it is there. -/
theorem convertIfPresent_some (ts64 : TimestampRule) (d d1 : davis)
    (p : Option caerEventPacket) (h : convertIfPresent ts64 d p = some d1) :
    d1.resetInitialization = d.resetInitialization ∧ d1.initialized = d.initialized ∧
      d1.converted = d.converted ++ p.toList := by
  cases p with
  | none =>
    simp only [convertIfPresent, Option.some.injEq] at h
    subst h
    exact ⟨rfl, rfl, by simp⟩
  | some q => exact convert_some ts64 d d1 q h

/-- The conversion of a packet that may be absent returns when the codec does. -/
theorem convertIfPresent_total (ts64 : TimestampRule) (d : davis)
    (p : Option caerEventPacket) (hwf : ∀ q, p = some q → FramesWellFormed q) :
    ∃ d1, convertIfPresent ts64 d p = some d1 := by
  cases p with
  | none => exact ⟨d, rfl⟩
  | some q => exact convert_total ts64 d q (hwf q rfl)

/-- The reset step clears "resetInitialization", clears "initialized" when the former was
set, and converts nothing. -/
theorem resetStep_spec (d : davis) :
    (resetStep d).resetInitialization = false ∧
      ((resetStep d).initialized = true ↔
        d.initialized = true ∧ d.resetInitialization = false) ∧
      (resetStep d).converted = d.converted := by
  unfold resetStep
  cases hr : d.resetInitialization with
  | true => simp
  | false => simp [hr]

/-- The special step, when it returns: the special packet, if present, is recorded, and
"initialized" is set exactly when it was set or the packet is a lone
TIMESTAMP_RESET. -/
theorem specialStep_some (ts64 : TimestampRule) (d d2 : davis)
    (p : Option caerEventPacket) (h : specialStep ts64 d p = some d2) :
    d2.resetInitialization = d.resetInitialization ∧
      (d2.initialized = true ↔ d.initialized = true ∨
        ∃ special, p = some special ∧ getEventNumber special = 1 ∧
          firstType special = some SpecialEventType.TIMESTAMP_RESET) ∧
      d2.converted = d.converted ++ p.toList := by
  cases p with
  | none =>
    simp only [specialStep, Option.some.injEq] at h
    subst h
    exact ⟨rfl, by simp, by simp⟩
  | some special =>
    simp only [specialStep] at h
    obtain ⟨h1, h2, h3⟩ := convert_some ts64 _ d2 special h
    by_cases hc : getEventNumber special = 1 ∧
        firstType special = some SpecialEventType.TIMESTAMP_RESET
    · simp only [hc, and_self, if_true] at h1 h2 h3
      refine ⟨h1, ?_, by simpa using h3⟩
      rw [h2]
      simp only [true_iff]
      exact Or.inr ⟨special, rfl, hc⟩
    · simp only [hc, if_false] at h1 h2 h3
      refine ⟨h1, ?_, by simpa using h3⟩
      rw [h2]
      constructor
      · intro hi; exact Or.inl hi
      · rintro (hi | ⟨sp, hsp, hcond⟩)
        · exact hi
        · cases hsp
          exact absurd hcond hc

/-- The special step returns when the codec does. -/
theorem specialStep_total (ts64 : TimestampRule) (d : davis) (p : Option caerEventPacket)
    (hwf : ∀ q, p = some q → FramesWellFormed q) :
    ∃ d2, specialStep ts64 d p = some d2 := by
  cases p with
  | none => exact ⟨d, rfl⟩
  | some special =>
    simp only [specialStep]
    exact convert_total ts64 _ special (hwf special rfl)

/-- The data step, when it returns: the polarity, frame and IMU6 packets present are
recorded in that order and the configuration attributes are as they were. -/
theorem dataStep_some (ts64 : TimestampRule) (d d5 : davis) (data : EventPacketContainer)
    (h : dataStep ts64 d data = some d5) :
    d5.resetInitialization = d.resetInitialization ∧ d5.initialized = d.initialized ∧
      d5.converted =
        d.converted ++ data.polarity.toList ++ data.frame.toList ++ data.imu6.toList := by
  unfold dataStep at h
  split at h
  · cases h
  · rename_i d3 h3
    split at h
    · cases h
    · rename_i d4 h4
      obtain ⟨a1, a2, a3⟩ := convertIfPresent_some ts64 d d3 _ h3
      obtain ⟨b1, b2, b3⟩ := convertIfPresent_some ts64 d3 d4 _ h4
      obtain ⟨c1, c2, c3⟩ := convertIfPresent_some ts64 d4 d5 _ h
      refine ⟨by rw [c1, b1, a1], by rw [c2, b2, a2], ?_⟩
      rw [c3, b3, a3]

/-- The data step returns when the codec does. -/
theorem dataStep_total (ts64 : TimestampRule) (d : davis) (data : EventPacketContainer)
    (hp : ∀ q, data.polarity = some q → FramesWellFormed q)
    (hf : ∀ q, data.frame = some q → FramesWellFormed q)
    (hi : ∀ q, data.imu6 = some q → FramesWellFormed q) :
    ∃ d5, dataStep ts64 d data = some d5 := by
  obtain ⟨d3, h3⟩ := convertIfPresent_total ts64 d data.polarity hp
  obtain ⟨d4, h4⟩ := convertIfPresent_total ts64 d3 data.frame hf
  obtain ⟨d5, h5⟩ := convertIfPresent_total ts64 d4 data.imu6 hi
  exact ⟨d5, by simp only [dataStep, h3, h4, h5]⟩

end davis
end dv

namespace dv
namespace davis

/-- C29: `davis::run` on a container whose frame events are laid out for their pixel loops
returns, with "resetInitialization" cleared. "initialized" is true afterwards
exactly when the special packet of the container holds one event, a TIMESTAMP_RESET,
or the attribute was true and "resetInitialization" was not set. A special packet
in the container is always handed to the codec, first. When "initialized" is false
after the special step, or the container holds exactly one packet, nothing else is
handed to it; otherwise the polarity, frame and IMU6 packets present follow, in that
order. Without data nothing is handed to the codec. -/
theorem synchronisation_gate (ts64 : TimestampRule) (d : davis)
    (data : Option EventPacketContainer)
    (hwf : ∀ c, data = some c → ∀ q,
      (c.special = some q ∨ c.polarity = some q ∨ c.frame = some q ∨ c.imu6 = some q) →
        FramesWellFormed q) :
    ∃ d1, run ts64 d data = some d1 ∧
      d1.resetInitialization = false ∧
      (d1.initialized = true ↔
        IsTimestampReset data ∨ (d.initialized = true ∧ d.resetInitialization = false)) ∧
      (∀ c special, data = some c → c.size ≠ 0 → c.special = some special →
        ∃ rest, d1.converted = d.converted ++ special :: rest) ∧
      (∀ c, data = some c → c.size ≠ 0 → (d1.initialized = false ∨ c.size = 1) →
        d1.converted = d.converted ++ c.special.toList) ∧
      (∀ c, data = some c → c.size ≠ 0 → c.size ≠ 1 → d1.initialized = true →
        d1.converted = d.converted ++ c.special.toList ++ c.polarity.toList ++
          c.frame.toList ++ c.imu6.toList) ∧
      ((data = none ∨ ∃ c, data = some c ∧ c.size = 0) → d1.converted = d.converted) := by
  obtain ⟨r1, r2, r3⟩ := resetStep_spec d
  cases data with
  | none =>
    refine ⟨resetStep d, rfl, r1, ?_, ?_, ?_, ?_, fun _ => r3⟩
    · rw [r2]
      constructor
      · intro h; exact Or.inr h
      · rintro (⟨c, sp, hc, _⟩ | h)
        · cases hc
        · exact h
    · intro c sp hc; cases hc
    · intro c hc; cases hc
    · intro c hc; cases hc
  | some c =>
    by_cases h0 : c.size = 0
    · refine ⟨resetStep d, by simp only [run, h0, if_true], r1, ?_, ?_, ?_, ?_, fun _ => r3⟩
      · rw [r2]
        constructor
        · intro h; exact Or.inr h
        · rintro (⟨c1, sp, hc, hs, _⟩ | h)
          · cases hc
            exact absurd h0 hs
          · exact h
      · intro c1 sp hc hs; cases hc; exact absurd h0 hs
      · intro c1 hc hs; cases hc; exact absurd h0 hs
      · intro c1 hc hs; cases hc; exact absurd h0 hs
    · obtain ⟨d2, h2⟩ := specialStep_total ts64 (resetStep d) c.special
        (fun q hq => hwf c rfl q (Or.inl hq))
      obtain ⟨s1, s2, s3⟩ := specialStep_some ts64 (resetStep d) d2 c.special h2
      have hflag : d2.initialized = true ↔
          IsTimestampReset (some c) ∨
            (d.initialized = true ∧ d.resetInitialization = false) := by
        rw [s2, r2]
        constructor
        · rintro (h | ⟨sp, hsp, hn, ht⟩)
          · exact Or.inr h
          · exact Or.inl ⟨c, sp, rfl, h0, hsp, hn, ht⟩
        · rintro (⟨c1, sp, hc, _, hsp, hn, ht⟩ | h)
          · cases hc
            exact Or.inr ⟨sp, hsp, hn, ht⟩
          · exact Or.inl h
      have hfirst : ∀ (dd : davis) (tail : List caerEventPacket),
          dd.converted = d2.converted ++ tail →
          ∀ c1 sp, some c = some c1 → c1.size ≠ 0 → c1.special = some sp →
            ∃ rest, dd.converted = d.converted ++ sp :: rest := by
        intro dd tail hdd c1 sp hc _ hsp
        cases hc
        refine ⟨tail, ?_⟩
        rw [hdd, s3, r3, hsp]
        simp
      by_cases h1 : c.size = 1
      · refine ⟨d2, by simp only [run, h0, if_false, h2]; simp only [h1, if_true], by rw [s1, r1],
          hflag, hfirst d2 [] (by simp), ?_, ?_, ?_⟩
        · intro c1 hc _ _
          cases hc
          rw [s3, r3]
        · intro c1 hc _ hs
          cases hc
          exact absurd h1 hs
        · rintro (hc | ⟨c1, hc, hs⟩)
          · cases hc
          · cases hc
            exact absurd hs h0
      · cases hi : d2.initialized with
        | false =>
          refine ⟨d2, by simp only [run, h0, if_false, h2, h1, hi, Bool.not_false, if_true],
            by rw [s1, r1], by rw [← hflag, hi], hfirst d2 [] (by simp), ?_, ?_, ?_⟩
          · intro c1 hc _ _
            cases hc
            rw [s3, r3]
          · intro c1 hc _ _ ht
            rw [hi] at ht
            cases ht
          · rintro (hc | ⟨c1, hc, hs⟩)
            · cases hc
            · cases hc
              exact absurd hs h0
        | true =>
          obtain ⟨d5, h5⟩ := dataStep_total ts64 d2 c
            (fun q hq => hwf c rfl q (Or.inr (Or.inl hq)))
            (fun q hq => hwf c rfl q (Or.inr (Or.inr (Or.inl hq))))
            (fun q hq => hwf c rfl q (Or.inr (Or.inr (Or.inr hq))))
          obtain ⟨t1, t2, t3⟩ := dataStep_some ts64 d2 d5 c h5
          have hrun : run ts64 d (some c) = some d5 := by
            simp only [run, h0, if_false, h2, h1, hi, Bool.not_true, h5]
            rfl
          refine ⟨d5, hrun, by rw [t1, s1, r1], by rw [t2, hflag],
            hfirst d5 (c.polarity.toList ++ c.frame.toList ++ c.imu6.toList)
              (by rw [t3]; simp), ?_, ?_, ?_⟩
          · intro c1 hc _ hor
            cases hc
            rcases hor with hf | hs
            · rw [t2, hi] at hf
              cases hf
            · exact absurd hs h1
          · intro c1 hc _ _ _
            cases hc
            rw [t3, s3, r3]
          · rintro (hc | ⟨c1, hc, hs⟩)
            · cases hc
            · cases hc
              exact absurd hs h0

/-- Witness of C29: the sample container, whose special packet is a lone TIMESTAMP_RESET,
on a module not yet initialised: the flag is set and the special, polarity and IMU6
packets are handed to the codec in the same run. -/
theorem synchronisation_gate_witness :
    ∃ d1, run sampleTimestampRule davis.initial (some sampleContainer) = some d1 ∧
      d1.initialized = true ∧
      d1.converted = [sampleResetPacket, samplePolarityPacket, sampleIMU6Packet] := by
  obtain ⟨d1, h1, _, h3, _, _, h6, _⟩ := synchronisation_gate sampleTimestampRule
    davis.initial (some sampleContainer) (by
      intro c hc q hq
      cases hc
      intro events htag evt hevt _
      rcases hq with h | h | h | h
      · cases h; cases htag
      · cases h; cases htag
      · cases h
      · cases h; cases htag)
  have hinit : d1.initialized = true :=
    h3.mpr (Or.inl ⟨sampleContainer, sampleResetPacket, rfl, by decide, rfl, rfl, rfl⟩)
  exact ⟨d1, h1, hinit, h6 sampleContainer rfl (by decide) (by decide) hinit⟩

end davis
end dv

/-! # Properties of the logger helpers -/

namespace dv
namespace LoggerInternal

/-- The name of a level: `logLevelEnumToName` goes through the integer code of the level
and back to the entry of `logLevelNames` for that level. -/
theorem logLevelEnumToName_eq (c : LogLevelCodes) (hc : c.DistinctLabels) (l : logLevel) :
    logLevelEnumToName c l =
      match l with
      | logLevel.ERROR => "ERROR"
      | logLevel.WARNING => "WARNING"
      | logLevel.INFO => "INFO"
      | logLevel.DEBUG => "DEBUG" := by
  obtain ⟨h1, h2, h3, h4, h5, h6, h7⟩ := hc
  have e := h7 c.DVLOG_ERROR (by simp)
  have w := h7 c.DVLOG_WARNING (by simp)
  have i := h7 c.DVLOG_INFO (by simp)
  have g := h7 c.DVLOG_DEBUG (by simp)
  cases l with
  | ERROR => simp [logLevelEnumToName, logLevelIntegerToName, underlying, logLevelNames]
  | WARNING =>
    simp [logLevelEnumToName, logLevelIntegerToName, underlying, logLevelNames, w.1, w.2.1,
      w.2.2.1, Ne.symm h1]
  | INFO =>
    simp [logLevelEnumToName, logLevelIntegerToName, underlying, logLevelNames, i.1, i.2.1,
      i.2.2.1, Ne.symm h2, Ne.symm h4, h6]
  | DEBUG =>
    simp [logLevelEnumToName, logLevelIntegerToName, underlying, logLevelNames, g.1, g.2.1,
      g.2.2.1, Ne.symm h3, Ne.symm h5]

/-- The level of a string: the four names of `logLevelNames` give their level, the old
names EMERGENCY, ALERT and CRITICAL give ERROR, every other string gives INFO. -/
theorem logLevelNameToEnum_eq (s : String) :
    logLevelNameToEnum s =
      if s = "ERROR" then logLevel.ERROR
      else if s = "WARNING" then logLevel.WARNING
      else if s = "INFO" then logLevel.INFO
      else if s = "DEBUG" then logLevel.DEBUG
      else if s = "EMERGENCY" ∨ s = "ALERT" ∨ s = "CRITICAL" then logLevel.ERROR
      else logLevel.INFO := rfl

/-- C30: when the labels of the `switch` are pairwise different,
`logLevelNameToEnum (logLevelEnumToName l) = l` for each of the four levels; for
every string `s`, `logLevelIntegerToName (logLevelNameToInteger s)` is one of the
four canonical names, and it is `s` itself when `s` is canonical; the old names
EMERGENCY, ALERT and CRITICAL map to ERROR and every other string maps to INFO. -/
theorem log_level_round_trip (c : LogLevelCodes) (hc : c.DistinctLabels) :
    (∀ l : logLevel, logLevelNameToEnum (logLevelEnumToName c l) = l) ∧
    (∀ s : String, logLevelIntegerToName c (logLevelNameToInteger c s) ∈
      ["ERROR", "WARNING", "INFO", "DEBUG"]) ∧
    (∀ s ∈ ["ERROR", "WARNING", "INFO", "DEBUG"],
      logLevelIntegerToName c (logLevelNameToInteger c s) = s) ∧
    (∀ s ∈ ["EMERGENCY", "ALERT", "CRITICAL"],
      logLevelNameToEnum s = logLevel.ERROR ∧
        logLevelIntegerToName c (logLevelNameToInteger c s) = "ERROR") ∧
    (∀ s : String,
      s ∉ ["ERROR", "WARNING", "INFO", "DEBUG", "EMERGENCY", "ALERT", "CRITICAL"] →
      logLevelNameToEnum s = logLevel.INFO ∧
        logLevelIntegerToName c (logLevelNameToInteger c s) = "INFO") := by
  have hname : ∀ l : logLevel, logLevelIntegerToName c (underlying c l) =
      match l with
      | logLevel.ERROR => "ERROR"
      | logLevel.WARNING => "WARNING"
      | logLevel.INFO => "INFO"
      | logLevel.DEBUG => "DEBUG" := fun l => logLevelEnumToName_eq c hc l
  refine ⟨?_, ?_, ?_, ?_, ?_⟩
  · intro l
    rw [logLevelEnumToName_eq c hc l]
    cases l <;> decide
  · intro s
    unfold logLevelNameToInteger
    rw [hname]
    cases logLevelNameToEnum s <;> simp
  · intro s hs
    unfold logLevelNameToInteger
    rw [hname]
    simp only [List.mem_cons, List.mem_singleton, List.not_mem_nil, or_false] at hs
    rcases hs with rfl | rfl | rfl | rfl <;> rfl
  · intro s hs
    unfold logLevelNameToInteger
    rw [hname]
    simp only [List.mem_cons, List.mem_singleton, List.not_mem_nil, or_false] at hs
    rcases hs with rfl | rfl | rfl <;> exact ⟨rfl, rfl⟩
  · intro s hs
    simp only [List.mem_cons, List.mem_singleton, List.not_mem_nil, or_false, not_or] at hs
    obtain ⟨n1, n2, n3, n4, n5, n6, n7⟩ := hs
    have hI : logLevelNameToEnum s = logLevel.INFO := by
      rw [logLevelNameToEnum_eq]
      simp [n1, n2, n3, n4, n5, n6, n7]
    refine ⟨hI, ?_⟩
    unfold logLevelNameToInteger
    rw [hname, hI]

/-- Witness of C30: the syslog numbering 3, 4, 6, 7 of the four levels. -/
theorem log_level_round_trip_witness :
    (∀ l : logLevel, logLevelNameToEnum (logLevelEnumToName sampleCodes l) = l) ∧
      logLevelIntegerToName sampleCodes (logLevelNameToInteger sampleCodes "ALERT")
        = "ERROR" ∧
      logLevelIntegerToName sampleCodes (logLevelNameToInteger sampleCodes "NOTICE")
        = "INFO" :=
  ⟨(log_level_round_trip sampleCodes (by unfold LogLevelCodes.DistinctLabels; decide)).1,
   ((log_level_round_trip sampleCodes (by unfold LogLevelCodes.DistinctLabels; decide)).2.2.2.1
      "ALERT" (by decide)).2,
   ((log_level_round_trip sampleCodes (by unfold LogLevelCodes.DistinctLabels; decide)).2.2.2.2
      "NOTICE" (by decide)).2⟩

end LoggerInternal
end dv
